import Mathlib

/-!
A shallow embedding of `asteriskify.c`.

The program reads a secret byte by byte from a terminal in raw mode, keeps it
in a growable buffer, redraws a prompt line on standard error after every edit
and writes the secret to standard output on commit.

Modelling conventions.

* A byte (`uint8_t`, `char`) is a `Fin 256`.
* `size_t` values are natural numbers.  The only additions on them are
  `pwbufsize + PWBUF_SIZE` and `++pwindex`, both bounded by the size of a
  live heap block, so no wrap-around is modelled.
* The heap is the list of all blocks ever returned by `calloc`; a pointer is
  the position of its block in that list (`none` is `NULL`).  The program never
  calls `free`, so blocks are never removed.  Every access through a pointer is
  bounds checked and an access outside its block is undefined behaviour (`ub`).
* Standard error and standard output are the lists of the `write` calls made on
  them, oldest first.  `fprintf(stderr, ...)` is one write.  `fsync` has no
  effect on the model.  A `write` always transfers all of its bytes.
* Standard input is the list of the bytes still to be read; `read` returns 1
  and removes the head, or returns 0 at the end of the list.
* The results of the system calls that may fail are given by an environment
  `Env`, indexed by how many calls of that kind were made before.
* `exit` runs `exit_handler` when `atexit` registered it.  A nested `exit`
  inside the handler ends the process with the nested status (the handler is
  already unregistered when it runs, as in glibc).
-/

namespace Asteriskify

abbrev Byte := Fin 256

/-- Source line 28: `#define PWBUF_SIZE 256`. -/
def PWBUF_SIZE : Nat := 256

/-- Source line 30: `#define MODE_ECHO 0`. -/
def MODE_ECHO : Int := 0

/-- Source line 31: `#define MODE_STARS 1`. -/
def MODE_STARS : Int := 1

/-- The value of `EXIT_FAILURE` in `<stdlib.h>`. -/
def EXIT_FAILURE : Nat := 1

/-- The value of `ECHO` in the Linux `<termios.h>` (octal 10). -/
def ECHO : Nat := 8

/-- The value of `ICANON` in the Linux `<termios.h>` (octal 2). -/
def ICANON : Nat := 2

/-- The fields of `struct termios`; flags are 32 bit unsigned values. -/
structure Termios where
  c_iflag : Nat
  c_oflag : Nat
  c_cflag : Nat
  c_lflag : Nat
  c_cc : List Nat
deriving DecidableEq, Repr

/-- The results of the fallible system calls.  The functions take the number of
earlier calls of the same kind.  `fionread k` is `none` when the `ioctl` fails
and `some n` when it reports `n` queued bytes. -/
structure Env where
  atexit_ok : Bool
  prctl_ok : Bool
  tcgetattr_ok : Bool
  tcsetattr_ok : Nat → Bool
  calloc_ok : Nat → Bool
  mlock_ok : Nat → Bool
  fionread : Nat → Option Nat

/-- The globals of the program (first five fields) and the part of the process
environment the program acts on.  `handler` is true once `atexit` registered
`exit_handler`; `restores` counts the calls of `restore_console`. -/
structure State where
  saved_termios : Termios
  pwbuf : Option Nat
  pwbufsize : Nat
  pwindex : Nat
  current_mode : Int
  heap : List (List Byte)
  tty : Termios
  stdin : List Byte
  stderr : List (List Byte)
  stdout : List (List Byte)
  handler : Bool
  n_tcsetattr : Nat
  n_calloc : Nat
  n_mlock : Nat
  n_ioctl : Nat
  restores : Nat
deriving DecidableEq

/-- How a function of the program hands control back: it returns, it calls
`exit(code)`, it runs into undefined behaviour, or (only for the bounded
unrolling of the read loop) the unrolling bound is used up. -/
inductive Ctl where
  | ret (s : State)
  | exit (code : Nat) (s : State)
  | ub
  | nofuel
deriving DecidableEq

/-- How one iteration of the read loop ends. -/
inductive Flow where
  | cont (s : State)
  | brk (s : State)
  | exit (code : Nat) (s : State)
  | ub
deriving DecidableEq

/-- How the process ends. -/
inductive Outcome where
  | terminated (status : Nat) (s : State)
  | ub
  | nofuel
deriving DecidableEq

/-- Sequencing: continue with `f` after a normal return. -/
def Ctl.bind (r : Ctl) (f : State → Ctl) : Ctl :=
  match r with
  | .ret s => f s
  | .exit code s => .exit code s
  | .ub => .ub
  | .nofuel => .nofuel

/-- Sequencing inside the read loop: continue with `k` after a normal return. -/
def Ctl.andThen (r : Ctl) (k : State → Flow) : Flow :=
  match r with
  | .ret s => k s
  | .exit code s => .exit code s
  | .ub => .ub
  | .nofuel => .ub

/-- The bytes of an ASCII string literal. -/
def strBytes (str : String) : List Byte :=
  str.toList.map (fun ch => (⟨ch.toNat % 256, Nat.mod_lt _ (by decide)⟩ : Byte))

/-- The zero-initialised `struct termios saved_termios` of line 33. -/
def zero_termios : Termios :=
  { c_iflag := 0, c_oflag := 0, c_cflag := 0, c_lflag := 0, c_cc := List.replicate 32 0 }

/-- The state at the start of `main`: globals at their initialisers (lines
33-37), an empty heap, nothing written yet. -/
def init (tty : Termios) (input : List Byte) : State :=
  { saved_termios := zero_termios, pwbuf := none, pwbufsize := 0, pwindex := 0,
    current_mode := MODE_ECHO, heap := [], tty := tty, stdin := input,
    stderr := [], stdout := [], handler := false,
    n_tcsetattr := 0, n_calloc := 0, n_mlock := 0, n_ioctl := 0, restores := 0 }

/-! Memory and system calls. -/

/-- Read `n` bytes at offset `off` of the block `p` points to. -/
def load (heap : List (List Byte)) (p : Option Nat) (off n : Nat) : Option (List Byte) :=
  if n = 0 then some []
  else
    match p with
    | none => none
    | some a =>
      match heap[a]? with
      | none => none
      | some blk => if off + n ≤ blk.length then some ((blk.drop off).take n) else none

/-- Write one byte at offset `off` of the block `p` points to. -/
def store (heap : List (List Byte)) (p : Option Nat) (off : Nat) (c : Byte) :
    Option (List (List Byte)) :=
  match p with
  | none => none
  | some a =>
    match heap[a]? with
    | none => none
    | some blk => if off < blk.length then some (heap.set a (blk.set off c)) else none

/-- The call `explicit_bzero(p, n)`. -/
def explicit_bzero (heap : List (List Byte)) (p : Option Nat) (n : Nat) :
    Option (List (List Byte)) :=
  if n = 0 then some heap
  else
    match p with
    | none => none
    | some a =>
      match heap[a]? with
      | none => none
      | some blk =>
        if n ≤ blk.length then some (heap.set a (List.replicate n 0 ++ blk.drop n)) else none

/-- The call `memcpy(dst, src, n)` for pointers to the start of two blocks. -/
def memcpy (heap : List (List Byte)) (dst src : Option Nat) (n : Nat) :
    Option (List (List Byte)) :=
  match load heap src 0 n with
  | none => none
  | some bytes =>
    if n = 0 then some heap
    else
      match dst with
      | none => none
      | some a =>
        match heap[a]? with
        | none => none
        | some blk =>
          if n ≤ blk.length then some (heap.set a (bytes ++ blk.drop n)) else none

/-- The call `calloc(n, sizeof(uint8_t))`: a fresh zero-filled block, or `NULL`. -/
def calloc (env : Env) (n : Nat) (s : State) : Option Nat × State :=
  if env.calloc_ok s.n_calloc then
    (some s.heap.length,
      { s with heap := s.heap ++ [List.replicate n 0], n_calloc := s.n_calloc + 1 })
  else (none, { s with n_calloc := s.n_calloc + 1 })

/-- The call `mlock(p, n)`: only its result is modelled. -/
def mlock (env : Env) (s : State) : Bool × State :=
  (env.mlock_ok s.n_mlock, { s with n_mlock := s.n_mlock + 1 })

/-- The call `tcsetattr(STDIN_FILENO, TCSAFLUSH, t)`. -/
def tcsetattr (env : Env) (t : Termios) (s : State) : Bool × State :=
  if env.tcsetattr_ok s.n_tcsetattr then
    (true, { s with tty := t, n_tcsetattr := s.n_tcsetattr + 1 })
  else (false, { s with n_tcsetattr := s.n_tcsetattr + 1 })

/-- The call `write(STDERR_FILENO, bytes, len)`, also used for `fprintf(stderr, ...)`. -/
def write_stderr (bytes : List Byte) (s : State) : State :=
  { s with stderr := s.stderr ++ [bytes] }

/-- The call `write(STDOUT_FILENO, bytes, len)`. -/
def write_stdout (bytes : List Byte) (s : State) : State :=
  { s with stdout := s.stdout ++ [bytes] }

/-- The call `read(STDIN_FILENO, &c, 1)`: the byte read, if any. -/
def read1 (s : State) : Option Byte × State :=
  match s.stdin with
  | [] => (none, s)
  | c :: rest => (some c, { s with stdin := rest })

/-- The function `iscntrl` of `<ctype.h>` in the C locale, on a byte. -/
def iscntrl (c : Byte) : Bool := decide (c.val < 32) || decide (c.val = 127)

/-! The functions of the program. -/

/-- Source lines 39-48. -/
def enter_raw_mode (env : Env) (s : State) : Ctl :=
  let raw : Termios :=
    { s.saved_termios with
      c_lflag := s.saved_termios.c_lflag &&& (4294967295 ^^^ (ECHO ||| ICANON)) }
  match tcsetattr env raw s with
  | (true, s1) => .ret s1
  | (false, s1) => .exit EXIT_FAILURE (write_stderr (strBytes ("Failed tcsetattr\n")) s1)

/-- Source lines 50-58.  A failing `tcgetattr` leaves `saved_termios` as it was. -/
def setup_console (env : Env) (s : State) : Ctl :=
  if env.tcgetattr_ok then enter_raw_mode env { s with saved_termios := s.tty }
  else .exit EXIT_FAILURE (write_stderr (strBytes ("Failed tcgetattr\n")) s)

/-- Source lines 60-67; the call is counted in `restores`. -/
def restore_console (env : Env) (s : State) : Ctl :=
  match tcsetattr env s.saved_termios { s with restores := s.restores + 1 } with
  | (true, s1) => .ret s1
  | (false, s1) => .exit EXIT_FAILURE (write_stderr (strBytes ("Failed tcsetattr\n")) s1)

/-- Source lines 70-85. -/
def allocate_pw_buf (env : Env) (s : State) : Ctl :=
  match calloc env PWBUF_SIZE s with
  | (none, s1) =>
    .exit EXIT_FAILURE
      (write_stderr (strBytes ("Failed to allocate memory\n")) { s1 with pwbuf := none })
  | (some p, s1) =>
    match mlock env { s1 with pwbuf := some p } with
    | (false, s2) => .exit EXIT_FAILURE (write_stderr (strBytes ("Failed to mlock buffer\n")) s2)
    | (true, s2) => .ret { s2 with pwbufsize := PWBUF_SIZE }

/-- Source lines 87-106. -/
def grow_pw_buf (env : Env) (s : State) : Ctl :=
  let newsize := s.pwbufsize + PWBUF_SIZE
  match calloc env newsize s with
  | (none, s1) => .exit EXIT_FAILURE (write_stderr (strBytes ("Failed to allocate memory\n")) s1)
  | (some newbuf, s1) =>
    match mlock env s1 with
    | (false, s2) => .exit EXIT_FAILURE (write_stderr (strBytes ("Failed to mlock buffer\n")) s2)
    | (true, s2) =>
      match memcpy s2.heap (some newbuf) s2.pwbuf s2.pwbufsize with
      | none => .ub
      | some h1 =>
        match explicit_bzero h1 s2.pwbuf s2.pwbufsize with
        | none => .ub
        | some h2 => .ret { s2 with heap := h2, pwbuf := some newbuf, pwbufsize := newsize }

/-- Source lines 108-115. -/
def exit_handler (env : Env) (s : State) : Ctl :=
  match explicit_bzero s.heap s.pwbuf s.pwbufsize with
  | none => .ub
  | some h => restore_console env { s with heap := h, pwbufsize := 0, pwindex := 0 }

/-- Source lines 117-121; the string is ESC `[2K` CR. -/
def clear_term_line (s : State) : State :=
  write_stderr (strBytes ("\x1b[2K\r")) s

/-- The loop of source lines 134-144 over the bytes `pwbuf[0 .. pwindex)`. -/
def print_stars : List Byte → State → State
  | [], s => s
  | n :: rest, s =>
    if n.val >>> 6 = 2 then print_stars rest s
    else print_stars rest (write_stderr [42] s)

/-- Source lines 123-147.  The two `if`s are independent, as in the source; the
bytes `pwbuf[0 .. pwindex)` are read in one bounds-checked access. -/
def print_password (s : State) : Ctl :=
  let s1 := clear_term_line s
  let s2 := write_stderr (strBytes ("Password: ")) s1
  let echoed : Ctl :=
    if s2.current_mode = MODE_ECHO then
      match load s2.heap s2.pwbuf 0 s2.pwindex with
      | none => .ub
      | some bytes => .ret (write_stderr bytes s2)
    else .ret s2
  echoed.bind fun s3 =>
    if s3.current_mode = MODE_STARS then
      match load s3.heap s3.pwbuf 0 s3.pwindex with
      | none => .ub
      | some bytes => .ret (print_stars bytes s3)
    else .ret s3

/-- Source lines 149-152; `%` on `int` truncates. -/
def switch_mode (s : State) : State :=
  { s with current_mode := (s.current_mode + 1).tmod 2 }

/-- Source lines 195-198: `remaining` reads whose results are ignored. -/
def consume : Nat → State → State
  | 0, s => s
  | n + 1, s => consume n (read1 s).2

/-- Source lines 179-183 of `main`: the Tab branch. -/
def tab_branch (c : Byte) (s : State) : Ctl :=
  if c = 9 then print_password (switch_mode s) else .ret s

/-- Source lines 184-199 of `main`: the escape branch. -/
def escape_branch (env : Env) (c : Byte) (s : State) : Ctl :=
  if c = 27 then
    match env.fionread s.n_ioctl with
    | none =>
      .exit EXIT_FAILURE
        (write_stderr (strBytes ("ioctl() failed\n")) { s with n_ioctl := s.n_ioctl + 1 })
    | some remaining => .ret (consume remaining { s with n_ioctl := s.n_ioctl + 1 })
  else .ret s

/-- Source lines 200-209 of `main`: the reveal branch. -/
def reveal_branch (c : Byte) (s : State) : Ctl :=
  if c = 18 then
    if s.pwindex > 0 then
      match load s.heap s.pwbuf (s.pwindex - 1) 1 with
      | none => .ub
      | some last => .ret (write_stderr last (write_stderr [8] s))
    else .ret s
  else .ret s

/-- Source lines 210-223 of `main`: backspace, newline and the closing `continue`. -/
def control_tail (c : Byte) (s : State) : Flow :=
  if c = 127 then
    (print_password
      (if s.pwindex > 0 then { s with pwindex := s.pwindex - 1 } else s)).andThen .cont
  else if c = 10 then .brk s
  else .cont s

/-- Source lines 225-228 of `main`: grow the buffer when it is full. -/
def ensure_capacity (env : Env) (s : State) : Ctl :=
  if s.pwindex = s.pwbufsize then grow_pw_buf env s else .ret s

/-- Source lines 225-233 of `main`: append the byte and redraw. -/
def append_branch (env : Env) (c : Byte) (s : State) : Ctl :=
  (ensure_capacity env s).bind fun s1 =>
    match store s1.heap s1.pwbuf s1.pwindex c with
    | none => .ub
    | some h => print_password { s1 with heap := h, pwindex := s1.pwindex + 1 }

/-- Source lines 176-234 of `main`: the body of the read loop for the byte `c`
just read. -/
def loop_body (env : Env) (c : Byte) (s : State) : Flow :=
  if iscntrl c then
    (((tab_branch c s).bind (escape_branch env c)).bind (reveal_branch c)).andThen
      (control_tail c)
  else (append_branch env c s).andThen .cont

/-- Source lines 175-234 of `main`: the read loop, unrolled at most `fuel` times. -/
def main_loop (env : Env) : Nat → State → Ctl
  | 0, _ => .nofuel
  | fuel + 1, s =>
    match read1 s with
    | (none, s1) => .ret s1
    | (some c, s1) =>
      match loop_body env c s1 with
      | .cont s2 => main_loop env fuel s2
      | .brk s2 => .ret s2
      | .exit code s2 => .exit code s2
      | .ub => .ub

/-- Source lines 156-166 of `main`: register the handler, make the process
not dumpable. -/
def main_prelude (env : Env) (s : State) : Ctl :=
  if env.atexit_ok then
    if env.prctl_ok then .ret { s with handler := true }
    else
      .exit EXIT_FAILURE
        (write_stderr (strBytes ("Failed to make process not dumpable\n"))
          { s with handler := true })
  else .exit EXIT_FAILURE (write_stderr (strBytes ("Failed to register exit handler\n")) s)

/-- Source lines 235-241 of `main`: clear the line and write the secret. -/
def main_commit (s : State) : Ctl :=
  let s1 := clear_term_line s
  match load s1.heap s1.pwbuf 0 s1.pwindex with
  | none => .ub
  | some bytes => .ret (write_stdout bytes s1)

/-- Source lines 156-170 of `main`: everything up to and including
`allocate_pw_buf`. -/
def main_alloc (env : Env) (s : State) : Ctl :=
  ((main_prelude env s).bind (setup_console env)).bind (allocate_pw_buf env)

/-- Source lines 156-172 of `main`: everything before the read loop. -/
def main_startup (env : Env) (s : State) : Ctl :=
  (main_alloc env s).bind print_password

/-- Source lines 154-242: `main`.  Every iteration of the loop reads at least
one byte, so one more unrolling than there are input bytes is enough. -/
def main (env : Env) (s : State) : Ctl :=
  (main_startup env s).bind fun s1 =>
    (main_loop env (s1.stdin.length + 1) s1).bind main_commit

/-- The library function `exit`: run the registered handler, then end the process. -/
def exit (env : Env) (code : Nat) (s : State) : Outcome :=
  if s.handler then
    match exit_handler env { s with handler := false } with
    | .ret s1 => .terminated code s1
    | .exit code1 s1 => .terminated code1 s1
    | .ub => .ub
    | .nofuel => .nofuel
  else .terminated code s

/-- A whole run of the program on a terminal with attributes `tty` and the
input bytes `input`; returning from `main` is `exit` with that value. -/
def run (env : Env) (tty : Termios) (input : List Byte) : Outcome :=
  match main env (init tty input) with
  | .ret s => exit env 0 s
  | .exit code s => exit env code s
  | .ub => .ub
  | .nofuel => .nofuel

/-- An environment in which every system call succeeds and every `FIONREAD`
probe reports `n` queued bytes. -/
def env_ok (n : Nat) : Env :=
  { atexit_ok := true, prctl_ok := true, tcgetattr_ok := true,
    tcsetattr_ok := fun _ => true, calloc_ok := fun _ => true, mlock_ok := fun _ => true,
    fionread := fun _ => some n }

/-- A cooked terminal: `ECHO` and `ICANON` set among the local flags. -/
def tty_cooked : Termios :=
  { c_iflag := 17664, c_oflag := 5, c_cflag := 191, c_lflag := 35387,
    c_cc := List.replicate 32 0 }

/-- The status of a finished run. -/
def Outcome.status (o : Outcome) : Option Nat :=
  match o with
  | .terminated code _ => some code
  | _ => none

/-- The final state of a finished run. -/
def Outcome.final (o : Outcome) : Option State :=
  match o with
  | .terminated _ s => some s
  | _ => none

/-! Specification-side notions. -/

/-- The block the buffer pointer designates, if it designates one. -/
def cur_block (s : State) : Option (List Byte) :=
  match s.pwbuf with
  | none => none
  | some a => s.heap[a]?

/-- The logical contents of the buffer: its first `pwindex` bytes. -/
def content (s : State) : List Byte :=
  ((cur_block s).getD []).take s.pwindex

/-- A byte whose top two bits (bits 7 and 6) are binary 10. -/
def is_continuation (b : Byte) : Bool := b.val.testBit 7 && !b.val.testBit 6

/-- The writes made by one redraw: the clear sequence, the prompt, then the
bytes themselves in Echo mode, or one asterisk per non-continuation byte in
Masked mode. -/
def rendered (mode : Int) (bytes : List Byte) : List (List Byte) :=
  [strBytes ("\x1b[2K\r"), strBytes ("Password: ")] ++
    (if mode = MODE_ECHO then [bytes] else []) ++
    (if mode = MODE_STARS then
      List.replicate (bytes.countP (fun b => !is_continuation b)) [42] else [])

/-- The buffer invariant: the pointer designates a block as long as the
capacity, the index is within the capacity, every other block is zero, the
mode is one of the two modes, the capacity is a positive multiple of the
increment. -/
def Inv (s : State) : Prop :=
  ∃ a blk, s.pwbuf = some a ∧ s.heap[a]? = some blk ∧ blk.length = s.pwbufsize ∧
    s.pwindex ≤ s.pwbufsize ∧
    (∀ j b, j ≠ a → s.heap[j]? = some b → b = List.replicate b.length 0) ∧
    (s.current_mode = MODE_ECHO ∨ s.current_mode = MODE_STARS) ∧
    0 < s.pwbufsize ∧ PWBUF_SIZE ∣ s.pwbufsize

/-- What `exit_handler` relies on: the pointer designates a block as long as
the capacity unless the capacity is zero, and every block is either that
block or all zero. -/
def Safe (s : State) : Prop :=
  (s.pwbufsize = 0 ∨
    ∃ a blk, s.pwbuf = some a ∧ s.heap[a]? = some blk ∧ blk.length = s.pwbufsize) ∧
  ∀ j b, s.heap[j]? = some b →
    (s.pwbuf = some j ∧ b.length = s.pwbufsize) ∨ b = List.replicate b.length 0

/-- Every byte of every block of the heap is zero. -/
def AllZero (heap : List (List Byte)) : Prop :=
  ∀ b ∈ heap, ∀ x ∈ b, x = 0

/-- The states of the read loop: the state after `allocate_pw_buf`, the state
after the first redraw, every state just after `read` delivered a byte, and
every state in which an iteration of the loop ends with the loop going on. -/
inductive Reachable (env : Env) : State → Prop
  | alloc (tty : Termios) (input : List Byte) (s : State) :
      main_alloc env (init tty input) = .ret s → Reachable env s
  | start (tty : Termios) (input : List Byte) (s : State) :
      main_startup env (init tty input) = .ret s → Reachable env s
  | read (s : State) (c : Byte) (rest : List Byte) :
      Reachable env s → s.stdin = c :: rest → Reachable env { s with stdin := rest }
  | step (s : State) (c : Byte) (rest : List Byte) (t : State) :
      Reachable env s → s.stdin = c :: rest →
      loop_body env c { s with stdin := rest } = .cont t → Reachable env t

/-- An environment in which registering the exit handler fails. -/
def env_atexit_fails : Env := { env_ok 0 with atexit_ok := false }

/-- An environment in which `prctl` fails. -/
def env_prctl_fails : Env := { env_ok 0 with prctl_ok := false }

/-- An environment in which only the first `tcsetattr` call succeeds. -/
def env_restore_fails : Env := { env_ok 0 with tcsetattr_ok := fun k => decide (k = 0) }

/-- The state in which `allocate_pw_buf` returns when every call before it
succeeded: raw terminal, one zero block of `PWBUF_SIZE` bytes. -/
def alloc_state (tty : Termios) (input : List Byte) : State :=
  { saved_termios := tty, pwbuf := some 0, pwbufsize := PWBUF_SIZE, pwindex := 0,
    current_mode := MODE_ECHO, heap := [List.replicate PWBUF_SIZE 0],
    tty := { tty with c_lflag := tty.c_lflag &&& (4294967295 ^^^ (ECHO ||| ICANON)) },
    stdin := input, stderr := [], stdout := [], handler := true,
    n_tcsetattr := 1, n_calloc := 1, n_mlock := 1, n_ioctl := 0, restores := 0 }

/-- The state in which the read loop starts: `alloc_state` after the first redraw. -/
def start_state (tty : Termios) (input : List Byte) : State :=
  { alloc_state tty input with stderr := rendered MODE_ECHO [] }

/-- The state of the read loop, in Echo mode, after the single byte `a` (97)
was entered, with `input` still to be read. -/
def state_a (input : List Byte) : State :=
  { start_state tty_cooked input with
    heap := [97 :: List.replicate 255 0], pwindex := 1,
    stderr := rendered MODE_ECHO [] ++ rendered MODE_ECHO [97] }

/-- The parts of the state the read loop never touches, and the input only
ever shrinking. -/
def Frame (s t : State) : Prop :=
  t.saved_termios = s.saved_termios ∧ t.tty = s.tty ∧ t.handler = s.handler ∧
    t.restores = s.restores ∧ t.n_tcsetattr = s.n_tcsetattr ∧ t.stdout = s.stdout ∧
    t.stdin.length ≤ s.stdin.length

/-- A property of the state a function hands back, excluding undefined
behaviour and an exhausted unrolling bound. -/
def Ctl.Post (R : State → Prop) (E : Nat → State → Prop) : Ctl → Prop
  | .ret s => R s
  | .exit code s => E code s
  | .ub => False
  | .nofuel => False

/-- A property of the state a loop iteration hands back, excluding undefined
behaviour. -/
def Flow.Post (C B : State → Prop) (E : Nat → State → Prop) : Flow → Prop
  | .cont s => C s
  | .brk s => B s
  | .exit code s => E code s
  | .ub => False

/-- The redraws made while the non-control bytes `bs` are entered one by one
after the contents `base`: one redraw per byte, of the contents so far. -/
def redraws (mode : Int) : List Byte → List Byte → List (List Byte)
  | _, [] => []
  | base, b :: bs => rendered mode (base ++ [b]) ++ redraws mode (base ++ [b]) bs

/-- The lines drawn in Echo mode while the first `n` bytes of `xs` are entered
into an empty buffer, oldest first: for each `i` from 0 to `n` the clear
sequence, the prompt and the first `i` bytes of `xs` verbatim. -/
def echo_lines (xs : List Byte) : Nat → List (List Byte)
  | 0 => [[27, 91, 50, 75, 13], [80, 97, 115, 115, 119, 111, 114, 100, 58, 32], []]
  | n + 1 =>
    echo_lines xs n ++
      [[27, 91, 50, 75, 13], [80, 97, 115, 115, 119, 111, 114, 100, 58, 32], xs.take (n + 1)]

/-- The lines drawn in Masked mode by a Tab with `k` bytes entered and then by
`m` further bytes, oldest first: for each `j` from 0 to `m` the clear sequence,
the prompt and `k + j` asterisks, each asterisk a write of its own. -/
def star_lines (k : Nat) : Nat → List (List Byte)
  | 0 =>
    [[27, 91, 50, 75, 13], [80, 97, 115, 115, 119, 111, 114, 100, 58, 32]] ++
      List.replicate k [42]
  | j + 1 =>
    star_lines k j ++
      ([[27, 91, 50, 75, 13], [80, 97, 115, 115, 119, 111, 114, 100, 58, 32]] ++
        List.replicate (k + (j + 1)) [42])

/-- The state `s` with the pending input replaced by `x`. -/
def with_stdin (x : List Byte) (s : State) : State := { s with stdin := x }

/-- The state `s` with the heap replaced by `h`. -/
def with_heap (h : List (List Byte)) (s : State) : State := { s with heap := h }

/-- Apply `f` to the state a function hands back. -/
def Ctl.map (f : State → State) : Ctl → Ctl
  | .ret s => .ret (f s)
  | .exit code s => .exit code (f s)
  | .ub => .ub
  | .nofuel => .nofuel

/-- Apply `f` to the state a loop iteration hands back. -/
def Flow.map (f : State → State) : Flow → Flow
  | .cont s => .cont (f s)
  | .brk s => .brk (f s)
  | .exit code s => .exit code (f s)
  | .ub => .ub

/-- Apply `f` to the final state of a run. -/
def Outcome.map (f : State → State) : Outcome → Outcome
  | .terminated code s => .terminated code (f s)
  | .ub => .ub
  | .nofuel => .nofuel

/-- The state after `n` more iterations of the read loop that all go on. -/
def iterate_loop (env : Env) : Nat → State → Option State
  | 0, s => some s
  | n + 1, s =>
    match read1 s with
    | (some c, s1) =>
      match loop_body env c s1 with
      | .cont s2 => iterate_loop env n s2
      | _ => none
    | (none, _) => none

/-- The state of the read loop, in Masked mode, after Tab and the three bytes
E2 82 AC of one UTF-8 character were entered, with `input` still to be read. -/
def state_euro (input : List Byte) : State :=
  { start_state tty_cooked input with
    heap := [226 :: 130 :: 172 :: List.replicate 253 0], pwindex := 3,
    current_mode := MODE_STARS,
    stderr := rendered MODE_ECHO [] ++ rendered MODE_STARS [] ++ rendered MODE_STARS [226] ++
      rendered MODE_STARS [226, 130] ++ rendered MODE_STARS [226, 130, 172] }

/-- The heap `H` is a heap the state `s` could have instead of its own with the
same live data: as many blocks, the same first `pwindex` bytes in the block
the pointer designates, and the buffer invariant holds with either heap.  The
two heaps may differ in the bytes at positions `pwindex` and above. -/
def Shadow (s : State) (H : List (List Byte)) : Prop :=
  H.length = s.heap.length ∧ content (with_heap H s) = content s ∧ Inv s ∧
    Inv (with_heap H s)

/-- The rest of a run from a state of the read loop: the read loop (source
lines 175-234), the commit (lines 235-241) and `exit`. -/
def finish (env : Env) (s : State) : Outcome :=
  match (main_loop env (s.stdin.length + 1) s).bind main_commit with
  | .ret t => exit env 0 t
  | .exit code t => exit env code t
  | .ub => .ub
  | .nofuel => .nofuel

/-- The state of the read loop, in Echo mode, after the non-control bytes `bs`
(at most `PWBUF_SIZE` of them) were entered, with `input` still to be read. -/
def state_typed (bs input : List Byte) : State :=
  { start_state tty_cooked input with
    heap := [bs ++ List.replicate (PWBUF_SIZE - bs.length) 0], pwindex := bs.length,
    stderr := rendered MODE_ECHO [] ++ redraws MODE_ECHO [] bs }

/-! Basic facts. -/

set_option maxRecDepth 100000 in
theorem shift_eq_two_iff (b : Byte) : (b.val >>> 6 = 2) ↔ is_continuation b = true := by
  revert b; decide

theorem print_stars_eq (bytes : List Byte) (s : State) :
    print_stars bytes s =
      { s with stderr := s.stderr ++
          List.replicate (bytes.countP (fun b => !is_continuation b)) [42] } := by
  induction bytes generalizing s with
  | nil => simp [print_stars]
  | cons n rest ih =>
    by_cases h : n.val >>> 6 = 2
    · have hc : is_continuation n = true := (shift_eq_two_iff n).1 h
      simp [print_stars, h, ih, hc]
    · have hc : is_continuation n = false := by
        cases hx : is_continuation n with
        | false => rfl
        | true => exact absurd ((shift_eq_two_iff n).2 hx) h
      simp [print_stars, h, ih, hc, write_stderr, List.replicate_succ]

theorem load_content (s : State) (h : Inv s) :
    load s.heap s.pwbuf 0 s.pwindex = some (content s) := by
  obtain ⟨a, blk, hp, hb, hl, hi, -⟩ := h
  unfold load content cur_block
  by_cases h0 : s.pwindex = 0
  · simp [h0]
  · simp [h0, hp, hb]
    omega

theorem print_password_eq (s : State) (bytes : List Byte)
    (h : load s.heap s.pwbuf 0 s.pwindex = some bytes)
    (hm : s.current_mode = MODE_ECHO ∨ s.current_mode = MODE_STARS) :
    print_password s =
      .ret { s with stderr := s.stderr ++ rendered s.current_mode bytes } := by
  rcases hm with hm | hm
  · simp [print_password, clear_term_line, write_stderr, Ctl.bind, hm, h, rendered,
      MODE_ECHO, MODE_STARS]
  · simp [print_password, clear_term_line, write_stderr, Ctl.bind, hm, h, rendered,
      MODE_ECHO, MODE_STARS, print_stars_eq]

theorem grow_pw_buf_eq (env : Env) (s : State) (a : Nat) (blk : List Byte)
    (hp : s.pwbuf = some a) (hb : s.heap[a]? = some blk) (hl : blk.length = s.pwbufsize)
    (hpos : 0 < s.pwbufsize)
    (hc : env.calloc_ok s.n_calloc = true) (hm : env.mlock_ok s.n_mlock = true) :
    grow_pw_buf env s =
      .ret { s with
        heap := s.heap.set a (List.replicate s.pwbufsize 0) ++
          [blk ++ List.replicate PWBUF_SIZE 0],
        pwbuf := some s.heap.length, pwbufsize := s.pwbufsize + PWBUF_SIZE,
        n_calloc := s.n_calloc + 1, n_mlock := s.n_mlock + 1 } := by
  have ha : a < s.heap.length := by
    rcases Nat.lt_or_ge a s.heap.length with h | h
    · exact h
    · rw [List.getElem?_eq_none h] at hb; cases hb
  have hne : s.pwbufsize ≠ 0 := by omega
  simp [grow_pw_buf, calloc, mlock, hc, hm, memcpy, load, explicit_bzero, hp, hb, hl, hne,
    List.getElem?_append_left ha]
  rw [← hl, List.take_length, List.drop_length, List.append_nil, List.set_append_left _ _ ha]

theorem Inv.congr {s t : State} (h : Inv s) (h1 : t.pwbuf = s.pwbuf) (h2 : t.heap = s.heap)
    (h3 : t.pwbufsize = s.pwbufsize) (h4 : t.pwindex = s.pwindex)
    (h5 : t.current_mode = s.current_mode) : Inv t := by
  unfold Inv at *
  rw [h1, h2, h3, h4, h5]
  exact h

theorem content_congr {s t : State} (h1 : t.pwbuf = s.pwbuf) (h2 : t.heap = s.heap)
    (h4 : t.pwindex = s.pwindex) : content t = content s := by
  unfold content cur_block
  rw [h1, h2, h4]

theorem Frame.refl (s : State) : Frame s s := by
  simp [Frame]

theorem Frame.trans {s t u : State} (h1 : Frame s t) (h2 : Frame t u) : Frame s u := by
  unfold Frame at *
  obtain ⟨a1, a2, a3, a4, a5, a6, a7⟩ := h1
  obtain ⟨b1, b2, b3, b4, b5, b6, b7⟩ := h2
  exact ⟨b1.trans a1, b2.trans a2, b3.trans a3, b4.trans a4, b5.trans a5, b6.trans a6,
    Nat.le_trans b7 a7⟩

theorem lt_length_of_getElem? {α : Type} {l : List α} {a : Nat} {x : α}
    (h : l[a]? = some x) : a < l.length := by
  rcases Nat.lt_or_ge a l.length with h1 | h1
  · exact h1
  · rw [List.getElem?_eq_none h1] at h; cases h

/-- The state after a successful `grow_pw_buf`. -/
theorem grow_pw_buf_inv (s : State) (a : Nat) (blk : List Byte)
    (hp : s.pwbuf = some a) (hb : s.heap[a]? = some blk) (hl : blk.length = s.pwbufsize)
    (hi : s.pwindex ≤ s.pwbufsize)
    (hz : ∀ j b, j ≠ a → s.heap[j]? = some b → b = List.replicate b.length 0)
    (hm : s.current_mode = MODE_ECHO ∨ s.current_mode = MODE_STARS)
    (hpos : 0 < s.pwbufsize) (hdvd : PWBUF_SIZE ∣ s.pwbufsize) (t : State)
    (h1 : t.pwbuf = some s.heap.length)
    (h2 : t.heap = s.heap.set a (List.replicate s.pwbufsize 0) ++
      [blk ++ List.replicate PWBUF_SIZE 0])
    (h3 : t.pwbufsize = s.pwbufsize + PWBUF_SIZE) (h4 : t.pwindex = s.pwindex)
    (h5 : t.current_mode = s.current_mode) :
    Inv t ∧ content t = content s := by
  have ha : a < s.heap.length := lt_length_of_getElem? hb
  have hlen : (s.heap.set a (List.replicate s.pwbufsize (0 : Byte))).length = s.heap.length := by
    simp
  have hnew : t.heap[s.heap.length]? = some (blk ++ List.replicate PWBUF_SIZE 0) := by
    rw [h2, List.getElem?_append_right (by simp)]
    simp
  constructor
  · refine ⟨s.heap.length, blk ++ List.replicate PWBUF_SIZE 0, h1, hnew, ?_, ?_, ?_, ?_, ?_, ?_⟩
    · simp [h3, hl]
    · omega
    · intro j b hj hjb
      rw [h2] at hjb
      have hjlt : j < s.heap.length := by
        have := lt_length_of_getElem? hjb
        simp at this
        omega
      rw [List.getElem?_append_left (by simpa using hjlt)] at hjb
      by_cases hja : a = j
      · subst hja
        rw [List.getElem?_set_self ha] at hjb
        cases hjb
        simp
      · rw [List.getElem?_set_ne hja] at hjb
        exact hz j b (fun h => hja h.symm) hjb
    · rw [h5]; exact hm
    · omega
    · rw [h3]; exact Dvd.dvd.add hdvd (dvd_refl _)
  · unfold content cur_block
    rw [h1, hp, h4]
    simp only [hnew, hb, Option.getD_some]
    rw [List.take_append_of_le_length (by omega)]

theorem Ctl.bind_ret (s : State) (f : State → Ctl) : (Ctl.ret s).bind f = f s := rfl

theorem Ctl.andThen_ret (s : State) (k : State → Flow) : (Ctl.ret s).andThen k = k s := rfl

theorem Ctl.Post.bind {r : Ctl} {f : State → Ctl} {R1 R : State → Prop}
    {E : Nat → State → Prop} (h1 : r.Post R1 E) (h2 : ∀ s, R1 s → (f s).Post R E) :
    (r.bind f).Post R E := by
  cases r with
  | ret s => exact h2 s h1
  | exit code s => exact h1
  | ub => exact h1
  | nofuel => exact h1

theorem Ctl.Post.mono {r : Ctl} {R1 R : State → Prop} {E1 E : Nat → State → Prop}
    (h : r.Post R1 E1) (hr : ∀ s, R1 s → R s) (he : ∀ code s, E1 code s → E code s) :
    r.Post R E := by
  cases r with
  | ret s => exact hr s h
  | exit code s => exact he code s h
  | ub => exact h
  | nofuel => exact h

theorem Inv.append_zero {s t : State} (h : Inv s) (n : Nat) (h1 : t.pwbuf = s.pwbuf)
    (h2 : t.heap = s.heap ++ [List.replicate n 0]) (h3 : t.pwbufsize = s.pwbufsize)
    (h4 : t.pwindex = s.pwindex) (h5 : t.current_mode = s.current_mode) : Inv t := by
  obtain ⟨a, blk, hp, hb, hl, hi, hz, hm, hpos, hdvd⟩ := h
  have ha : a < s.heap.length := lt_length_of_getElem? hb
  refine ⟨a, blk, h1.trans hp, ?_, hl.trans h3.symm, ?_, ?_, ?_, ?_, ?_⟩
  · rw [h2, List.getElem?_append_left ha]; exact hb
  · omega
  · intro j b hj hjb
    rw [h2] at hjb
    rcases Nat.lt_or_ge j s.heap.length with hlt | hge
    · rw [List.getElem?_append_left hlt] at hjb
      exact hz j b hj hjb
    · rw [List.getElem?_append_right hge] at hjb
      have hj0 : j - s.heap.length = 0 := by
        have := lt_length_of_getElem? hjb
        simpa using this
      rw [hj0] at hjb
      simp at hjb
      subst hjb
      simp
  · rw [h5]; exact hm
  · omega
  · rw [h3]; exact hdvd

theorem grow_pw_buf_post (env : Env) (s : State) (h : Inv s) :
    (grow_pw_buf env s).Post
      (fun t => Inv t ∧ content t = content s ∧ t.pwindex = s.pwindex ∧
        t.pwbufsize = s.pwbufsize + PWBUF_SIZE ∧ t.current_mode = s.current_mode ∧
        Frame s t ∧ t.stdin = s.stdin ∧ t.stderr = s.stderr ∧ t.n_ioctl = s.n_ioctl)
      (fun code t => code = EXIT_FAILURE ∧ Inv t ∧ Frame s t ∧
        (env.calloc_ok s.n_calloc = false ∨ env.mlock_ok s.n_mlock = false)) := by
  cases hc : env.calloc_ok s.n_calloc with
  | false =>
    have e : grow_pw_buf env s = .exit EXIT_FAILURE
        (write_stderr (strBytes ("Failed to allocate memory\n"))
          { s with n_calloc := s.n_calloc + 1 }) := by
      simp [grow_pw_buf, calloc, hc]
    rw [e]
    exact ⟨rfl, h.congr rfl rfl rfl rfl rfl, by simp [Frame, write_stderr], Or.inl rfl⟩
  | true =>
    cases hm : env.mlock_ok s.n_mlock with
    | false =>
      have e : grow_pw_buf env s = .exit EXIT_FAILURE
          (write_stderr (strBytes ("Failed to mlock buffer\n"))
            { s with heap := s.heap ++ [List.replicate (s.pwbufsize + PWBUF_SIZE) 0],
                     n_calloc := s.n_calloc + 1, n_mlock := s.n_mlock + 1 }) := by
        simp [grow_pw_buf, calloc, mlock, hc, hm]
      rw [e]
      exact ⟨rfl, h.append_zero _ rfl rfl rfl rfl rfl, by simp [Frame, write_stderr],
        Or.inr rfl⟩
    | true =>
      obtain ⟨a, blk, hp, hb, hl, hi, hz, hmode, hpos, hdvd⟩ := h
      rw [grow_pw_buf_eq env s a blk hp hb hl hpos hc hm]
      have := grow_pw_buf_inv s a blk hp hb hl hi hz hmode hpos hdvd
        { s with
          heap := s.heap.set a (List.replicate s.pwbufsize 0) ++
            [blk ++ List.replicate PWBUF_SIZE 0],
          pwbuf := some s.heap.length, pwbufsize := s.pwbufsize + PWBUF_SIZE,
          n_calloc := s.n_calloc + 1, n_mlock := s.n_mlock + 1 } rfl rfl rfl rfl rfl
      exact ⟨this.1, this.2, rfl, rfl, rfl, by simp [Frame], rfl, rfl, rfl⟩

theorem print_password_inv (s : State) (h : Inv s) :
    print_password s =
      .ret { s with stderr := s.stderr ++ rendered s.current_mode (content s) } := by
  obtain ⟨a, blk, hp, hb, hl, hi, hz, hm, hrest⟩ := id h
  exact print_password_eq s (content s) (load_content s h) hm

theorem consume_eq (n : Nat) (s : State) :
    consume n s = { s with stdin := s.stdin.drop n } := by
  induction n generalizing s with
  | zero => simp [consume]
  | succ n ih =>
    rw [consume, ih]
    cases hs : s.stdin with
    | nil => simp [read1, hs]
    | cons c rest => simp [read1, hs]

theorem take_succ_set {α : Type} (l : List α) (i : Nat) (c : α) (h : i < l.length) :
    (l.set i c).take (i + 1) = l.take i ++ [c] := by
  induction l generalizing i with
  | nil => simp at h
  | cons x xs ih =>
    cases i with
    | zero => simp
    | succ k =>
      have hk : k < xs.length := by simpa using h
      simp [ih k hk]

theorem store_inv (s : State) (c : Byte) (h : Inv s) (hlt : s.pwindex < s.pwbufsize) :
    ∃ hp, store s.heap s.pwbuf s.pwindex c = some hp ∧
      ∀ t : State, t.pwbuf = s.pwbuf → t.heap = hp → t.pwbufsize = s.pwbufsize →
        t.pwindex = s.pwindex + 1 → t.current_mode = s.current_mode →
        Inv t ∧ content t = content s ++ [c] := by
  obtain ⟨a, blk, hp, hb, hl, hi, hz, hm, hpos, hdvd⟩ := h
  have ha : a < s.heap.length := lt_length_of_getElem? hb
  have hlt2 : s.pwindex < blk.length := by omega
  refine ⟨s.heap.set a (blk.set s.pwindex c), ?_, ?_⟩
  · simp [store, hp, hb, hlt2]
  · intro t h1 h2 h3 h4 h5
    have hnew : t.heap[a]? = some (blk.set s.pwindex c) := by
      rw [h2, List.getElem?_set_self ha]
    constructor
    · refine ⟨a, blk.set s.pwindex c, h1.trans hp, hnew, ?_, ?_, ?_, ?_, ?_, ?_⟩
      · simp [hl, h3]
      · omega
      · intro j b hj hjb
        rw [h2, List.getElem?_set_ne (fun e => hj e.symm)] at hjb
        exact hz j b hj hjb
      · rw [h5]; exact hm
      · omega
      · rw [h3]; exact hdvd
    · unfold content cur_block
      rw [h1, hp, h4]
      simp only [hnew, hb, Option.getD_some]
      exact take_succ_set blk s.pwindex c hlt2

theorem ensure_capacity_post (env : Env) (s : State) (h : Inv s) :
    (ensure_capacity env s).Post
      (fun t => Inv t ∧ content t = content s ∧ t.pwindex = s.pwindex ∧
        t.pwindex < t.pwbufsize ∧
        t.pwbufsize = (if s.pwindex = s.pwbufsize then s.pwbufsize + PWBUF_SIZE
          else s.pwbufsize) ∧
        t.current_mode = s.current_mode ∧
        Frame s t ∧ t.stdin = s.stdin ∧ t.stderr = s.stderr ∧ t.n_ioctl = s.n_ioctl)
      (fun code t => code = EXIT_FAILURE ∧ Inv t ∧ Frame s t ∧ s.pwindex = s.pwbufsize ∧
        (env.calloc_ok s.n_calloc = false ∨ env.mlock_ok s.n_mlock = false)) := by
  by_cases hfull : s.pwindex = s.pwbufsize
  · have e : ensure_capacity env s = grow_pw_buf env s := by simp [ensure_capacity, hfull]
    rw [e]
    refine (grow_pw_buf_post env s h).mono ?_ ?_
    · rintro t ⟨h1, h2, h3, h4, h5, h6, h7, h8, h9⟩
      refine ⟨h1, h2, h3, ?_, ?_, h5, h6, h7, h8, h9⟩
      · rw [h3, h4, hfull]; simp [PWBUF_SIZE]
      · rw [if_pos hfull]; exact h4
    · rintro code t ⟨h1, h2, h3, h4⟩
      exact ⟨h1, h2, h3, hfull, h4⟩
  · have e : ensure_capacity env s = .ret s := by simp [ensure_capacity, hfull]
    rw [e]
    have hi : s.pwindex ≤ s.pwbufsize := by
      obtain ⟨a, blk, hp, hb, hl, hi, -⟩ := h
      exact hi
    exact ⟨h, rfl, rfl, by omega, by rw [if_neg hfull], rfl, Frame.refl s, rfl, rfl, rfl⟩

theorem append_branch_post (env : Env) (c : Byte) (s : State) (h : Inv s) :
    (append_branch env c s).Post
      (fun t => Inv t ∧ content t = content s ++ [c] ∧ t.pwindex = s.pwindex + 1 ∧
        t.current_mode = s.current_mode ∧ Frame s t ∧ t.stdin = s.stdin ∧
        t.stderr = s.stderr ++ rendered s.current_mode (content s ++ [c]) ∧
        t.n_ioctl = s.n_ioctl ∧
        t.pwbufsize = (if s.pwindex = s.pwbufsize then s.pwbufsize + PWBUF_SIZE
          else s.pwbufsize))
      (fun code t => code = EXIT_FAILURE ∧ Inv t ∧ Frame s t ∧ s.pwindex = s.pwbufsize ∧
        (env.calloc_ok s.n_calloc = false ∨ env.mlock_ok s.n_mlock = false)) := by
  unfold append_branch
  refine (ensure_capacity_post env s h).bind ?_
  rintro s1 ⟨h1, h2, h3, h4, h5, h6, h7, h8, h9, h10⟩
  obtain ⟨hp, hst, hnext⟩ := store_inv s1 c h1 h4
  simp only [hst]
  obtain ⟨hinv, hcont⟩ :=
    hnext { s1 with heap := hp, pwindex := s1.pwindex + 1 } rfl rfl rfl rfl rfl
  rw [print_password_inv _ hinv]
  refine ⟨hinv.congr rfl rfl rfl rfl rfl, ?_, ?_, h6, ?_, h8, ?_, h10, h5⟩
  · rw [← h2, ← hcont]; exact content_congr rfl rfl rfl
  · show s1.pwindex + 1 = s.pwindex + 1
    rw [h3]
  · exact h7
  · show s1.stderr ++ rendered s1.current_mode _ = _
    rw [hcont, h2, h9, h6]

theorem switch_mode_inv (s : State) (h : Inv s) : Inv (switch_mode s) := by
  obtain ⟨a, blk, hp, hb, hl, hi, hz, hm, hpos, hdvd⟩ := h
  refine ⟨a, blk, hp, hb, hl, hi, hz, ?_, hpos, hdvd⟩
  rcases hm with hm | hm
  · right; simp [switch_mode, hm, MODE_ECHO, MODE_STARS]; rfl
  · left; simp [switch_mode, hm, MODE_ECHO, MODE_STARS]

theorem tab_branch_eq (s : State) (h : Inv s) :
    tab_branch 9 s =
      .ret { s with
        current_mode := (s.current_mode + 1).tmod 2,
        stderr := s.stderr ++ rendered ((s.current_mode + 1).tmod 2) (content s) } := by
  simp only [tab_branch, if_true]
  rw [print_password_inv _ (switch_mode_inv s h)]
  have : content (switch_mode s) = content s := content_congr rfl rfl rfl
  rw [this]
  rfl

theorem tab_branch_ne (c : Byte) (s : State) (hc : c ≠ 9) : tab_branch c s = .ret s := by
  simp [tab_branch, hc]

theorem escape_branch_ne (env : Env) (c : Byte) (s : State) (hc : c ≠ 27) :
    escape_branch env c s = .ret s := by
  simp [escape_branch, hc]

theorem escape_branch_some (env : Env) (s : State) (n : Nat)
    (hn : env.fionread s.n_ioctl = some n) :
    escape_branch env 27 s =
      .ret { s with n_ioctl := s.n_ioctl + 1, stdin := s.stdin.drop n } := by
  simp [escape_branch, hn, consume_eq]

theorem escape_branch_none (env : Env) (s : State) (hn : env.fionread s.n_ioctl = none) :
    escape_branch env 27 s =
      .exit EXIT_FAILURE
        (write_stderr (strBytes ("ioctl() failed\n")) { s with n_ioctl := s.n_ioctl + 1 }) := by
  simp [escape_branch, hn]

theorem reveal_branch_ne (c : Byte) (s : State) (hc : c ≠ 18) : reveal_branch c s = .ret s := by
  simp [reveal_branch, hc]

theorem reveal_branch_zero (s : State) (h0 : s.pwindex = 0) : reveal_branch 18 s = .ret s := by
  simp [reveal_branch, h0]

theorem reveal_branch_pos (s : State) (h : Inv s) (h0 : 0 < s.pwindex) :
    reveal_branch 18 s =
      .ret { s with stderr := s.stderr ++ [[8], (content s).drop (s.pwindex - 1)] } := by
  obtain ⟨a, blk, hp, hb, hl, hi, -⟩ := h
  have hle : s.pwindex - 1 + 1 ≤ blk.length := by omega
  have e : load s.heap s.pwbuf (s.pwindex - 1) 1 = some ((content s).drop (s.pwindex - 1)) := by
    simp only [load, hp, hb, hle, content, cur_block, Option.getD_some]
    simp only [one_ne_zero, if_false, if_true, List.drop_take]
    congr 2
    omega
  simp [reveal_branch, h0, e, write_stderr]

theorem control_tail_backspace (s : State) (h : Inv s) :
    control_tail 127 s =
      .cont { s with
        pwindex := s.pwindex - 1,
        stderr := s.stderr ++ rendered s.current_mode ((content s).take (s.pwindex - 1)) } := by
  have hdec : Inv { s with pwindex := s.pwindex - 1 } := by
    obtain ⟨a, blk, hp, hb, hl, hi, hz, hm, hpos, hdvd⟩ := h
    exact ⟨a, blk, hp, hb, hl, Nat.le_trans (Nat.sub_le _ _) hi, hz, hm, hpos, hdvd⟩
  have hcont : content { s with pwindex := s.pwindex - 1 } =
      (content s).take (s.pwindex - 1) := by
    simp [content, cur_block, List.take_take]
  have hs : (if s.pwindex > 0 then { s with pwindex := s.pwindex - 1 } else s) =
      { s with pwindex := s.pwindex - 1 } := by
    by_cases h0 : s.pwindex > 0
    · simp [h0]
    · have h1 : s.pwindex = 0 := by omega
      rw [if_neg h0]
      cases s
      simp only at h1
      simp [h1]
  simp only [control_tail, if_true, hs]
  rw [print_password_inv _ hdec, hcont, Ctl.andThen_ret]

theorem control_tail_newline (s : State) : control_tail 10 s = .brk s := by
  simp [control_tail]

theorem control_tail_other (c : Byte) (s : State) (h1 : c ≠ 127) (h2 : c ≠ 10) :
    control_tail c s = .cont s := by
  simp [control_tail, h1, h2]

theorem loop_body_tab (env : Env) (s : State) (h : Inv s) :
    loop_body env 9 s =
      .cont { s with
        current_mode := (s.current_mode + 1).tmod 2,
        stderr := s.stderr ++ rendered ((s.current_mode + 1).tmod 2) (content s) } := by
  have hc : iscntrl 9 = true := by decide
  simp only [loop_body, hc, if_true]
  rw [tab_branch_eq s h]
  rw [Ctl.bind_ret, escape_branch_ne env 9 _ (by decide), Ctl.bind_ret,
    reveal_branch_ne 9 _ (by decide), Ctl.andThen_ret,
    control_tail_other 9 _ (by decide) (by decide)]

theorem loop_body_escape_some (env : Env) (s : State) (n : Nat)
    (hn : env.fionread s.n_ioctl = some n) :
    loop_body env 27 s =
      .cont { s with n_ioctl := s.n_ioctl + 1, stdin := s.stdin.drop n } := by
  have hc : iscntrl 27 = true := by decide
  simp only [loop_body, hc, if_true]
  rw [tab_branch_ne 27 s (by decide), Ctl.bind_ret, escape_branch_some env s n hn,
    Ctl.bind_ret, reveal_branch_ne 27 _ (by decide), Ctl.andThen_ret,
    control_tail_other 27 _ (by decide) (by decide)]

theorem loop_body_escape_none (env : Env) (s : State)
    (hn : env.fionread s.n_ioctl = none) :
    loop_body env 27 s =
      .exit EXIT_FAILURE
        (write_stderr (strBytes ("ioctl() failed\n")) { s with n_ioctl := s.n_ioctl + 1 }) := by
  have hc : iscntrl 27 = true := by decide
  simp only [loop_body, hc, if_true]
  rw [tab_branch_ne 27 s (by decide), Ctl.bind_ret, escape_branch_none env s hn]
  rfl

theorem loop_body_reveal (env : Env) (s : State) (h : Inv s) :
    loop_body env 18 s =
      .cont (if 0 < s.pwindex then
        { s with stderr := s.stderr ++ [[8], (content s).drop (s.pwindex - 1)] } else s) := by
  have hc : iscntrl 18 = true := by decide
  simp only [loop_body, hc, if_true]
  rw [tab_branch_ne 18 s (by decide), Ctl.bind_ret, escape_branch_ne env 18 s (by decide),
    Ctl.bind_ret]
  by_cases h0 : 0 < s.pwindex
  · rw [reveal_branch_pos s h h0, if_pos h0, Ctl.andThen_ret]
    exact control_tail_other 18 _ (by decide) (by decide)
  · rw [reveal_branch_zero s (by omega), if_neg h0, Ctl.andThen_ret]
    exact control_tail_other 18 _ (by decide) (by decide)

theorem loop_body_backspace (env : Env) (s : State) (h : Inv s) :
    loop_body env 127 s =
      .cont { s with
        pwindex := s.pwindex - 1,
        stderr := s.stderr ++ rendered s.current_mode ((content s).take (s.pwindex - 1)) } := by
  have hc : iscntrl 127 = true := by decide
  simp only [loop_body, hc, if_true]
  rw [tab_branch_ne 127 s (by decide), Ctl.bind_ret, escape_branch_ne env 127 s (by decide),
    Ctl.bind_ret, reveal_branch_ne 127 s (by decide), Ctl.andThen_ret]
  exact control_tail_backspace s h

theorem loop_body_newline (env : Env) (s : State) : loop_body env 10 s = .brk s := by
  have hc : iscntrl 10 = true := by decide
  simp only [loop_body, hc, if_true]
  rw [tab_branch_ne 10 s (by decide), Ctl.bind_ret, escape_branch_ne env 10 s (by decide),
    Ctl.bind_ret, reveal_branch_ne 10 s (by decide), Ctl.andThen_ret]
  exact control_tail_newline s

theorem loop_body_ignored (env : Env) (c : Byte) (s : State) (hc : iscntrl c = true)
    (h9 : c ≠ 9) (h10 : c ≠ 10) (h18 : c ≠ 18) (h27 : c ≠ 27) (h127 : c ≠ 127) :
    loop_body env c s = .cont s := by
  simp only [loop_body, hc, if_true]
  rw [tab_branch_ne c s h9, Ctl.bind_ret, escape_branch_ne env c s h27, Ctl.bind_ret,
    reveal_branch_ne c s h18, Ctl.andThen_ret]
  exact control_tail_other c s h127 h10

theorem loop_body_append (env : Env) (c : Byte) (s : State) (hc : iscntrl c = false) :
    loop_body env c s = (append_branch env c s).andThen .cont := by
  simp [loop_body, hc]

theorem loop_body_post (env : Env) (c : Byte) (s : State) (h : Inv s) :
    (loop_body env c s).Post (fun t => Inv t ∧ Frame s t) (fun t => Inv t ∧ Frame s t)
      (fun code t => code = EXIT_FAILURE ∧ Inv t ∧ Frame s t) := by
  cases hc : iscntrl c with
  | false =>
    rw [loop_body_append env c s hc]
    have hp := append_branch_post env c s h
    cases hr : append_branch env c s with
    | ret t => rw [hr] at hp; exact ⟨hp.1, hp.2.2.2.2.1⟩
    | exit code t => rw [hr] at hp; exact ⟨hp.1, hp.2.1, hp.2.2.1⟩
    | ub => rw [hr] at hp; exact hp
    | nofuel => rw [hr] at hp; exact hp
  | true =>
    by_cases h9 : c = 9
    · subst h9
      rw [loop_body_tab env s h]
      exact ⟨(switch_mode_inv s h).congr rfl rfl rfl rfl rfl, by simp [Frame]⟩
    by_cases h27 : c = 27
    · subst h27
      cases hn : env.fionread s.n_ioctl with
      | none =>
        rw [loop_body_escape_none env s hn]
        exact ⟨rfl, h.congr rfl rfl rfl rfl rfl, by simp [Frame, write_stderr]⟩
      | some n =>
        rw [loop_body_escape_some env s n hn]
        exact ⟨h.congr rfl rfl rfl rfl rfl, by simp [Frame]⟩
    by_cases h18 : c = 18
    · subst h18
      rw [loop_body_reveal env s h]
      by_cases h0 : 0 < s.pwindex
      · rw [if_pos h0]
        exact ⟨h.congr rfl rfl rfl rfl rfl, by simp [Frame]⟩
      · rw [if_neg h0]
        exact ⟨h, Frame.refl s⟩
    by_cases h127 : c = 127
    · subst h127
      rw [loop_body_backspace env s h]
      refine ⟨?_, by simp [Frame]⟩
      obtain ⟨a, blk, hp, hb, hl, hi, hz, hm, hpos, hdvd⟩ := h
      exact ⟨a, blk, hp, hb, hl, Nat.le_trans (Nat.sub_le _ _) hi, hz, hm, hpos, hdvd⟩
    by_cases h10 : c = 10
    · subst h10
      rw [loop_body_newline env s]
      exact ⟨h, Frame.refl s⟩
    rw [loop_body_ignored env c s hc h9 h10 h18 h27 h127]
    exact ⟨h, Frame.refl s⟩

theorem Inv.safe {s : State} (h : Inv s) : Safe s := by
  obtain ⟨a, blk, hp, hb, hl, hi, hz, hm, hpos, hdvd⟩ := h
  refine ⟨Or.inr ⟨a, blk, hp, hb, hl⟩, ?_⟩
  intro j b hjb
  by_cases hj : j = a
  · subst hj
    rw [hb] at hjb
    cases hjb
    exact Or.inl ⟨hp, hl⟩
  · exact Or.inr (hz j b hj hjb)

theorem Safe.carry {s t : State} (h : Safe s) (h1 : t.pwbuf = s.pwbuf) (h2 : t.heap = s.heap)
    (h3 : t.pwbufsize = s.pwbufsize) : Safe t := by
  unfold Safe at *
  rw [h1, h2, h3]
  exact h

theorem main_loop_post (env : Env) (fuel : Nat) (s : State) (h : Inv s)
    (hf : s.stdin.length < fuel) :
    (main_loop env fuel s).Post (fun t => Inv t ∧ Frame s t)
      (fun code t => code = EXIT_FAILURE ∧ Inv t ∧ Frame s t) := by
  induction fuel generalizing s with
  | zero => omega
  | succ fuel ih =>
    cases hs : s.stdin with
    | nil =>
      have e : main_loop env (fuel + 1) s = .ret s := by simp [main_loop, read1, hs]
      rw [e]
      exact ⟨h, Frame.refl s⟩
    | cons c rest =>
      have hs1 : Inv { s with stdin := rest } := h.congr rfl rfl rfl rfl rfl
      have hfr : Frame s { s with stdin := rest } := by simp [Frame, hs]
      have hp := loop_body_post env c { s with stdin := rest } hs1
      have e : main_loop env (fuel + 1) s =
          match loop_body env c { s with stdin := rest } with
          | .cont s2 => main_loop env fuel s2
          | .brk s2 => .ret s2
          | .exit code s2 => .exit code s2
          | .ub => .ub := by
        simp [main_loop, read1, hs]
      rw [e]
      cases hr : loop_body env c { s with stdin := rest } with
      | cont t =>
        rw [hr] at hp
        have hlen : t.stdin.length < fuel := by
          have h1 := hp.2.2.2.2.2.2.2
          have h2 : ({ s with stdin := rest } : State).stdin.length = rest.length := rfl
          rw [hs] at hf
          simp at hf
          omega
        refine (ih t hp.1 hlen).mono ?_ ?_
        · rintro u ⟨hu1, hu2⟩
          exact ⟨hu1, hfr.trans (hp.2.trans hu2)⟩
        · rintro code u ⟨hu0, hu1, hu2⟩
          exact ⟨hu0, hu1, hfr.trans (hp.2.trans hu2)⟩
      | brk t =>
        rw [hr] at hp
        exact ⟨hp.1, hfr.trans hp.2⟩
      | exit code t =>
        rw [hr] at hp
        exact ⟨hp.1, hp.2.1, hfr.trans hp.2.2⟩
      | ub => rw [hr] at hp; exact hp

theorem main_commit_eq (s : State) (h : Inv s) :
    main_commit s = .ret (write_stdout (content s) (clear_term_line s)) := by
  have e : load (clear_term_line s).heap (clear_term_line s).pwbuf 0
      (clear_term_line s).pwindex = some (content s) := load_content s h
  simp only [main_commit, e]

theorem alloc_state_inv (tty : Termios) (input : List Byte) : Inv (alloc_state tty input) := by
  refine ⟨0, List.replicate PWBUF_SIZE 0, rfl, rfl, ?_, ?_, ?_, Or.inl rfl, ?_, dvd_refl _⟩
  · simp [alloc_state]
  · simp [alloc_state]
  · intro j b hj hjb
    have : j < 1 := by
      have := lt_length_of_getElem? hjb
      simpa [alloc_state] using this
    omega
  · show 0 < PWBUF_SIZE
    decide

theorem start_state_inv (tty : Termios) (input : List Byte) : Inv (start_state tty input) :=
  (alloc_state_inv tty input).congr rfl rfl rfl rfl rfl

theorem main_alloc_post (env : Env) (tty : Termios) (input : List Byte) :
    (main_alloc env (init tty input)).Post
      (fun t => t = alloc_state tty input ∧ env.atexit_ok = true ∧ env.prctl_ok = true ∧
        env.tcgetattr_ok = true ∧ env.tcsetattr_ok 0 = true ∧ env.calloc_ok 0 = true ∧
        env.mlock_ok 0 = true)
      (fun code t => code = EXIT_FAILURE ∧ Safe t ∧ t.restores = 0 ∧ t.stdout = [] ∧
        t.handler = env.atexit_ok ∧ t.pwindex = 0 ∧
        (env.atexit_ok = false → t.tty = tty ∧ t.n_tcsetattr = 0) ∧
        (env.atexit_ok = true → env.prctl_ok = true → env.tcgetattr_ok = true →
          t.saved_termios = tty ∧ t.n_tcsetattr = 1)) := by
  have hsafe0 : ∀ t : State, t.pwbufsize = 0 → t.heap = [] → Safe t := by
    intro t h1 h2
    refine ⟨Or.inl h1, ?_⟩
    intro j b hjb
    rw [h2] at hjb
    simp at hjb
  have hsafe1 : ∀ t : State, t.pwbufsize = 0 → t.heap = [List.replicate PWBUF_SIZE 0] →
      Safe t := by
    intro t h1 h2
    refine ⟨Or.inl h1, ?_⟩
    intro j b hjb
    rw [h2] at hjb
    have hj : j = 0 := by
      have := lt_length_of_getElem? hjb
      simp at this
      exact this
    subst hj
    simp only [List.getElem?_cons_zero, Option.some.injEq] at hjb
    subst hjb
    right
    rw [List.length_replicate]
  cases h1 : env.atexit_ok with
  | false =>
    simp only [main_alloc, main_prelude, h1, Ctl.bind, Ctl.Post]
    refine ⟨rfl, hsafe0 _ rfl rfl, rfl, rfl, rfl, rfl, fun _ => ⟨rfl, rfl⟩, ?_⟩
    intro h; cases h
  | true =>
    cases h2 : env.prctl_ok with
    | false =>
      simp only [main_alloc, main_prelude, h1, h2, Ctl.bind, Ctl.Post]
      refine ⟨rfl, hsafe0 _ rfl rfl, rfl, rfl, rfl, rfl, ?_, ?_⟩
      · intro h; cases h
      · intro _ h; cases h
    | true =>
      cases h3 : env.tcgetattr_ok with
      | false =>
        simp only [main_alloc, main_prelude, setup_console, h1, h2, h3, Ctl.bind, Ctl.Post]
        refine ⟨rfl, hsafe0 _ rfl rfl, rfl, rfl, rfl, rfl, ?_, ?_⟩
        · intro h; cases h
        · intro _ _ h; cases h
      | true =>
        cases h4 : env.tcsetattr_ok 0 with
        | false =>
          have e : main_alloc env (init tty input) = .exit EXIT_FAILURE
              (write_stderr (strBytes ("Failed tcsetattr\n"))
                { init tty input with handler := true, saved_termios := tty,
                                      n_tcsetattr := 1 }) := by
            simp [main_alloc, main_prelude, setup_console, enter_raw_mode, tcsetattr, h1, h2,
              h3, h4, Ctl.bind, init]
          rw [e]
          refine ⟨rfl, hsafe0 _ rfl rfl, rfl, rfl, rfl, rfl, ?_, ?_⟩
          · intro h; cases h
          · intro _ _ _; exact ⟨rfl, rfl⟩
        | true =>
          cases h5 : env.calloc_ok 0 with
          | false =>
            have e : main_alloc env (init tty input) = .exit EXIT_FAILURE
                (write_stderr (strBytes ("Failed to allocate memory\n"))
                  { alloc_state tty input with
                    pwbuf := none, pwbufsize := 0, heap := [], n_mlock := 0 }) := by
              simp [main_alloc, main_prelude, setup_console, enter_raw_mode, tcsetattr, h1, h2,
                h3, h4, h5, Ctl.bind, init, allocate_pw_buf, calloc, alloc_state, write_stderr]
            rw [e]
            refine ⟨rfl, hsafe0 _ rfl rfl, rfl, rfl, rfl, rfl, ?_, ?_⟩
            · intro h; cases h
            · intro _ _ _; exact ⟨rfl, rfl⟩
          | true =>
            cases h6 : env.mlock_ok 0 with
            | false =>
              have e : main_alloc env (init tty input) = .exit EXIT_FAILURE
                  (write_stderr (strBytes ("Failed to mlock buffer\n"))
                    { alloc_state tty input with pwbufsize := 0 }) := by
                simp [main_alloc, main_prelude, setup_console, enter_raw_mode, tcsetattr, h1,
                  h2, h3, h4, h5, h6, Ctl.bind, init, allocate_pw_buf, calloc, mlock,
                  alloc_state, write_stderr]
              rw [e]
              refine ⟨rfl, hsafe1 _ rfl rfl, rfl, rfl, rfl, rfl, ?_, ?_⟩
              · intro h; cases h
              · intro _ _ _; exact ⟨rfl, rfl⟩
            | true =>
              have e : main_alloc env (init tty input) = .ret (alloc_state tty input) := by
                simp [main_alloc, main_prelude, setup_console, enter_raw_mode, tcsetattr, h1,
                  h2, h3, h4, h5, h6, Ctl.bind, init, allocate_pw_buf, calloc, mlock,
                  alloc_state]
              rw [e]
              exact ⟨rfl, rfl, rfl, rfl, rfl, rfl, rfl⟩

theorem main_startup_post (env : Env) (tty : Termios) (input : List Byte) :
    (main_startup env (init tty input)).Post
      (fun t => t = start_state tty input ∧ env.atexit_ok = true ∧ env.prctl_ok = true ∧
        env.tcgetattr_ok = true ∧ env.tcsetattr_ok 0 = true ∧ env.calloc_ok 0 = true ∧
        env.mlock_ok 0 = true)
      (fun code t => code = EXIT_FAILURE ∧ Safe t ∧ t.restores = 0 ∧ t.stdout = [] ∧
        t.handler = env.atexit_ok ∧ t.pwindex = 0 ∧
        (env.atexit_ok = false → t.tty = tty ∧ t.n_tcsetattr = 0) ∧
        (env.atexit_ok = true → env.prctl_ok = true → env.tcgetattr_ok = true →
          t.saved_termios = tty ∧ t.n_tcsetattr = 1)) := by
  unfold main_startup
  refine (main_alloc_post env tty input).bind ?_
  rintro s ⟨rfl, h⟩
  rw [print_password_inv _ (alloc_state_inv tty input)]
  refine ⟨?_, h⟩
  have hc : content (alloc_state tty input) = [] := by
    simp [content, alloc_state]
  rw [hc]
  rfl

theorem zero_of_eq_replicate {b : List Byte} (h : b = List.replicate b.length 0) :
    ∀ x ∈ b, x = 0 := by
  intro x hx
  rw [h] at hx
  exact (List.mem_replicate.1 hx).2

theorem explicit_bzero_safe (s : State) (h : Safe s) :
    ∃ hp, explicit_bzero s.heap s.pwbuf s.pwbufsize = some hp ∧ AllZero hp := by
  obtain ⟨h1, h2⟩ := h
  by_cases h0 : s.pwbufsize = 0
  · refine ⟨s.heap, by simp [explicit_bzero, h0], ?_⟩
    intro b hb
    obtain ⟨j, hj⟩ := List.getElem?_of_mem hb
    rcases h2 j b hj with ⟨-, hlen⟩ | hz
    · have : b = [] := List.length_eq_zero.1 (hlen.trans h0)
      subst this
      intro x hx
      cases hx
    · exact zero_of_eq_replicate hz
  · rcases h1 with h1 | ⟨a, blk, hp, hb, hl⟩
    · exact absurd h1 h0
    · have ha : a < s.heap.length := lt_length_of_getElem? hb
      refine ⟨s.heap.set a (List.replicate s.pwbufsize 0), ?_, ?_⟩
      · simp [explicit_bzero, h0, hp, hb, hl]
        rw [← hl, List.drop_length, List.append_nil]
      · intro b hbm
        obtain ⟨j, hj⟩ := List.getElem?_of_mem hbm
        by_cases hja : a = j
        · subst hja
          rw [List.getElem?_set_self ha] at hj
          cases hj
          intro x hx
          exact (List.mem_replicate.1 hx).2
        · rw [List.getElem?_set_ne hja] at hj
          rcases h2 j b hj with ⟨hpj, -⟩ | hz
          · rw [hp] at hpj
            cases hpj
            exact absurd rfl hja
          · exact zero_of_eq_replicate hz

theorem exit_post (env : Env) (code : Nat) (s : State) (h : Safe s) :
    ∃ code1 t, exit env code s = .terminated code1 t ∧ t.stdout = s.stdout ∧
      (s.handler = false → t = s ∧ code1 = code) ∧
      (s.handler = true → AllZero t.heap ∧ t.pwindex = 0 ∧ t.pwbufsize = 0 ∧
        t.restores = s.restores + 1 ∧
        (env.tcsetattr_ok s.n_tcsetattr = true → t.tty = s.saved_termios ∧ code1 = code) ∧
        (env.tcsetattr_ok s.n_tcsetattr = false → t.tty = s.tty ∧ code1 = EXIT_FAILURE)) := by
  cases hh : s.handler with
  | false =>
    refine ⟨code, s, by simp [exit, hh], rfl, fun _ => ⟨rfl, rfl⟩, ?_⟩
    intro h; cases h
  | true =>
    have hs : Safe { s with handler := false } := h.carry rfl rfl rfl
    obtain ⟨hp, hbz, hzero⟩ := explicit_bzero_safe _ hs
    have hbz1 : explicit_bzero s.heap s.pwbuf s.pwbufsize = some hp := hbz
    cases hok : env.tcsetattr_ok s.n_tcsetattr with
    | true =>
      refine ⟨code,
        { s with
          handler := false, heap := hp, pwbufsize := 0, pwindex := 0,
          restores := s.restores + 1, tty := s.saved_termios,
          n_tcsetattr := s.n_tcsetattr + 1 }, ?_, rfl, ?_, ?_⟩
      · simp [exit, hh, exit_handler, hbz1, restore_console, tcsetattr, hok]
      · intro h; cases h
      · intro _
        refine ⟨hzero, rfl, rfl, rfl, fun _ => ⟨rfl, rfl⟩, ?_⟩
        intro h; cases h
    | false =>
      refine ⟨EXIT_FAILURE, write_stderr (strBytes ("Failed tcsetattr\n"))
        { s with
          handler := false, heap := hp, pwbufsize := 0, pwindex := 0,
          restores := s.restores + 1, n_tcsetattr := s.n_tcsetattr + 1 }, ?_, rfl, ?_, ?_⟩
      · simp [exit, hh, exit_handler, hbz1, restore_console, tcsetattr, hok]
      · intro h; cases h
      · intro _
        refine ⟨hzero, rfl, rfl, rfl, ?_, fun _ => ⟨rfl, rfl⟩⟩
        intro h; cases h

theorem main_post (env : Env) (tty : Termios) (input : List Byte) :
    (main env (init tty input)).Post
      (fun t => Inv t ∧ t.restores = 0 ∧ t.handler = true ∧ t.saved_termios = tty ∧
        t.n_tcsetattr = 1 ∧ t.stdout = [content t] ∧
        env.atexit_ok = true ∧ env.prctl_ok = true ∧ env.tcgetattr_ok = true)
      (fun code t => code = EXIT_FAILURE ∧ Safe t ∧ t.restores = 0 ∧ t.stdout = [] ∧
        t.handler = env.atexit_ok ∧
        (env.atexit_ok = false → t.tty = tty ∧ t.n_tcsetattr = 0) ∧
        (env.atexit_ok = true → env.prctl_ok = true → env.tcgetattr_ok = true →
          t.saved_termios = tty ∧ t.n_tcsetattr = 1)) := by
  unfold main
  have h0 : (main_startup env (init tty input)).Post
      (fun t => t = start_state tty input ∧ env.atexit_ok = true ∧ env.prctl_ok = true ∧
        env.tcgetattr_ok = true)
      (fun code t => code = EXIT_FAILURE ∧ Safe t ∧ t.restores = 0 ∧ t.stdout = [] ∧
        t.handler = env.atexit_ok ∧
        (env.atexit_ok = false → t.tty = tty ∧ t.n_tcsetattr = 0) ∧
        (env.atexit_ok = true → env.prctl_ok = true → env.tcgetattr_ok = true →
          t.saved_termios = tty ∧ t.n_tcsetattr = 1)) := by
    refine (main_startup_post env tty input).mono ?_ ?_
    · rintro t ⟨h, h1, h2, h3, -⟩
      exact ⟨h, h1, h2, h3⟩
    · rintro code t ⟨hc, hs, h1, h2, h3, -, h5, h6⟩
      exact ⟨hc, hs, h1, h2, h3, h5, h6⟩
  refine h0.bind ?_
  rintro s ⟨rfl, h1, h2, h3⟩
  have hl : (main_loop env ((start_state tty input).stdin.length + 1)
      (start_state tty input)).Post
      (fun t => Inv t ∧ Frame (start_state tty input) t)
      (fun code t => code = EXIT_FAILURE ∧ Safe t ∧ t.restores = 0 ∧ t.stdout = [] ∧
        t.handler = env.atexit_ok ∧
        (env.atexit_ok = false → t.tty = tty ∧ t.n_tcsetattr = 0) ∧
        (env.atexit_ok = true → env.prctl_ok = true → env.tcgetattr_ok = true →
          t.saved_termios = tty ∧ t.n_tcsetattr = 1)) := by
    refine (main_loop_post env _ _ (start_state_inv tty input) (Nat.lt_succ_self _)).mono
      (fun _ h => h) ?_
    rintro code t ⟨hc, hinv, hf1, hf2, hf3, hf4, hf5, hf6, -⟩
    refine ⟨hc, hinv.safe, hf4, hf6, ?_, ?_, ?_⟩
    · rw [hf3, h1]; rfl
    · intro h; rw [h1] at h; cases h
    · intro _ _ _
      exact ⟨hf1, hf5⟩
  refine hl.bind ?_
  rintro t ⟨hinv, hf1, hf2, hf3, hf4, hf5, hf6, -⟩
  rw [main_commit_eq t hinv]
  refine ⟨hinv.congr rfl rfl rfl rfl rfl, hf4, hf3, hf1, hf5, ?_, h1, h2, h3⟩
  show t.stdout ++ [content t] = [content (write_stdout (content t) (clear_term_line t))]
  rw [hf6]
  rfl

theorem main_loop_nil (env : Env) (fuel : Nat) (s : State) (hs : s.stdin = []) :
    main_loop env (fuel + 1) s = .ret s := by
  simp [main_loop, read1, hs]

theorem main_loop_cont (env : Env) (fuel : Nat) (s t : State) (c : Byte) (rest : List Byte)
    (hs : s.stdin = c :: rest) (hb : loop_body env c { s with stdin := rest } = .cont t) :
    main_loop env (fuel + 1) s = main_loop env fuel t := by
  simp [main_loop, read1, hs, hb]

theorem main_loop_brk (env : Env) (fuel : Nat) (s t : State) (c : Byte) (rest : List Byte)
    (hs : s.stdin = c :: rest) (hb : loop_body env c { s with stdin := rest } = .brk t) :
    main_loop env (fuel + 1) s = .ret t := by
  simp [main_loop, read1, hs, hb]

theorem append_branch_ok (env : Env) (c : Byte) (s : State) (h : Inv s)
    (hc : ∀ k, env.calloc_ok k = true) (hm : ∀ k, env.mlock_ok k = true) :
    ∃ t, append_branch env c s = .ret t ∧ Inv t ∧ content t = content s ++ [c] ∧
      t.pwindex = s.pwindex + 1 ∧ t.current_mode = s.current_mode ∧ Frame s t ∧
      t.stdin = s.stdin ∧
      t.stderr = s.stderr ++ rendered s.current_mode (content s ++ [c]) := by
  have hp := append_branch_post env c s h
  cases hr : append_branch env c s with
  | ret t =>
    rw [hr] at hp
    obtain ⟨h1, h2, h3, h4, h5, h6, h7, -⟩ := hp
    exact ⟨t, rfl, h1, h2, h3, h4, h5, h6, h7⟩
  | exit code t =>
    rw [hr] at hp
    obtain ⟨-, -, -, -, h5⟩ := hp
    rw [hc, hm] at h5
    simp at h5
  | ub => rw [hr] at hp; exact hp.elim
  | nofuel => rw [hr] at hp; exact hp.elim

/-- Processing a prefix of the input made of Tab bytes and non-control bytes,
when every allocation succeeds. -/
theorem main_loop_text (env : Env) (hc : ∀ k, env.calloc_ok k = true)
    (hm : ∀ k, env.mlock_ok k = true) (bs tail : List Byte)
    (hbs : ∀ b ∈ bs, b = 9 ∨ iscntrl b = false) (s : State) (h : Inv s)
    (hs : s.stdin = bs ++ tail) :
    ∃ t, Inv t ∧ t.stdin = tail ∧
      content t = content s ++ bs.filter (fun b => !iscntrl b) ∧
      t.pwindex = s.pwindex + (bs.filter (fun b => !iscntrl b)).length ∧ Frame s t ∧
      ∀ fuel, main_loop env (bs.length + fuel) s = main_loop env fuel t := by
  induction bs generalizing s with
  | nil =>
    refine ⟨s, h, by simpa using hs, by simp, by simp, Frame.refl s, ?_⟩
    intro fuel
    simp
  | cons b bs ih =>
    have hs1 : s.stdin = b :: (bs ++ tail) := by simpa using hs
    have hinv1 : Inv { s with stdin := bs ++ tail } := h.congr rfl rfl rfl rfl rfl
    have hfr1 : Frame s { s with stdin := bs ++ tail } := by simp [Frame, hs1]
    have hbs1 : ∀ x ∈ bs, x = 9 ∨ iscntrl x = false :=
      fun x hx => hbs x (List.mem_cons_of_mem _ hx)
    have hlen : ∀ fuel, (b :: bs).length + fuel = (bs.length + fuel) + 1 := by
      intro fuel; simp; omega
    rcases hbs b (List.mem_cons_self _ _) with h9 | hnc
    · subst h9
      obtain ⟨u, hstep, hu1, hu2, hu3, hu5, hu6⟩ :
          ∃ u, loop_body env 9 { s with stdin := bs ++ tail } = .cont u ∧ Inv u ∧
            content u = content s ∧ u.pwindex = s.pwindex ∧ Frame s u ∧
            u.stdin = bs ++ tail :=
        ⟨_, loop_body_tab env _ hinv1, (switch_mode_inv _ hinv1).congr rfl rfl rfl rfl rfl,
          content_congr rfl rfl rfl, rfl, by simp [Frame, hs1], rfl⟩
      obtain ⟨t, ht1, ht2, ht3, ht4, ht5, ht6⟩ := ih hbs1 u hu1 hu6
      have hf : iscntrl 9 = true := by decide
      refine ⟨t, ht1, ht2, ?_, ?_, hu5.trans ht5, ?_⟩
      · rw [ht3, hu2, List.filter_cons]
        simp only [hf, Bool.not_true, Bool.false_eq_true, if_false]
      · rw [ht4, hu3, List.filter_cons]
        simp only [hf, Bool.not_true, Bool.false_eq_true, if_false]
      · intro fuel
        rw [hlen, main_loop_cont env _ s _ 9 _ hs1 hstep]
        exact ht6 fuel
    · obtain ⟨u, hu0, hu1, hu2, hu3, hu4, hu5, hu6, -⟩ :=
        append_branch_ok env b _ hinv1 hc hm
      have hstep : loop_body env b { s with stdin := bs ++ tail } = .cont u := by
        rw [loop_body_append env b _ hnc, hu0]
        rfl
      obtain ⟨t, ht1, ht2, ht3, ht4, ht5, ht6⟩ := ih hbs1 u hu1 hu6
      refine ⟨t, ht1, ht2, ?_, ?_, ?_, ?_⟩
      · rw [ht3, hu2, List.filter_cons]
        simp only [hnc, Bool.not_false, if_true]
        have : content { s with stdin := bs ++ tail } = content s := content_congr rfl rfl rfl
        rw [this]
        simp
      · rw [ht4, hu3, List.filter_cons]
        simp only [hnc, Bool.not_false, if_true, List.length_cons]
        show s.pwindex + 1 + _ = _
        omega
      · exact hfr1.trans (hu5.trans ht5)
      · intro fuel
        rw [hlen, main_loop_cont env _ s _ b _ hs1 hstep]
        exact ht6 fuel

theorem main_startup_ok (env : Env) (tty : Termios) (input : List Byte)
    (h1 : env.atexit_ok = true) (h2 : env.prctl_ok = true) (h3 : env.tcgetattr_ok = true)
    (h4 : env.tcsetattr_ok 0 = true) (h5 : env.calloc_ok 0 = true)
    (h6 : env.mlock_ok 0 = true) :
    main_startup env (init tty input) = .ret (start_state tty input) := by
  have e : main_alloc env (init tty input) = .ret (alloc_state tty input) := by
    simp [main_alloc, main_prelude, setup_console, enter_raw_mode, tcsetattr, h1,
      h2, h3, h4, h5, h6, Ctl.bind, init, allocate_pw_buf, calloc, mlock, alloc_state]
  rw [main_startup, e, Ctl.bind_ret, print_password_inv _ (alloc_state_inv tty input)]
  have hc : content (alloc_state tty input) = [] := by
    simp [content, alloc_state]
  rw [hc]
  rfl

theorem content_start_state (tty : Termios) (input : List Byte) :
    content (start_state tty input) = [] := by
  simp [content, start_state, alloc_state]

theorem reachable_inv (env : Env) (s : State) (h : Reachable env s) : Inv s := by
  induction h with
  | alloc tty input s hs =>
    have hp := main_alloc_post env tty input
    rw [hs] at hp
    rw [hp.1]
    exact alloc_state_inv tty input
  | start tty input s hs =>
    have hp := main_startup_post env tty input
    rw [hs] at hp
    rw [hp.1]
    exact start_state_inv tty input
  | read s c rest _ _ ih => exact ih.congr rfl rfl rfl rfl rfl
  | step s c rest t _ _ hb ih =>
    have hp := loop_body_post env c { s with stdin := rest } (ih.congr rfl rfl rfl rfl rfl)
    rw [hb] at hp
    exact hp.1

/-! The claims. -/

/-- C1: when the start-up calls and every allocation succeed, an input made of
non-control bytes and Tab bytes in any interleaving, followed by a newline,
makes the program write to standard output exactly once, and what it writes
is the non-control bytes of the input in their order; the status is 0 when
the terminal is restored successfully. -/
theorem commit_non_control_bytes_once (env : Env) (tty : Termios) (bs rest : List Byte)
    (h1 : env.atexit_ok = true) (h2 : env.prctl_ok = true) (h3 : env.tcgetattr_ok = true)
    (h4 : env.tcsetattr_ok 0 = true) (hc : ∀ k, env.calloc_ok k = true)
    (hm : ∀ k, env.mlock_ok k = true) (hbs : ∀ b ∈ bs, b = 9 ∨ iscntrl b = false) :
    ∃ code t, run env tty (bs ++ 10 :: rest) = .terminated code t ∧
      t.stdout = [bs.filter (fun b => !iscntrl b)] ∧
      (env.tcsetattr_ok 1 = true → code = 0) := by
  obtain ⟨t, ht1, ht2, ht3, -, ht5, ht6⟩ :=
    main_loop_text env hc hm bs (10 :: rest) hbs (start_state tty (bs ++ 10 :: rest))
      (start_state_inv tty _) rfl
  have hloop : main_loop env ((start_state tty (bs ++ 10 :: rest)).stdin.length + 1)
      (start_state tty (bs ++ 10 :: rest)) = .ret { t with stdin := rest } := by
    have hl : (start_state tty (bs ++ 10 :: rest)).stdin.length + 1 =
        bs.length + (rest.length + 1 + 1) := by
      show (bs ++ 10 :: rest).length + 1 = _
      simp
      omega
    rw [hl, ht6]
    exact main_loop_brk env _ t _ 10 rest ht2 (loop_body_newline env _)
  have hinv : Inv { t with stdin := rest } := ht1.congr rfl rfl rfl rfl rfl
  have hmain : main env (init tty (bs ++ 10 :: rest)) =
      .ret (write_stdout (content t) (clear_term_line { t with stdin := rest })) := by
    rw [main, main_startup_ok env tty _ h1 h2 h3 h4 (hc 0) (hm 0), Ctl.bind_ret, hloop,
      Ctl.bind_ret, main_commit_eq _ hinv]
    rfl
  obtain ⟨hf1, hf2, hf3, hf4, hf5, hf6, -⟩ := ht5
  have hsafe : Safe (write_stdout (content t) (clear_term_line { t with stdin := rest })) :=
    hinv.safe.carry rfl rfl rfl
  obtain ⟨code, u, hu1, hu2, -, hu4⟩ := exit_post env 0 _ hsafe
  refine ⟨code, u, ?_, ?_, ?_⟩
  · rw [run, hmain]
    exact hu1
  · rw [hu2]
    show t.stdout ++ [content t] = _
    rw [hf6, ht3, content_start_state]
    rfl
  · intro h7
    have hh : (write_stdout (content t) (clear_term_line { t with stdin := rest })).handler =
        true := hf3
    have hn : (write_stdout (content t)
        (clear_term_line { t with stdin := rest })).n_tcsetattr = 1 := hf5
    have := (hu4 hh).2.2.2.2.1
    rw [hn] at this
    exact (this h7).2

set_option maxRecDepth 100000 in
theorem commit_non_control_bytes_once_witness :
    (∃ code t, run (env_ok 0) tty_cooked [97, 98, 9, 99, 10] = .terminated code t ∧
      t.stdout = [[97, 98, 99]] ∧ code = 0) ∧
    (∃ code t, run (env_ok 0) tty_cooked [10] = .terminated code t ∧
      t.stdout = [[]] ∧ code = 0) := by
  constructor
  · obtain ⟨code, t, h1, h2, h3⟩ :=
      commit_non_control_bytes_once (env_ok 0) tty_cooked [97, 98, 9, 99] [] rfl rfl rfl rfl
        (fun _ => rfl) (fun _ => rfl) (by decide)
    exact ⟨code, t, h1, h2, h3 rfl⟩
  · obtain ⟨code, t, h1, h2, h3⟩ :=
      commit_non_control_bytes_once (env_ok 0) tty_cooked [] [] rfl rfl rfl rfl
        (fun _ => rfl) (fun _ => rfl) (by decide)
    exact ⟨code, t, h1, h2, h3 rfl⟩

/-- C2: in Masked mode (`MODE_STARS`), for every buffer and every index within
it, `print_password` writes the clear sequence, the prompt, and then exactly
one asterisk for each of the first `pwindex` bytes whose top two bits are not
binary 10, and nothing for the bytes whose top two bits are 10. -/
theorem print_password_masked (s : State) (a : Nat) (blk : List Byte)
    (hp : s.pwbuf = some a) (hb : s.heap[a]? = some blk) (hi : s.pwindex ≤ blk.length)
    (hm : s.current_mode = MODE_STARS) :
    print_password s =
      .ret { s with
        stderr := s.stderr ++
          [[27, 91, 50, 75, 13], [80, 97, 115, 115, 119, 111, 114, 100, 58, 32]] ++
          List.replicate ((blk.take s.pwindex).countP (fun b => !is_continuation b)) [42] } := by
  have hl : load s.heap s.pwbuf 0 s.pwindex = some (blk.take s.pwindex) := by
    by_cases h0 : s.pwindex = 0
    · simp [load, h0]
    · simp [load, h0, hp, hb, hi]
  have hpre : [strBytes ("\x1b[2K\r"), strBytes ("Password: ")] =
      [[27, 91, 50, 75, 13], [80, 97, 115, 115, 119, 111, 114, 100, 58, 32]] := by decide
  rw [print_password_eq s _ hl (Or.inr hm), hm]
  simp only [rendered, hpre, MODE_ECHO, MODE_STARS]
  simp

set_option maxRecDepth 100000 in
theorem print_password_masked_witness :
    print_password
        { start_state tty_cooked [] with
          heap := [[226, 130, 172, 65]], pwbufsize := 4, pwindex := 4,
          current_mode := MODE_STARS } =
      .ret { start_state tty_cooked [] with
        heap := [[226, 130, 172, 65]], pwbufsize := 4, pwindex := 4,
        current_mode := MODE_STARS,
        stderr := rendered MODE_ECHO [] ++
          [[27, 91, 50, 75, 13], [80, 97, 115, 115, 119, 111, 114, 100, 58, 32],
            [42], [42]] } :=
  (print_password_masked
    { start_state tty_cooked [] with
      heap := [[226, 130, 172, 65]], pwbufsize := 4, pwindex := 4,
      current_mode := MODE_STARS } 0 [226, 130, 172, 65] rfl rfl (by decide) rfl).trans
    (by decide)

set_option maxRecDepth 100000 in
/-- C3, counterexample: three runs on the single input byte newline.  When
`atexit` fails the restore is performed zero times; when the restoring
`tcsetattr` fails the terminal is left in raw mode; when `prctl` fails the
handler writes the never-filled, all-zero snapshot to the terminal. -/
theorem restore_not_on_every_exit_path :
    (run env_atexit_fails tty_cooked [10]).final.map (fun t => (t.tty, t.restores)) =
      some (tty_cooked, 0) ∧
    (run env_restore_fails tty_cooked [10]).final.map (fun t => (t.tty, t.restores)) =
      some ({ tty_cooked with c_lflag := 35377 }, 1) ∧
    (run env_prctl_fails tty_cooked [10]).final.map (fun t => (t.tty, t.restores)) =
      some (zero_termios, 1) ∧
    tty_cooked ≠ { tty_cooked with c_lflag := 35377 } ∧ tty_cooked ≠ zero_termios := by
  decide

/-- C3, amended: in every run in which `atexit`, `prctl` and `tcgetattr` succeed
and the `tcsetattr` call of `restore_console` (the second `tcsetattr` call)
succeeds, whatever the input and whichever other call fails, the program
terminates, `restore_console` has been performed exactly once and the terminal
attributes after exit are those at the start.  When `atexit` fails the program
terminates with the failure status without touching the terminal and without
performing a restore. -/
theorem restore_once_when_snapshot_taken (env : Env) (tty : Termios) (input : List Byte) :
    (env.atexit_ok = true → env.prctl_ok = true → env.tcgetattr_ok = true →
      env.tcsetattr_ok 1 = true →
      ∃ code t, run env tty input = .terminated code t ∧ t.tty = tty ∧ t.restores = 1) ∧
    (env.atexit_ok = false →
      ∃ t, run env tty input = .terminated EXIT_FAILURE t ∧ t.tty = tty ∧ t.restores = 0) := by
  have hp := main_post env tty input
  constructor
  · intro h1 h2 h3 h4
    have key : ∀ code0 s, Safe s → s.handler = true → s.saved_termios = tty →
        s.n_tcsetattr = 1 → s.restores = 0 →
        ∃ code t, exit env code0 s = .terminated code t ∧ t.tty = tty ∧ t.restores = 1 := by
      intro code0 s hs hh hsv hn hr
      obtain ⟨code, t, ht1, -, -, ht4⟩ := exit_post env code0 s hs
      obtain ⟨-, -, -, hr1, hok, -⟩ := ht4 hh
      rw [hn] at hok
      exact ⟨code, t, ht1, (hok h4).1.trans hsv, by rw [hr1, hr]⟩
    unfold run
    cases hr : main env (init tty input) with
    | ret s =>
      rw [hr] at hp
      obtain ⟨hinv, hr0, hh, hsv, hn, -⟩ := hp
      exact key 0 s hinv.safe hh hsv hn hr0
    | exit code s =>
      rw [hr] at hp
      obtain ⟨-, hs, hr0, -, hh, -, hsn⟩ := hp
      exact key code s hs (hh.trans h1) (hsn h1 h2 h3).1 (hsn h1 h2 h3).2 hr0
    | ub => rw [hr] at hp; exact hp.elim
    | nofuel => rw [hr] at hp; exact hp.elim
  · intro h1
    unfold run
    cases hr : main env (init tty input) with
    | ret s =>
      rw [hr] at hp
      obtain ⟨-, -, -, -, -, -, h, -⟩ := hp
      rw [h1] at h
      cases h
    | exit code s =>
      rw [hr] at hp
      obtain ⟨hc, hs, hr0, -, hh, htty, -⟩ := hp
      obtain ⟨code1, t, ht1, -, ht3, -⟩ := exit_post env code s hs
      obtain ⟨rfl, rfl⟩ := ht3 (hh.trans h1)
      exact ⟨t, by rw [← hc]; exact ht1, (htty h1).1, hr0⟩
    | ub => rw [hr] at hp; exact hp.elim
    | nofuel => rw [hr] at hp; exact hp.elim

theorem restore_once_when_snapshot_taken_witness :
    (∃ code t, run (env_ok 0) tty_cooked [97, 10] = .terminated code t ∧ t.tty = tty_cooked ∧
      t.restores = 1) ∧
    (∃ t, run env_atexit_fails tty_cooked [97, 10] = .terminated EXIT_FAILURE t ∧
      t.tty = tty_cooked ∧ t.restores = 0) :=
  ⟨(restore_once_when_snapshot_taken (env_ok 0) tty_cooked [97, 10]).1 rfl rfl rfl rfl,
    (restore_once_when_snapshot_taken env_atexit_fails tty_cooked [97, 10]).2 rfl⟩

/-- C4: when the exit handler is registered, every run terminates, and after
`exit_handler` has run every byte of every block ever allocated (the heap
keeps them all) is zero and the index and capacity counters are zero,
whatever the input and whichever later call fails. -/
theorem zeroization (env : Env) (tty : Termios) (input : List Byte)
    (h1 : env.atexit_ok = true) :
    ∃ code t, run env tty input = .terminated code t ∧ AllZero t.heap ∧ t.pwindex = 0 ∧
      t.pwbufsize = 0 := by
  have hp := main_post env tty input
  have key : ∀ code0 s, Safe s → s.handler = true →
      ∃ code t, exit env code0 s = .terminated code t ∧ AllZero t.heap ∧ t.pwindex = 0 ∧
        t.pwbufsize = 0 := by
    intro code0 s hs hh
    obtain ⟨code, t, ht1, -, -, ht4⟩ := exit_post env code0 s hs
    obtain ⟨hz, hi, hsz, -⟩ := ht4 hh
    exact ⟨code, t, ht1, hz, hi, hsz⟩
  unfold run
  cases hr : main env (init tty input) with
  | ret s =>
    rw [hr] at hp
    exact key 0 s hp.1.safe hp.2.2.1
  | exit code s =>
    rw [hr] at hp
    obtain ⟨-, hs, -, -, hh, -⟩ := hp
    exact key code s hs (hh.trans h1)
  | ub => rw [hr] at hp; exact hp.elim
  | nofuel => rw [hr] at hp; exact hp.elim

set_option maxRecDepth 1000000 in
theorem zeroization_witness :
    (∃ code t, run (env_ok 0) tty_cooked (List.replicate 257 65 ++ [127, 10]) =
      .terminated code t ∧ AllZero t.heap ∧ t.pwindex = 0 ∧ t.pwbufsize = 0) ∧
    (run (env_ok 0) tty_cooked (List.replicate 257 65 ++ [127, 10])).final.map
      (fun t => t.heap.map List.length) = some [256, 512] :=
  ⟨zeroization (env_ok 0) tty_cooked (List.replicate 257 65 ++ [127, 10]) rfl, by decide⟩

/-- C5: when every allocation succeeds, entering any sequence of `n` non-control
bytes, of any length, from the start of the read loop makes every append
succeed: the loop consumes them all and hands back a state with index `n` whose
first `n` buffer bytes are the sequence in order; and in every state of the
loop a call of `grow_pw_buf` returns with the capacity larger by `PWBUF_SIZE`
and with the index and the first `pwindex` bytes unchanged. -/
theorem growth_preserves_content (env : Env) (hc : ∀ k, env.calloc_ok k = true)
    (hm : ∀ k, env.mlock_ok k = true) :
    (∀ (tty : Termios) (bs : List Byte), (∀ b ∈ bs, iscntrl b = false) →
      ∃ t, main_loop env (bs.length + 1) (start_state tty bs) = .ret t ∧
        t.stdin = [] ∧ t.pwindex = bs.length ∧ content t = bs) ∧
    (∀ s, Reachable env s →
      ∃ t, grow_pw_buf env s = .ret t ∧ t.pwbufsize = s.pwbufsize + PWBUF_SIZE ∧
        t.pwindex = s.pwindex ∧ content t = content s) := by
  constructor
  · intro tty bs hbs
    obtain ⟨t, -, ht2, ht3, ht4, -, ht6⟩ :=
      main_loop_text env hc hm bs [] (fun b hb => Or.inr (hbs b hb)) (start_state tty bs)
        (start_state_inv tty bs) (by simp [start_state, alloc_state])
    have hfil : bs.filter (fun b => !iscntrl b) = bs := by
      rw [List.filter_eq_self]
      intro b hb
      simp [hbs b hb]
    refine ⟨t, ?_, ht2, ?_, ?_⟩
    · rw [ht6 1]
      exact main_loop_nil env 0 t ht2
    · rw [ht4, hfil]
      show 0 + bs.length = bs.length
      omega
    · rw [ht3, hfil, content_start_state]
      rfl
  · intro s hs
    have hp := grow_pw_buf_post env s (reachable_inv env s hs)
    cases hr : grow_pw_buf env s with
    | ret t =>
      rw [hr] at hp
      obtain ⟨-, h2, h3, h4, -⟩ := hp
      exact ⟨t, rfl, h4, h3, h2⟩
    | exit code t =>
      rw [hr] at hp
      obtain ⟨-, -, -, h5⟩ := hp
      rw [hc, hm] at h5
      simp at h5
    | ub => rw [hr] at hp; exact hp.elim
    | nofuel => rw [hr] at hp; exact hp.elim

set_option maxRecDepth 100000 in
theorem growth_preserves_content_witness :
    ∃ t, main_loop (env_ok 0) 258 (start_state tty_cooked (List.replicate 257 65)) = .ret t ∧
      t.stdin = [] ∧ t.pwindex = 257 ∧ content t = List.replicate 257 65 :=
  (growth_preserves_content (env_ok 0) (fun _ => rfl) (fun _ => rfl)).1 tty_cooked
    (List.replicate 257 65) (fun b hb => by rw [(List.mem_replicate.1 hb).2]; rfl)

/-- C6: in every state of the read loop the index is at most the capacity, no
iteration of the loop runs into an out-of-bounds access, and the state in
which the byte is stored (after the capacity check of lines 225-228) has its
index strictly below the capacity and inside the block the pointer designates. -/
theorem buffer_invariant (env : Env) (s : State) (hs : Reachable env s) :
    s.pwindex ≤ s.pwbufsize ∧
    (∀ c, loop_body env c s ≠ .ub) ∧
    (∀ s1, ensure_capacity env s = .ret s1 →
      s1.pwindex < s1.pwbufsize ∧
      ∃ blk, cur_block s1 = some blk ∧ blk.length = s1.pwbufsize ∧
        ∀ c, store s1.heap s1.pwbuf s1.pwindex c ≠ none) := by
  have hinv := reachable_inv env s hs
  refine ⟨?_, ?_, ?_⟩
  · obtain ⟨a, blk, hp, hb, hl, hi, -⟩ := hinv
    exact hi
  · intro c hub
    have hp := loop_body_post env c s hinv
    rw [hub] at hp
    exact hp
  · intro s1 hs1
    have hp := ensure_capacity_post env s hinv
    rw [hs1] at hp
    obtain ⟨h1, -, -, h4, -⟩ := hp
    refine ⟨h4, ?_⟩
    obtain ⟨hp1, hst, -⟩ := store_inv s1 0 h1 h4
    obtain ⟨a, blk, hp, hb, hl, hi, -⟩ := h1
    refine ⟨blk, by simp [cur_block, hp, hb], hl, ?_⟩
    intro c
    have hlt : s1.pwindex < blk.length := by omega
    simp [store, hp, hb, hlt]

set_option maxRecDepth 100000 in
theorem buffer_invariant_witness :
    (start_state tty_cooked [97, 10]).pwindex ≤ (start_state tty_cooked [97, 10]).pwbufsize ∧
    (∀ c, loop_body (env_ok 0) c (start_state tty_cooked [97, 10]) ≠ .ub) ∧
    (∀ s1, ensure_capacity (env_ok 0) (start_state tty_cooked [97, 10]) = .ret s1 →
      s1.pwindex < s1.pwbufsize ∧
      ∃ blk, cur_block s1 = some blk ∧ blk.length = s1.pwbufsize ∧
        ∀ c, store s1.heap s1.pwbuf s1.pwindex c ≠ none) :=
  buffer_invariant (env_ok 0) (start_state tty_cooked [97, 10])
    (Reachable.start tty_cooked [97, 10] _ (by decide))

theorem loop_body_tab_ok (env : Env) (s : State) (h : Inv s) :
    ∃ u, loop_body env 9 s = .cont u ∧ Inv u ∧
      u.current_mode = (s.current_mode + 1).tmod 2 ∧ u.stdin = s.stdin :=
  ⟨_, loop_body_tab env s h, (switch_mode_inv s h).congr rfl rfl rfl rfl rfl, rfl, rfl⟩

theorem main_loop_tabs (env : Env) (n : Nat) (s : State) (h : Inv s)
    (hs : s.stdin = List.replicate n 9) :
    ∃ t, main_loop env (n + 1) s = .ret t ∧
      t.current_mode = if n % 2 = 0 then s.current_mode else (s.current_mode + 1).tmod 2 := by
  induction n generalizing s with
  | zero => exact ⟨s, main_loop_nil env 0 s (by simpa using hs), rfl⟩
  | succ n ih =>
    have hs1 : s.stdin = 9 :: List.replicate n 9 := by
      rw [hs, List.replicate_succ]
    have hinv1 : Inv { s with stdin := List.replicate n 9 } := h.congr rfl rfl rfl rfl rfl
    obtain ⟨u, hstep, hu1, hu2, hu3⟩ := loop_body_tab_ok env _ hinv1
    obtain ⟨t, ht1, ht2⟩ := ih u hu1 hu3
    refine ⟨t, ?_, ?_⟩
    · rw [main_loop_cont env (n + 1) s u 9 _ hs1 hstep]
      exact ht1
    · rw [ht2, hu2]
      obtain ⟨a, blk, hp, hb, hl, hi, hz, hm, -⟩ := h
      have hm1 : s.current_mode = 0 ∨ s.current_mode = 1 := hm
      show (if n % 2 = 0 then (s.current_mode + 1).tmod 2
        else ((s.current_mode + 1).tmod 2 + 1).tmod 2) = _
      rcases Nat.mod_two_eq_zero_or_one n with h0 | h0
      · have h1 : (n + 1) % 2 = 1 := by omega
        simp [h0, h1]
      · have h1 : (n + 1) % 2 = 0 := by omega
        rcases hm1 with e | e <;> simp [h0, h1, e] <;> rfl

/-- C7: starting from Echo, `n` applications of `switch_mode` give Echo when `n`
is even and Masked when `n` is odd; the read loop started on `n` Tab bytes
ends in Echo when `n` is even and in Masked when `n` is odd; and in every
state of the read loop `current_mode` is 0 or 1. -/
theorem mode_round_trip (env : Env) :
    (∀ (s : State) (n : Nat), s.current_mode = MODE_ECHO →
      (switch_mode^[n] s).current_mode = if n % 2 = 0 then MODE_ECHO else MODE_STARS) ∧
    (∀ (tty : Termios) (n : Nat),
      ∃ t, main_loop env (n + 1) (start_state tty (List.replicate n 9)) = .ret t ∧
        t.current_mode = if n % 2 = 0 then MODE_ECHO else MODE_STARS) ∧
    (∀ s, Reachable env s → s.current_mode = 0 ∨ s.current_mode = 1) := by
  refine ⟨?_, ?_, ?_⟩
  · intro s n hs
    induction n with
    | zero => simpa using hs
    | succ n ih =>
      rw [Function.iterate_succ_apply']
      show ((switch_mode^[n] s).current_mode + 1).tmod 2 = _
      rw [ih]
      rcases Nat.mod_two_eq_zero_or_one n with h0 | h0
      · have h1 : (n + 1) % 2 = 1 := by omega
        simp [h0, h1, MODE_ECHO, MODE_STARS]
        rfl
      · have h1 : (n + 1) % 2 = 0 := by omega
        simp [h0, h1, MODE_ECHO, MODE_STARS]
  · intro tty n
    obtain ⟨t, ht1, ht2⟩ :=
      main_loop_tabs env n (start_state tty (List.replicate n 9)) (start_state_inv tty _) rfl
    refine ⟨t, ht1, ?_⟩
    rw [ht2]
    by_cases h0 : n % 2 = 0
    · simp [h0]; rfl
    · simp [h0]; rfl
  · intro s hs
    obtain ⟨a, blk, hp, hb, hl, hi, hz, hm, -⟩ := reachable_inv env s hs
    exact hm

set_option maxRecDepth 100000 in
theorem mode_round_trip_witness :
    (switch_mode^[3] (init tty_cooked [])).current_mode = MODE_STARS ∧
    ((start_state tty_cooked [9, 10]).current_mode = 0 ∨
      (start_state tty_cooked [9, 10]).current_mode = 1) :=
  ⟨(mode_round_trip (env_ok 0)).1 (init tty_cooked []) 3 rfl,
    (mode_round_trip (env_ok 0)).2.2 (start_state tty_cooked [9, 10])
      (Reachable.start tty_cooked [9, 10] _ (by decide))⟩

/-- C8: in every state of the read loop, processing the backspace byte 127 with
index 0 leaves the index at 0 and the buffer, capacity and mode unchanged and
performs exactly one redraw (of the empty contents); with index above 0 it
decrements the index by exactly one, changes nothing else, and performs
exactly one redraw (of the contents without their last byte). -/
theorem backspace_boundary (env : Env) (s : State) (hs : Reachable env s) :
    (s.pwindex = 0 →
      loop_body env 127 s =
        .cont { s with stderr := s.stderr ++ rendered s.current_mode [] }) ∧
    (0 < s.pwindex →
      loop_body env 127 s =
        .cont { s with
          pwindex := s.pwindex - 1,
          stderr := s.stderr ++
            rendered s.current_mode ((content s).take (s.pwindex - 1)) }) := by
  have hinv := reachable_inv env s hs
  constructor
  · intro h0
    rw [loop_body_backspace env s hinv]
    have hc : (content s).take (s.pwindex - 1) = [] := by simp [h0]
    rw [hc]
    cases s
    simp only at h0
    simp [h0]
  · intro _
    exact loop_body_backspace env s hinv

set_option maxRecDepth 100000 in
theorem state_a_reachable (input : List Byte) : Reachable (env_ok 0) (state_a input) :=
  Reachable.step (start_state tty_cooked (97 :: input)) 97 input (state_a input)
    (Reachable.start tty_cooked (97 :: input) _
      (main_startup_ok (env_ok 0) tty_cooked (97 :: input) rfl rfl rfl rfl rfl rfl))
    rfl (by
      rw [loop_body_append (env_ok 0) 97 _ (by decide)]
      rfl)

set_option maxRecDepth 100000 in
theorem backspace_boundary_witness :
    loop_body (env_ok 0) 127 (start_state tty_cooked []) =
      .cont { start_state tty_cooked [] with
        stderr := rendered MODE_ECHO [] ++ rendered MODE_ECHO [] } ∧
    loop_body (env_ok 0) 127 (state_a []) =
      .cont { state_a [] with
        pwindex := 0,
        stderr := rendered MODE_ECHO [] ++ rendered MODE_ECHO [97] ++ rendered MODE_ECHO [] } :=
  ⟨(backspace_boundary (env_ok 0) (start_state tty_cooked [])
      (Reachable.start tty_cooked [] _ (by decide))).1 rfl,
    (backspace_boundary (env_ok 0) (state_a []) (state_a_reachable [])).2 (by decide)⟩

/-- C9: in any state, when the loop body handles byte 27 while the `FIONREAD`
probe reports exactly as many queued bytes as the list `q` holds, it consumes
exactly those bytes, whatever they are, without interpreting them, leaves the
buffer, index, capacity, mode and both output channels unchanged, and the loop
goes on; when nothing follows `q`, the loop started on 27 and `q` consumes all
of the `q.length + 1` bytes and ends in the unchanged state. -/
theorem escape_discard (env : Env) (s : State) (q rest : List Byte)
    (hn : env.fionread s.n_ioctl = some q.length) :
    loop_body env 27 { s with stdin := q ++ rest } =
      .cont { s with stdin := rest, n_ioctl := s.n_ioctl + 1 } ∧
    ∀ fuel, main_loop env (fuel + 2) { s with stdin := 27 :: q } =
      .ret { s with stdin := [], n_ioctl := s.n_ioctl + 1 } := by
  have h1 : ∀ tail, loop_body env 27 { s with stdin := q ++ tail } =
      .cont { s with stdin := tail, n_ioctl := s.n_ioctl + 1 } := by
    intro tail
    rw [loop_body_escape_some env { s with stdin := q ++ tail } q.length hn]
    simp
  refine ⟨h1 rest, ?_⟩
  intro fuel
  have h2 := h1 []
  rw [List.append_nil] at h2
  rw [main_loop_cont env (fuel + 1) { s with stdin := 27 :: q } _ 27 q rfl h2]
  exact main_loop_nil env fuel _ rfl

set_option maxRecDepth 100000 in
theorem escape_discard_witness :
    loop_body (env_ok 3) 27 { state_a [] with stdin := [91, 10, 127] ++ [98] } =
      .cont { state_a [] with stdin := [98], n_ioctl := 1 } ∧
    ∀ fuel, main_loop (env_ok 3) (fuel + 2) { state_a [] with stdin := 27 :: [91, 10, 127] } =
      .ret { state_a [] with stdin := [], n_ioctl := 1 } :=
  escape_discard (env_ok 3) (state_a []) [91, 10, 127] [98] rfl

/-- C10: in Echo mode, for every buffer and every index within it,
`print_password` writes to standard error exactly the clear-line sequence
ESC `[2K` followed by carriage return, then the prompt `Password: `, then the
first `pwindex` bytes of the buffer verbatim, and changes nothing else. -/
theorem print_password_echo (s : State) (a : Nat) (blk : List Byte)
    (hp : s.pwbuf = some a) (hb : s.heap[a]? = some blk) (hi : s.pwindex ≤ blk.length)
    (hm : s.current_mode = MODE_ECHO) :
    print_password s =
      .ret { s with
        stderr := s.stderr ++
          [[27, 91, 50, 75, 13], [80, 97, 115, 115, 119, 111, 114, 100, 58, 32],
            blk.take s.pwindex] } := by
  have hl : load s.heap s.pwbuf 0 s.pwindex = some (blk.take s.pwindex) := by
    by_cases h0 : s.pwindex = 0
    · simp [load, h0]
    · simp [load, h0, hp, hb, hi]
  rw [print_password_eq s _ hl (Or.inl hm), hm]
  simp [rendered, MODE_ECHO, MODE_STARS]
  decide

set_option maxRecDepth 100000 in
theorem print_password_echo_witness :
    print_password (state_a []) =
      .ret { state_a [] with
        stderr := (state_a []).stderr ++
          [[27, 91, 50, 75, 13], [80, 97, 115, 115, 119, 111, 114, 100, 58, 32], [97]] } :=
  print_password_echo (state_a []) 0 (97 :: List.replicate 255 0) rfl rfl (by decide) rfl

theorem content_length (s : State) (h : Inv s) : (content s).length = s.pwindex := by
  obtain ⟨a, blk, hp, hb, hl, hi, -⟩ := h
  simp only [content, cur_block, hp, hb, Option.getD_some, List.length_take]
  omega

theorem drop_pred_of_length {α : Type} (l : List α) (n : Nat) (hl : l.length = n)
    (hn : 0 < n) : ∃ b, l[n - 1]? = some b ∧ l.drop (n - 1) = [b] := by
  have hlt : n - 1 < l.length := by omega
  refine ⟨l[n - 1], List.getElem?_eq_getElem hlt, ?_⟩
  rw [List.drop_eq_getElem_cons hlt]
  have : l.drop (n - 1 + 1) = [] := List.drop_eq_nil_of_le (by omega)
  rw [this]

/-- C13: in every state of the read loop, processing byte 18 with index above 0
writes to standard error exactly two bytes, the backspace character 8 and then
the buffer byte at position `pwindex - 1`, and with index 0 writes nothing; in
both cases the buffer, index, capacity and mode are unchanged, no redraw is
made, and the loop goes on. -/
theorem reveal_last (env : Env) (s : State) (hs : Reachable env s) :
    (0 < s.pwindex →
      ∃ b, (content s)[s.pwindex - 1]? = some b ∧
        loop_body env 18 s = .cont { s with stderr := s.stderr ++ [[8], [b]] }) ∧
    (s.pwindex = 0 → loop_body env 18 s = .cont s) := by
  have hinv := reachable_inv env s hs
  constructor
  · intro h0
    obtain ⟨b, hb1, hb2⟩ := drop_pred_of_length (content s) s.pwindex (content_length s hinv) h0
    refine ⟨b, hb1, ?_⟩
    rw [loop_body_reveal env s hinv, if_pos h0, hb2]
  · intro h0
    rw [loop_body_reveal env s hinv, if_neg (by omega)]

set_option maxRecDepth 100000 in
theorem reveal_last_witness :
    (∃ b, (content (state_a []))[(state_a []).pwindex - 1]? = some b ∧
      loop_body (env_ok 0) 18 (state_a []) =
        .cont { state_a [] with stderr := (state_a []).stderr ++ [[8], [b]] }) ∧
    loop_body (env_ok 0) 18 (start_state tty_cooked []) = .cont (start_state tty_cooked []) :=
  ⟨(reveal_last (env_ok 0) (state_a []) (state_a_reachable [])).1 (by decide),
    (reveal_last (env_ok 0) (start_state tty_cooked [])
      (Reachable.start tty_cooked [] _ (by decide))).2 rfl⟩

/-- C14: in any state, a control byte other than Tab (9), newline (10), Ctrl-R
(18), Escape (27) and DEL (127) is ignored: the loop body hands back the very
same state (nothing written on either channel, buffer, index, capacity and
mode unchanged) and the loop goes on with the next byte; in particular
carriage return (13) neither commits nor appends. -/
theorem other_control_ignored (env : Env) (c : Byte) (hc : iscntrl c = true)
    (h9 : c ≠ 9) (h10 : c ≠ 10) (h18 : c ≠ 18) (h27 : c ≠ 27) (h127 : c ≠ 127) :
    (∀ s, loop_body env c s = .cont s) ∧
    (∀ s rest fuel, s.stdin = c :: rest →
      main_loop env (fuel + 1) s = main_loop env fuel { s with stdin := rest }) := by
  refine ⟨fun s => loop_body_ignored env c s hc h9 h10 h18 h27 h127, ?_⟩
  intro s rest fuel hs
  exact main_loop_cont env fuel s _ c rest hs
    (loop_body_ignored env c _ hc h9 h10 h18 h27 h127)

set_option maxRecDepth 100000 in
theorem other_control_ignored_witness :
    (∀ s, loop_body (env_ok 0) 13 s = .cont s) ∧
    (∀ s rest fuel, s.stdin = 13 :: rest →
      main_loop (env_ok 0) (fuel + 1) s = main_loop (env_ok 0) fuel { s with stdin := rest }) :=
  other_control_ignored (env_ok 0) 13 (by decide) (by decide) (by decide) (by decide)
    (by decide) (by decide)

theorem rendered_stars (bytes : List Byte) :
    rendered MODE_STARS bytes =
      [strBytes ("\x1b[2K\r"), strBytes ("Password: ")] ++
        List.replicate (bytes.countP (fun b => !is_continuation b)) [42] := by
  simp [rendered, MODE_ECHO, MODE_STARS]

theorem rendered_echo (bytes : List Byte) :
    rendered MODE_ECHO bytes =
      [strBytes ("\x1b[2K\r"), strBytes ("Password: "), bytes] := by
  simp [rendered, MODE_ECHO, MODE_STARS]

/-- C19: for any two states in Masked mode whose buffers hold, among their
first `pwindex` bytes, the same number of bytes with top two bits different
from binary 10, `print_password` appends byte for byte the same writes to
standard error, whatever the byte values are. -/
theorem masked_independent_of_values (s1 s2 : State) (a1 a2 : Nat) (blk1 blk2 : List Byte)
    (hp1 : s1.pwbuf = some a1) (hb1 : s1.heap[a1]? = some blk1)
    (hi1 : s1.pwindex ≤ blk1.length) (hm1 : s1.current_mode = MODE_STARS)
    (hp2 : s2.pwbuf = some a2) (hb2 : s2.heap[a2]? = some blk2)
    (hi2 : s2.pwindex ≤ blk2.length) (hm2 : s2.current_mode = MODE_STARS)
    (hcount : (blk1.take s1.pwindex).countP (fun b => !is_continuation b) =
      (blk2.take s2.pwindex).countP (fun b => !is_continuation b)) :
    ∃ out, print_password s1 = .ret { s1 with stderr := s1.stderr ++ out } ∧
      print_password s2 = .ret { s2 with stderr := s2.stderr ++ out } := by
  have hl : ∀ (s : State) (a : Nat) (blk : List Byte), s.pwbuf = some a →
      s.heap[a]? = some blk → s.pwindex ≤ blk.length →
      load s.heap s.pwbuf 0 s.pwindex = some (blk.take s.pwindex) := by
    intro s a blk hp hb hi
    by_cases h0 : s.pwindex = 0
    · simp [load, h0]
    · simp [load, h0, hp, hb, hi]
  refine ⟨rendered MODE_STARS (blk1.take s1.pwindex), ?_, ?_⟩
  · rw [print_password_eq s1 _ (hl s1 a1 blk1 hp1 hb1 hi1) (Or.inr hm1), hm1]
  · rw [print_password_eq s2 _ (hl s2 a2 blk2 hp2 hb2 hi2) (Or.inr hm2), hm2,
      rendered_stars, rendered_stars, hcount]

set_option maxRecDepth 100000 in
theorem masked_independent_of_values_witness :
    ∃ out,
      print_password
          { start_state tty_cooked [] with
            heap := [[226, 130, 172, 65]], pwbufsize := 4, pwindex := 4,
            current_mode := MODE_STARS } =
        .ret { start_state tty_cooked [] with
          heap := [[226, 130, 172, 65]], pwbufsize := 4, pwindex := 4,
          current_mode := MODE_STARS, stderr := rendered MODE_ECHO [] ++ out } ∧
      print_password
          { start_state tty_cooked [] with
            heap := [[120, 121, 0, 0]], pwbufsize := 4, pwindex := 2,
            current_mode := MODE_STARS } =
        .ret { start_state tty_cooked [] with
          heap := [[120, 121, 0, 0]], pwbufsize := 4, pwindex := 2,
          current_mode := MODE_STARS, stderr := rendered MODE_ECHO [] ++ out } :=
  masked_independent_of_values
    { start_state tty_cooked [] with
      heap := [[226, 130, 172, 65]], pwbufsize := 4, pwindex := 4,
      current_mode := MODE_STARS }
    { start_state tty_cooked [] with
      heap := [[120, 121, 0, 0]], pwbufsize := 4, pwindex := 2,
      current_mode := MODE_STARS }
    0 0 [226, 130, 172, 65] [120, 121, 0, 0] rfl rfl (by decide) rfl rfl rfl (by decide) rfl
    (by decide)

/-- Appending with room left: the explicit result. -/
theorem append_branch_room (env : Env) (c : Byte) (s : State) (h : Inv s)
    (hlt : s.pwindex < s.pwbufsize) :
    ∃ hp, store s.heap s.pwbuf s.pwindex c = some hp ∧ hp.length = s.heap.length ∧
      append_branch env c s =
        .ret { s with
          heap := hp, pwindex := s.pwindex + 1,
          stderr := s.stderr ++ rendered s.current_mode (content s ++ [c]) } := by
  obtain ⟨hp, hst, hnext⟩ := store_inv s c h hlt
  obtain ⟨hinv, hcont⟩ := hnext { s with heap := hp, pwindex := s.pwindex + 1 } rfl rfl rfl rfl rfl
  refine ⟨hp, hst, ?_, ?_⟩
  · obtain ⟨a, blk, hpa, hb, hl, -⟩ := h
    have hlt2 : s.pwindex < blk.length := by omega
    simp [store, hpa, hb, hlt2] at hst
    rw [← hst]
    simp
  · have e : ensure_capacity env s = .ret s := by
      simp [ensure_capacity, Nat.ne_of_lt hlt]
    rw [append_branch, e, Ctl.bind_ret]
    simp only [hst]
    rw [print_password_inv _ hinv, hcont]

/-- Appending to a full buffer when both allocation calls succeed: the explicit
result. -/
theorem append_branch_grown (env : Env) (c : Byte) (s : State) (h : Inv s)
    (hfull : s.pwindex = s.pwbufsize) (hc : env.calloc_ok s.n_calloc = true)
    (hm : env.mlock_ok s.n_mlock = true) :
    ∃ hp, hp.length = s.heap.length + 1 ∧
      append_branch env c s =
        .ret { s with
          heap := hp, pwbuf := some s.heap.length,
          pwbufsize := s.pwbufsize + PWBUF_SIZE, pwindex := s.pwindex + 1,
          n_calloc := s.n_calloc + 1, n_mlock := s.n_mlock + 1,
          stderr := s.stderr ++ rendered s.current_mode (content s ++ [c]) } := by
  obtain ⟨a, blk, hpa, hb, hl, hi, hz, hmode, hpos, hdvd⟩ := id h
  have e0 : ∀ u : State, u.pwindex < u.pwbufsize → ensure_capacity env u = .ret u := by
    intro u hu
    simp [ensure_capacity, Nat.ne_of_lt hu]
  have e : ensure_capacity env s = grow_pw_buf env s := by simp [ensure_capacity, hfull]
  have key : ∀ g : State,
      g = { s with
            heap := s.heap.set a (List.replicate s.pwbufsize 0) ++
              [blk ++ List.replicate PWBUF_SIZE 0],
            pwbuf := some s.heap.length, pwbufsize := s.pwbufsize + PWBUF_SIZE,
            n_calloc := s.n_calloc + 1, n_mlock := s.n_mlock + 1 } →
      grow_pw_buf env s = .ret g → Inv g → content g = content s →
      ∃ hp, hp.length = s.heap.length + 1 ∧
        append_branch env c s =
          .ret { s with
            heap := hp, pwbuf := some s.heap.length,
            pwbufsize := s.pwbufsize + PWBUF_SIZE, pwindex := s.pwindex + 1,
            n_calloc := s.n_calloc + 1, n_mlock := s.n_mlock + 1,
            stderr := s.stderr ++ rendered s.current_mode (content s ++ [c]) } := by
    intro g hG hg hinv1 hcont1
    have hlt1 : g.pwindex < g.pwbufsize := by
      rw [hG]
      show s.pwindex < s.pwbufsize + PWBUF_SIZE
      have : 0 < PWBUF_SIZE := by decide
      omega
    obtain ⟨hp, hst, hlen, happ⟩ := append_branch_room env c g hinv1 hlt1
    refine ⟨hp, ?_, ?_⟩
    · rw [hlen, hG]
      simp
    · rw [append_branch, e0 g hlt1, Ctl.bind_ret] at happ
      rw [append_branch, e, hg, Ctl.bind_ret, happ, hcont1, hG]
  have hg := grow_pw_buf_eq env s a blk hpa hb hl hpos hc hm
  have hpost := grow_pw_buf_post env s h
  rw [hg] at hpost
  exact key _ rfl hg hpost.1 hpost.2.1

/-- Appending to a full buffer when an allocation call fails: the explicit
result. -/
theorem append_branch_failed (env : Env) (c : Byte) (s : State)
    (hfull : s.pwindex = s.pwbufsize)
    (hf : env.calloc_ok s.n_calloc = false ∨ env.mlock_ok s.n_mlock = false) :
    append_branch env c s =
      if env.calloc_ok s.n_calloc = true then
        .exit EXIT_FAILURE
          (write_stderr (strBytes ("Failed to mlock buffer\n"))
            { s with
              heap := s.heap ++ [List.replicate (s.pwbufsize + PWBUF_SIZE) 0],
              n_calloc := s.n_calloc + 1, n_mlock := s.n_mlock + 1 })
      else
        .exit EXIT_FAILURE
          (write_stderr (strBytes ("Failed to allocate memory\n"))
            { s with n_calloc := s.n_calloc + 1 }) := by
  have e : ensure_capacity env s = grow_pw_buf env s := by simp [ensure_capacity, hfull]
  rw [append_branch, e]
  cases hc : env.calloc_ok s.n_calloc with
  | false => simp [grow_pw_buf, calloc, hc, Ctl.bind]
  | true =>
    have hm : env.mlock_ok s.n_mlock = false := by
      rcases hf with hf | hf
      · rw [hc] at hf; cases hf
      · exact hf
    simp [grow_pw_buf, calloc, mlock, hc, hm, Ctl.bind]

theorem loop_body_capacity (env : Env) (c : Byte) (s : State) (h : Inv s) :
    (loop_body env c s).Post
      (fun t => t.pwbufsize =
        if iscntrl c = false ∧ s.pwindex = s.pwbufsize then s.pwbufsize + PWBUF_SIZE
        else s.pwbufsize)
      (fun t => t.pwbufsize = s.pwbufsize)
      (fun _ t => t.pwbufsize = s.pwbufsize) := by
  cases hc : iscntrl c with
  | false =>
    rw [loop_body_append env c s hc]
    by_cases hfull : s.pwindex = s.pwbufsize
    · by_cases hok : env.calloc_ok s.n_calloc = true ∧ env.mlock_ok s.n_mlock = true
      · obtain ⟨hp, -, happ⟩ := append_branch_grown env c s h hfull hok.1 hok.2
        rw [happ, Ctl.andThen_ret]
        show s.pwbufsize + PWBUF_SIZE = _
        simp [hfull]
      · have hf : env.calloc_ok s.n_calloc = false ∨ env.mlock_ok s.n_mlock = false := by
          cases h1 : env.calloc_ok s.n_calloc
          · exact Or.inl rfl
          · cases h2 : env.mlock_ok s.n_mlock
            · exact Or.inr rfl
            · exact absurd ⟨h1, h2⟩ hok
        rw [append_branch_failed env c s hfull hf]
        by_cases h1 : env.calloc_ok s.n_calloc = true
        · rw [if_pos h1]; rfl
        · rw [if_neg h1]; rfl
    · have hlt : s.pwindex < s.pwbufsize := by
        obtain ⟨a, blk, hp, hb, hl, hi, -⟩ := h
        omega
      obtain ⟨hp, -, -, happ⟩ := append_branch_room env c s h hlt
      rw [happ, Ctl.andThen_ret]
      show s.pwbufsize = _
      simp [hfull]
  | true =>
    by_cases h9 : c = 9
    · subst h9
      rw [loop_body_tab env s h]
      show s.pwbufsize = _
      simp
    by_cases h27 : c = 27
    · subst h27
      cases hn : env.fionread s.n_ioctl with
      | none => rw [loop_body_escape_none env s hn]; rfl
      | some n =>
        rw [loop_body_escape_some env s n hn]
        show s.pwbufsize = _
        simp
    by_cases h18 : c = 18
    · subst h18
      rw [loop_body_reveal env s h]
      by_cases h0 : 0 < s.pwindex
      · rw [if_pos h0]
        show s.pwbufsize = _
        simp
      · rw [if_neg h0]
        show s.pwbufsize = _
        simp
    by_cases h127 : c = 127
    · subst h127
      rw [loop_body_backspace env s h]
      show s.pwbufsize = _
      simp
    by_cases h10 : c = 10
    · subst h10
      rw [loop_body_newline env s]
      rfl
    rw [loop_body_ignored env c s hc h9 h10 h18 h27 h127]
    show s.pwbufsize = _
    simp

theorem content_pred (s : State) (e : List (List Byte)) :
    content { s with pwindex := s.pwindex - 1, stderr := e } =
      (content s).take (s.pwindex - 1) := by
  simp [content, cur_block, List.take_take]

theorem andThen_cont_eq (r : Ctl) (t : State) (h : r.andThen Flow.cont = .cont t) :
    r = .ret t := by
  cases r with
  | ret u =>
    rw [Ctl.andThen_ret] at h
    cases h
    rfl
  | exit code u => cases h
  | ub => cases h
  | nofuel => cases h

/-- C18: in every state of the read loop and for every non-control byte `b`,
if processing `b` goes on, then processing the backspace byte 127 next goes on
too and hands back a state with the same index, the same first `pwindex`
bytes and the same mode as before `b`, and with the capacity either unchanged
or larger by exactly `PWBUF_SIZE`; and processing `b` does go on when every
allocation succeeds. -/
theorem append_then_backspace (env : Env) (s : State) (hs : Reachable env s) (b : Byte)
    (hb : iscntrl b = false) :
    (∀ t, loop_body env b s = .cont t →
      ∃ u, loop_body env 127 t = .cont u ∧ u.pwindex = s.pwindex ∧
        content u = content s ∧ u.current_mode = s.current_mode ∧
        (u.pwbufsize = s.pwbufsize ∨ u.pwbufsize = s.pwbufsize + PWBUF_SIZE)) ∧
    ((∀ k, env.calloc_ok k = true) → (∀ k, env.mlock_ok k = true) →
      ∃ t, loop_body env b s = .cont t) := by
  have hinv := reachable_inv env s hs
  constructor
  · intro t ht
    rw [loop_body_append env b s hb] at ht
    have hr := andThen_cont_eq _ t ht
    have hp := append_branch_post env b s hinv
    rw [hr] at hp
    obtain ⟨h1, h2, h3, h4, -, -, -, -, h9⟩ := hp
    refine ⟨_, loop_body_backspace env t h1, ?_, ?_, h4, ?_⟩
    · show t.pwindex - 1 = s.pwindex
      omega
    · rw [content_pred, h2, h3]
      have hl := content_length s hinv
      simp [← hl]
    · show t.pwbufsize = _ ∨ t.pwbufsize = _
      rw [h9]
      by_cases hfull : s.pwindex = s.pwbufsize
      · right; rw [if_pos hfull]
      · left; rw [if_neg hfull]
  · intro hc hm
    obtain ⟨t, ht, -⟩ := append_branch_ok env b s hinv hc hm
    exact ⟨t, by rw [loop_body_append env b s hb, ht]; rfl⟩

set_option maxRecDepth 100000 in
theorem append_then_backspace_witness :
    ∃ t u, loop_body (env_ok 0) 98 (state_a []) = .cont t ∧
      loop_body (env_ok 0) 127 t = .cont u ∧ u.pwindex = 1 ∧ content u = [97] ∧
      u.current_mode = MODE_ECHO ∧ (u.pwbufsize = 256 ∨ u.pwbufsize = 256 + PWBUF_SIZE) := by
  have h := append_then_backspace (env_ok 0) (state_a []) (state_a_reachable []) 98 (by decide)
  obtain ⟨t, ht⟩ := h.2 (fun _ => rfl) (fun _ => rfl)
  obtain ⟨u, hu1, hu2, hu3, hu4, hu5⟩ := h.1 t ht
  exact ⟨t, u, ht, hu1, hu2, hu3.trans (by decide), hu4, hu5⟩

theorem main_ret_startup (env : Env) (tty : Termios) (input : List Byte) (s : State)
    (h : main env (init tty input) = .ret s) :
    env.atexit_ok = true ∧ env.prctl_ok = true ∧ env.tcgetattr_ok = true ∧
      env.tcsetattr_ok 0 = true ∧ env.calloc_ok 0 = true ∧ env.mlock_ok 0 = true := by
  have hp := main_startup_post env tty input
  unfold main at h
  cases hst : main_startup env (init tty input) with
  | ret s1 =>
    rw [hst] at hp
    exact hp.2
  | exit code s1 => rw [hst] at h; cases h
  | ub => rw [hst] at h; cases h
  | nofuel => rw [hst] at h; cases h

set_option maxRecDepth 100000 in
/-- C15, counterexample: with input `a`, newline, when only the restoring
`tcsetattr` fails, the run ends with the failure status although the secret
has been written to standard output. -/
theorem failing_restore_after_commit :
    (run env_restore_fails tty_cooked [97, 10]).status = some EXIT_FAILURE ∧
    (run env_restore_fails tty_cooked [97, 10]).final.map (fun t => t.stdout) =
      some [[97]] := by
  decide

/-- C15, amended: every run terminates, with status 0 or `EXIT_FAILURE`.  The
status is 0 exactly when `main` returns (the loop ended at a newline or at the
end of input without a fatal error) and the restoring `tcsetattr` at exit
succeeds.  When `main` returns, exactly one write has been made to standard
output, also when the restoring `tcsetattr` then fails and the status is
`EXIT_FAILURE`.  Whenever `main` ends in a fatal exit the status is
`EXIT_FAILURE` and nothing has been written to standard output; this is the
case whenever `atexit`, `prctl`, `tcgetattr`, the raw-mode `tcsetattr`, the first
`calloc` or the first `mlock` fails, and in the loop the body exits with
`EXIT_FAILURE` whenever the `FIONREAD` probe fails on byte 27 or an allocation
call fails when a non-control byte meets a full buffer. -/
theorem exit_codes (env : Env) (tty : Termios) (input : List Byte) :
    (∃ code t, run env tty input = .terminated code t ∧
      (code = 0 ∨ code = EXIT_FAILURE) ∧
      (code = 0 ↔ (∃ s, main env (init tty input) = .ret s) ∧ env.tcsetattr_ok 1 = true) ∧
      ((∃ s, main env (init tty input) = .ret s) → ∃ bytes, t.stdout = [bytes]) ∧
      ((∃ c s, main env (init tty input) = .exit c s) →
        code = EXIT_FAILURE ∧ t.stdout = [])) ∧
    (env.atexit_ok = false ∨ env.prctl_ok = false ∨ env.tcgetattr_ok = false ∨
        env.tcsetattr_ok 0 = false ∨ env.calloc_ok 0 = false ∨ env.mlock_ok 0 = false →
      ∃ s, main env (init tty input) = .exit EXIT_FAILURE s) ∧
    (∀ s, Reachable env s → env.fionread s.n_ioctl = none →
      ∃ t, loop_body env 27 s = .exit EXIT_FAILURE t) ∧
    (∀ s c, Reachable env s → iscntrl c = false → s.pwindex = s.pwbufsize →
      env.calloc_ok s.n_calloc = false ∨ env.mlock_ok s.n_mlock = false →
      ∃ t, loop_body env c s = .exit EXIT_FAILURE t) := by
  have hp := main_post env tty input
  refine ⟨?_, ?_, ?_, ?_⟩
  · unfold run
    cases hr : main env (init tty input) with
    | ret s =>
      rw [hr] at hp
      obtain ⟨hinv, -, hh, -, hn, hout, -⟩ := hp
      obtain ⟨code, t, ht1, ht2, -, ht4⟩ := exit_post env 0 s hinv.safe
      obtain ⟨-, -, -, -, hok, hbad⟩ := ht4 hh
      rw [hn] at hok hbad
      refine ⟨code, t, ht1, ?_, ?_, ?_, ?_⟩
      · cases h1 : env.tcsetattr_ok 1 with
        | true => exact Or.inl (hok h1).2
        | false => exact Or.inr (hbad h1).2
      · constructor
        · intro hc0
          refine ⟨⟨s, rfl⟩, ?_⟩
          cases h1 : env.tcsetattr_ok 1 with
          | true => rfl
          | false =>
            have := (hbad h1).2
            rw [hc0] at this
            cases this
        · rintro ⟨-, h1⟩
          exact (hok h1).2
      · intro _
        exact ⟨content s, ht2.trans hout⟩
      · rintro ⟨c, u, hcu⟩
        cases hcu
    | exit code0 s =>
      rw [hr] at hp
      obtain ⟨hc, hs, -, hout, -⟩ := hp
      obtain ⟨code, t, ht1, ht2, ht3, ht4⟩ := exit_post env code0 s hs
      have hcode : code = EXIT_FAILURE := by
        cases hh : s.handler with
        | false => rw [(ht3 hh).2, hc]
        | true =>
          obtain ⟨-, -, -, -, hok, hbad⟩ := ht4 hh
          cases h1 : env.tcsetattr_ok s.n_tcsetattr with
          | true => rw [(hok h1).2, hc]
          | false => exact (hbad h1).2
      refine ⟨code, t, ht1, Or.inr hcode, ?_, ?_, ?_⟩
      · constructor
        · intro hc0
          rw [hcode] at hc0
          cases hc0
        · rintro ⟨⟨u, hu⟩, -⟩
          cases hu
      · rintro ⟨u, hu⟩
        cases hu
      · intro _
        exact ⟨hcode, ht2.trans hout⟩
    | ub => rw [hr] at hp; exact hp.elim
    | nofuel => rw [hr] at hp; exact hp.elim
  · intro hfail
    cases hr : main env (init tty input) with
    | ret s =>
      exfalso
      obtain ⟨h1, h2, h3, h4, h5, h6⟩ := main_ret_startup env tty input s hr
      rw [h1, h2, h3, h4, h5, h6] at hfail
      simp at hfail
    | exit code s =>
      rw [hr] at hp
      rw [hp.1]
      exact ⟨s, rfl⟩
    | ub => rw [hr] at hp; exact hp.elim
    | nofuel => rw [hr] at hp; exact hp.elim
  · intro s _ hn
    exact ⟨_, loop_body_escape_none env s hn⟩
  · intro s c _ hc hfull hf
    rw [loop_body_append env c s hc, append_branch_failed env c s hfull hf]
    by_cases h1 : env.calloc_ok s.n_calloc = true
    · rw [if_pos h1]
      exact ⟨_, rfl⟩
    · rw [if_neg h1]
      exact ⟨_, rfl⟩

set_option maxRecDepth 100000 in
theorem exit_codes_witness :
    (∃ code t, run env_restore_fails tty_cooked [97, 10] = .terminated code t ∧
      code = EXIT_FAILURE ∧ ∃ bytes, t.stdout = [bytes]) ∧
    (∃ s, main env_prctl_fails (init tty_cooked [10]) = .exit EXIT_FAILURE s) := by
  constructor
  · obtain ⟨code, t, h1, h2, h3, h4, -⟩ := (exit_codes env_restore_fails tty_cooked [97, 10]).1
    have hret : ∃ s, main env_restore_fails (init tty_cooked [97, 10]) = .ret s := ⟨_, rfl⟩
    refine ⟨code, t, h1, ?_, h4 hret⟩
    rcases h2 with h0 | h0
    · have := (h3.1 h0).2
      cases this
    · exact h0
  · exact (exit_codes env_prctl_fails tty_cooked [10]).2.1 (Or.inr (Or.inl rfl))

/-- Processing a run of non-control bytes when every allocation succeeds, with
the redraws it makes. -/
theorem main_loop_typed (env : Env) (hc : ∀ k, env.calloc_ok k = true)
    (hm : ∀ k, env.mlock_ok k = true) (bs tail : List Byte)
    (hbs : ∀ b ∈ bs, iscntrl b = false) (s : State) (h : Inv s)
    (hs : s.stdin = bs ++ tail) :
    ∃ t, Inv t ∧ t.stdin = tail ∧ content t = content s ++ bs ∧
      t.current_mode = s.current_mode ∧
      t.stderr = s.stderr ++ redraws s.current_mode (content s) bs ∧
      t.stdout = s.stdout ∧
      ∀ fuel, main_loop env (bs.length + fuel) s = main_loop env fuel t := by
  induction bs generalizing s with
  | nil =>
    refine ⟨s, h, by simpa using hs, by simp, rfl, by simp [redraws], rfl, ?_⟩
    intro fuel
    simp
  | cons b bs ih =>
    have hs1 : s.stdin = b :: (bs ++ tail) := by simpa using hs
    have hinv1 : Inv { s with stdin := bs ++ tail } := h.congr rfl rfl rfl rfl rfl
    have hlen : ∀ fuel, (b :: bs).length + fuel = (bs.length + fuel) + 1 := by
      intro fuel; simp; omega
    obtain ⟨u, hu0, hu1, hu2, -, hu4, hu5, hu6, hu7⟩ :=
      append_branch_ok env b _ hinv1 hc hm
    have hstep : loop_body env b { s with stdin := bs ++ tail } = .cont u := by
      rw [loop_body_append env b _ (hbs b (List.mem_cons_self _ _)), hu0]
      rfl
    have hcs : content { s with stdin := bs ++ tail } = content s := content_congr rfl rfl rfl
    rw [hcs] at hu2 hu7
    obtain ⟨t, ht1, ht2, ht3, ht4, ht5, ht6, ht7⟩ :=
      ih (fun x hx => hbs x (List.mem_cons_of_mem _ hx)) u hu1 hu6
    refine ⟨t, ht1, ht2, ?_, ht4.trans hu4, ?_, ?_, ?_⟩
    · rw [ht3, hu2]
      simp
    · rw [ht5, hu7, hu4, hu2]
      show _ = s.stderr ++ redraws s.current_mode (content s) (b :: bs)
      simp [redraws]
    · rw [ht6]
      exact hu5.2.2.2.2.2.1
    · intro fuel
      rw [hlen, main_loop_cont env _ s u b _ hs1 hstep]
      exact ht7 fuel

theorem redraws_snoc (mode : Int) (base bs : List Byte) (b : Byte) :
    redraws mode base (bs ++ [b]) =
      redraws mode base bs ++ rendered mode (base ++ bs ++ [b]) := by
  induction bs generalizing base with
  | nil => simp [redraws]
  | cons x xs ih =>
    have e : base ++ x :: xs ++ [b] = base ++ [x] ++ xs ++ [b] := by simp
    show rendered mode (base ++ [x]) ++ redraws mode (base ++ [x]) (xs ++ [b]) =
      rendered mode (base ++ [x]) ++ redraws mode (base ++ [x]) xs ++
        rendered mode (base ++ x :: xs ++ [b])
    rw [ih (base ++ [x]), e, List.append_assoc (rendered mode (base ++ [x]))]

set_option maxRecDepth 100000 in
theorem not_continuation_of_ascii (b : Byte) (h : b.val < 128) :
    is_continuation b = false := by
  revert b
  decide

set_option maxRecDepth 100000 in
theorem clear_prompt_bytes :
    strBytes ("\x1b[2K\r") = [27, 91, 50, 75, 13] ∧
      strBytes ("Password: ") = [80, 97, 115, 115, 119, 111, 114, 100, 58, 32] := by
  decide

theorem take_succ_snoc {α : Type} (l : List α) (n : Nat) (h : n < l.length) :
    l.take (n + 1) = l.take n ++ [l[n]] := by
  rw [List.take_succ, List.getElem?_eq_getElem h]
  rfl

theorem echo_lines_eq (xs : List Byte) (n : Nat) (hn : n ≤ xs.length) :
    rendered MODE_ECHO [] ++ redraws MODE_ECHO [] (xs.take n) = echo_lines xs n := by
  induction n with
  | zero =>
    rw [rendered_echo, clear_prompt_bytes.1, clear_prompt_bytes.2]
    rfl
  | succ n ih =>
    have hlt : n < xs.length := by omega
    rw [take_succ_snoc xs n hlt, redraws_snoc, ← List.append_assoc, ih (by omega),
      rendered_echo, clear_prompt_bytes.1, clear_prompt_bytes.2, List.nil_append,
      ← take_succ_snoc xs n hlt]
    rfl

theorem rendered_stars_ascii (bytes : List Byte) (h : ∀ b ∈ bytes, b.val < 128) :
    rendered MODE_STARS bytes =
      [[27, 91, 50, 75, 13], [80, 97, 115, 115, 119, 111, 114, 100, 58, 32]] ++
        List.replicate bytes.length [42] := by
  have hcount : bytes.countP (fun b => !is_continuation b) = bytes.length := by
    rw [List.countP_eq_length]
    intro b hb
    simp [not_continuation_of_ascii b (h b hb)]
  rw [rendered_stars, hcount, clear_prompt_bytes.1, clear_prompt_bytes.2]

theorem star_lines_eq (xs ys : List Byte) (hx : ∀ b ∈ xs, b.val < 128)
    (hy : ∀ b ∈ ys, b.val < 128) (j : Nat) (hj : j ≤ ys.length) :
    rendered MODE_STARS xs ++ redraws MODE_STARS xs (ys.take j) =
      star_lines xs.length j := by
  induction j with
  | zero =>
    rw [rendered_stars_ascii xs hx]
    show _ ++ [] = _
    rw [List.append_nil]
    rfl
  | succ j ih =>
    have hlt : j < ys.length := by omega
    have hall : ∀ b ∈ xs ++ List.take j ys ++ [ys[j]], b.val < 128 := by
      intro b hb
      simp only [List.mem_append, List.mem_singleton] at hb
      rcases hb with (hb | hb) | hb
      · exact hx b hb
      · exact hy b (List.mem_of_mem_take hb)
      · rw [hb]
        exact hy _ (List.getElem_mem hlt)
    rw [take_succ_snoc ys j hlt, redraws_snoc, ← List.append_assoc, ih (by omega),
      rendered_stars_ascii _ hall]
    have hlen : (xs ++ List.take j ys ++ [ys[j]]).length = xs.length + (j + 1) := by
      simp
      omega
    rw [hlen]
    rfl

/-- C11: when every allocation succeeds, for `k` ASCII non-control bytes `xs`,
then one Tab, then `m` ASCII non-control bytes `ys`, the read loop started on
this input ends with standard error holding exactly these lines, in order:
for each `i` from 0 to `k` the prompt followed by the first `i` bytes of `xs`
verbatim (so the line drawn just before the Tab shows all `k` bytes), then the
line drawn by the Tab, the prompt followed by `k` asterisks, then for each
later byte the prompt followed by one asterisk per byte entered so far. -/
theorem rendered_lines_scenario (env : Env) (hc : ∀ k, env.calloc_ok k = true)
    (hm : ∀ k, env.mlock_ok k = true) (tty : Termios) (xs ys : List Byte)
    (hx : ∀ b ∈ xs, b.val < 128 ∧ iscntrl b = false)
    (hy : ∀ b ∈ ys, b.val < 128 ∧ iscntrl b = false) :
    ∃ t, main_loop env (xs.length + (ys.length + 1 + 1))
        (start_state tty (xs ++ 9 :: ys)) = .ret t ∧
      t.stderr = echo_lines xs xs.length ++ star_lines xs.length ys.length := by
  obtain ⟨t1, h1, h2, h3, h4, h5, -, h7⟩ :=
    main_loop_typed env hc hm xs (9 :: ys) (fun b hb => (hx b hb).2)
      (start_state tty (xs ++ 9 :: ys)) (start_state_inv tty _) rfl
  rw [content_start_state, List.nil_append] at h3
  have hinv1 : Inv { t1 with stdin := ys } := h1.congr rfl rfl rfl rfl rfl
  obtain ⟨t2, hstep, hinv2, hmode2, hin2, hc2, herr2⟩ :
      ∃ t2, loop_body env 9 { t1 with stdin := ys } = .cont t2 ∧ Inv t2 ∧
        t2.current_mode = MODE_STARS ∧ t2.stdin = ys ∧ content t2 = xs ∧
        t2.stderr = t1.stderr ++ rendered MODE_STARS xs := by
    refine ⟨_, loop_body_tab env _ hinv1, (switch_mode_inv _ hinv1).congr rfl rfl rfl rfl rfl,
      ?_, rfl, ?_, ?_⟩
    · show (t1.current_mode + 1).tmod 2 = MODE_STARS
      rw [h4]
      rfl
    · rw [← h3]
      exact content_congr rfl rfl rfl
    · show t1.stderr ++ rendered ((t1.current_mode + 1).tmod 2) (content { t1 with stdin := ys })
        = _
      have e1 : content { t1 with stdin := ys } = xs := by
        rw [← h3]
        exact content_congr rfl rfl rfl
      have e2 : (t1.current_mode + 1).tmod 2 = MODE_STARS := by
        rw [h4]
        rfl
      rw [e1, e2]
  obtain ⟨t3, -, g2, -, -, g5, -, g7⟩ :=
    main_loop_typed env hc hm ys [] (fun b hb => (hy b hb).2) t2 hinv2 (by simpa using hin2)
  refine ⟨t3, ?_, ?_⟩
  · rw [h7, main_loop_cont env _ t1 t2 9 ys h2 hstep, g7 1]
    exact main_loop_nil env 0 t3 g2
  · rw [g5, herr2, h5, hmode2, hc2, content_start_state]
    have e1 := echo_lines_eq xs xs.length (Nat.le_refl _)
    have e2 := star_lines_eq xs ys (fun b hb => (hx b hb).1) (fun b hb => (hy b hb).1)
      ys.length (Nat.le_refl _)
    rw [List.take_length] at e1 e2
    rw [← e1, ← e2]
    show rendered MODE_ECHO [] ++ redraws MODE_ECHO [] xs ++ rendered MODE_STARS xs ++
      redraws MODE_STARS xs ys = _
    simp

set_option maxRecDepth 100000 in
theorem rendered_lines_scenario_witness :
    ∃ t, main_loop (env_ok 0) 5 (start_state tty_cooked [97, 98, 9, 99]) = .ret t ∧
      t.stderr =
        [[27, 91, 50, 75, 13], [80, 97, 115, 115, 119, 111, 114, 100, 58, 32], [],
          [27, 91, 50, 75, 13], [80, 97, 115, 115, 119, 111, 114, 100, 58, 32], [97],
          [27, 91, 50, 75, 13], [80, 97, 115, 115, 119, 111, 114, 100, 58, 32], [97, 98],
          [27, 91, 50, 75, 13], [80, 97, 115, 115, 119, 111, 114, 100, 58, 32], [42], [42],
          [27, 91, 50, 75, 13], [80, 97, 115, 115, 119, 111, 114, 100, 58, 32], [42], [42],
          [42]] :=
  rendered_lines_scenario (env_ok 0) (fun _ => rfl) (fun _ => rfl) tty_cooked [97, 98] [99]
    (by decide) (by decide)

/-- Appending to a full buffer when both allocation calls succeed: the explicit
result, heap included. -/
theorem append_branch_grown_eq (env : Env) (c : Byte) (s : State) (h : Inv s)
    (a : Nat) (blk : List Byte) (hpa : s.pwbuf = some a) (hb : s.heap[a]? = some blk)
    (hfull : s.pwindex = s.pwbufsize) (hc : env.calloc_ok s.n_calloc = true)
    (hm : env.mlock_ok s.n_mlock = true) :
    append_branch env c s =
      .ret { s with
        heap := s.heap.set a (List.replicate s.pwbufsize 0) ++
          [(blk ++ List.replicate PWBUF_SIZE 0).set s.pwindex c],
        pwbuf := some s.heap.length,
        pwbufsize := s.pwbufsize + PWBUF_SIZE, pwindex := s.pwindex + 1,
        n_calloc := s.n_calloc + 1, n_mlock := s.n_mlock + 1,
        stderr := s.stderr ++ rendered s.current_mode (content s ++ [c]) } := by
  obtain ⟨a1, blk1, hpa1, hb1, hl, hi, hz, hmode, hpos, hdvd⟩ := id h
  have ha : a1 = a := by
    rw [hpa] at hpa1
    cases hpa1
    rfl
  subst ha
  have hblk : blk1 = blk := by
    rw [hb] at hb1
    cases hb1
    rfl
  subst hblk
  have hg := grow_pw_buf_eq env s a1 blk1 hpa hb hl hpos hc hm
  have hpost := grow_pw_buf_post env s h
  rw [hg] at hpost
  have e : ensure_capacity env s = grow_pw_buf env s := by simp [ensure_capacity, hfull]
  have hlen : (s.heap.set a1 (List.replicate s.pwbufsize (0 : Byte))).length = s.heap.length :=
    List.length_set _ _ _
  have hlt : s.pwindex < (blk1 ++ List.replicate PWBUF_SIZE (0 : Byte)).length := by
    rw [List.length_append, List.length_replicate, hl]
    have : 0 < PWBUF_SIZE := by decide
    omega
  have hget : (s.heap.set a1 (List.replicate s.pwbufsize 0) ++
      [blk1 ++ List.replicate PWBUF_SIZE 0])[s.heap.length]? =
      some (blk1 ++ List.replicate PWBUF_SIZE 0) := by
    rw [List.getElem?_append_right (by rw [hlen])]
    rw [hlen, Nat.sub_self]
    rfl
  have hset : (s.heap.set a1 (List.replicate s.pwbufsize 0) ++
      [blk1 ++ List.replicate PWBUF_SIZE 0]).set s.heap.length
        ((blk1 ++ List.replicate PWBUF_SIZE 0).set s.pwindex c) =
      s.heap.set a1 (List.replicate s.pwbufsize 0) ++
        [(blk1 ++ List.replicate PWBUF_SIZE 0).set s.pwindex c] := by
    rw [List.set_append_right _ _ (by rw [hlen]), hlen, Nat.sub_self]
    rfl
  have hst : store (s.heap.set a1 (List.replicate s.pwbufsize 0) ++
      [blk1 ++ List.replicate PWBUF_SIZE 0]) (some s.heap.length) s.pwindex c =
      some (s.heap.set a1 (List.replicate s.pwbufsize 0) ++
        [(blk1 ++ List.replicate PWBUF_SIZE 0).set s.pwindex c]) := by
    simp only [store, hget, hlt, if_true, hset]
  have key : ∀ g : State,
      g = { s with
            heap := s.heap.set a1 (List.replicate s.pwbufsize 0) ++
              [blk1 ++ List.replicate PWBUF_SIZE 0],
            pwbuf := some s.heap.length, pwbufsize := s.pwbufsize + PWBUF_SIZE,
            n_calloc := s.n_calloc + 1, n_mlock := s.n_mlock + 1 } →
      Inv g → content g = content s →
      (match store g.heap g.pwbuf g.pwindex c with
        | none => Ctl.ub
        | some hp => print_password { g with heap := hp, pwindex := g.pwindex + 1 }) =
      .ret { s with
        heap := s.heap.set a1 (List.replicate s.pwbufsize 0) ++
          [(blk1 ++ List.replicate PWBUF_SIZE 0).set s.pwindex c],
        pwbuf := some s.heap.length,
        pwbufsize := s.pwbufsize + PWBUF_SIZE, pwindex := s.pwindex + 1,
        n_calloc := s.n_calloc + 1, n_mlock := s.n_mlock + 1,
        stderr := s.stderr ++ rendered s.current_mode (content s ++ [c]) } := by
    intro g hG hinv hcont
    have hlt1 : g.pwindex < g.pwbufsize := by
      rw [hG]
      show s.pwindex < s.pwbufsize + PWBUF_SIZE
      have : 0 < PWBUF_SIZE := by decide
      omega
    obtain ⟨hp, hst1, hnext⟩ := store_inv g c hinv hlt1
    obtain ⟨hinv2, hcont2⟩ :=
      hnext { g with heap := hp, pwindex := g.pwindex + 1 } rfl rfl rfl rfl rfl
    have hpe : hp = s.heap.set a1 (List.replicate s.pwbufsize 0) ++
        [(blk1 ++ List.replicate PWBUF_SIZE 0).set s.pwindex c] := by
      have h2 := hst1
      rw [hG] at h2
      exact Option.some.inj (h2.symm.trans hst)
    simp only [hst1]
    rw [print_password_inv _ hinv2, hcont2, hcont, hpe, hG]
  rw [append_branch, e, hg, Ctl.bind_ret]
  exact key _ rfl hpost.1 hpost.2.1

/-- Appending with room left: the explicit result, heap included. -/
theorem append_branch_room_eq (env : Env) (c : Byte) (s : State) (h : Inv s)
    (a : Nat) (blk : List Byte) (hpa : s.pwbuf = some a) (hb : s.heap[a]? = some blk)
    (hlt : s.pwindex < s.pwbufsize) :
    append_branch env c s =
      .ret { s with
        heap := s.heap.set a (blk.set s.pwindex c), pwindex := s.pwindex + 1,
        stderr := s.stderr ++ rendered s.current_mode (content s ++ [c]) } := by
  obtain ⟨hp, hst, -, happ⟩ := append_branch_room env c s h hlt
  have hlt2 : s.pwindex < blk.length := by
    obtain ⟨a1, blk1, hpa1, hb1, hl, -⟩ := h
    rw [hpa] at hpa1
    cases hpa1
    rw [hb] at hb1
    cases hb1
    omega
  have hpe : hp = s.heap.set a (blk.set s.pwindex c) := by
    have h2 : store s.heap s.pwbuf s.pwindex c = some (s.heap.set a (blk.set s.pwindex c)) := by
      simp [store, hpa, hb, hlt2]
    exact Option.some.inj (hst.symm.trans h2)
  rw [happ, hpe]

theorem inv_full_or_room (s : State) (h : Inv s) :
    s.pwindex = s.pwbufsize ∨ s.pwindex < s.pwbufsize := by
  obtain ⟨a, blk, hp, hb, hl, hi, -⟩ := h
  omega

theorem alloc_ok_or_failed (env : Env) (s : State) :
    (env.calloc_ok s.n_calloc = true ∧ env.mlock_ok s.n_mlock = true) ∨
      (env.calloc_ok s.n_calloc = false ∨ env.mlock_ok s.n_mlock = false) := by
  cases h1 : env.calloc_ok s.n_calloc
  · exact Or.inr (Or.inl rfl)
  · cases h2 : env.mlock_ok s.n_mlock
    · exact Or.inr (Or.inr rfl)
    · exact Or.inl ⟨rfl, rfl⟩

/-- Except for byte 27, an iteration of the loop neither reads nor changes the
pending input. -/
theorem loop_body_stdin (env : Env) (c : Byte) (s : State) (h : Inv s) (h27 : c ≠ 27)
    (x : List Byte) :
    loop_body env c (with_stdin x s) = (loop_body env c s).map (with_stdin x) := by
  have hx : Inv (with_stdin x s) := h.congr rfl rfl rfl rfl rfl
  cases hc : iscntrl c with
  | false =>
    rw [loop_body_append env c s hc, loop_body_append env c _ hc]
    obtain ⟨a, blk, hpa, hb, -⟩ := id h
    rcases inv_full_or_room s h with hfull | hlt
    · rcases alloc_ok_or_failed env s with hok | hf
      · rw [append_branch_grown_eq env c s h a blk hpa hb hfull hok.1 hok.2,
          append_branch_grown_eq env c _ hx a blk hpa hb hfull hok.1 hok.2]
        rfl
      · rw [append_branch_failed env c s hfull hf,
          append_branch_failed env c (with_stdin x s) hfull hf]
        by_cases h1 : env.calloc_ok s.n_calloc = true
        · have h2 : env.calloc_ok (with_stdin x s).n_calloc = true := h1
          rw [if_pos h1, if_pos h2]
          rfl
        · have h2 : ¬ env.calloc_ok (with_stdin x s).n_calloc = true := h1
          rw [if_neg h1, if_neg h2]
          rfl
    · rw [append_branch_room_eq env c s h a blk hpa hb hlt,
        append_branch_room_eq env c _ hx a blk hpa hb hlt]
      rfl
  | true =>
    by_cases h9 : c = 9
    · subst h9
      rw [loop_body_tab env s h, loop_body_tab env _ hx]
      rfl
    by_cases h18 : c = 18
    · subst h18
      rw [loop_body_reveal env s h, loop_body_reveal env _ hx]
      by_cases h0 : 0 < s.pwindex
      · have h1 : 0 < (with_stdin x s).pwindex := h0
        rw [if_pos h0, if_pos h1]
        rfl
      · have h1 : ¬ 0 < (with_stdin x s).pwindex := h0
        rw [if_neg h0, if_neg h1]
        rfl
    by_cases h127 : c = 127
    · subst h127
      rw [loop_body_backspace env s h, loop_body_backspace env _ hx]
      rfl
    by_cases h10 : c = 10
    · subst h10
      rw [loop_body_newline env s, loop_body_newline env (with_stdin x s)]
      rfl
    rw [loop_body_ignored env c s hc h9 h10 h18 h27 h127,
      loop_body_ignored env c (with_stdin x s) hc h9 h10 h18 h27 h127]
    rfl

theorem main_loop_exit (env : Env) (fuel code : Nat) (s t : State) (c : Byte)
    (rest : List Byte) (hs : s.stdin = c :: rest)
    (hb : loop_body env c { s with stdin := rest } = .exit code t) :
    main_loop env (fuel + 1) s = .exit code t := by
  simp [main_loop, read1, hs, hb]

theorem main_loop_ub (env : Env) (fuel : Nat) (s : State) (c : Byte)
    (rest : List Byte) (hs : s.stdin = c :: rest)
    (hb : loop_body env c { s with stdin := rest } = .ub) :
    main_loop env (fuel + 1) s = .ub := by
  simp [main_loop, read1, hs, hb]

theorem loop_body_escape_some_stdin (env : Env) (s : State) (n : Nat) (x : List Byte)
    (hn : env.fionread s.n_ioctl = some n) :
    loop_body env 27 (with_stdin x s) =
      .cont (with_stdin (x.drop n) { s with n_ioctl := s.n_ioctl + 1 }) := by
  rw [loop_body_escape_some env (with_stdin x s) n hn]
  rfl

theorem loop_body_escape_none_stdin (env : Env) (s : State) (x : List Byte)
    (hn : env.fionread s.n_ioctl = none) :
    loop_body env 27 (with_stdin x s) =
      .exit EXIT_FAILURE
        (with_stdin x
          (write_stderr (strBytes ("ioctl() failed\n")) { s with n_ioctl := s.n_ioctl + 1 })) := by
  rw [loop_body_escape_none env (with_stdin x s) hn]
  rfl

/-- Appending a newline to the pending input changes the result of the read
loop in its pending input only. -/
theorem main_loop_newline_appended (env : Env) (fuel : Nat) (s : State) (h : Inv s)
    (hf : s.stdin.length < fuel) :
    ∃ z, main_loop env (fuel + 1) (with_stdin (s.stdin ++ [10]) s) =
      (main_loop env fuel s).map (with_stdin z) := by
  induction fuel generalizing s with
  | zero => omega
  | succ f ih =>
    cases hs : s.stdin with
    | nil =>
      refine ⟨[], ?_⟩
      rw [List.nil_append, main_loop_nil env f s hs,
        main_loop_brk env (f + 1) (with_stdin [10] s) (with_stdin [] s) 10 [] rfl
          (loop_body_newline env _)]
      rfl
    | cons c rest =>
      have hinv1 : Inv (with_stdin rest s) := h.congr rfl rfl rfl rfl rfl
      have hlen : rest.length < f := by
        rw [hs] at hf
        simp at hf
        omega
      rw [List.cons_append]
      have hs2 : (with_stdin (c :: (rest ++ [10])) s).stdin = c :: (rest ++ [10]) := rfl
      by_cases h27 : c = 27
      · subst h27
        cases hn : env.fionread s.n_ioctl with
        | none =>
          refine ⟨rest ++ [10], ?_⟩
          rw [main_loop_exit env f _ s _ 27 rest hs
              (loop_body_escape_none_stdin env s rest hn),
            main_loop_exit env (f + 1) _ _ _ 27 (rest ++ [10]) hs2
              (loop_body_escape_none_stdin env s (rest ++ [10]) hn)]
          rfl
        | some n =>
          rw [main_loop_cont env f s _ 27 rest hs
              (loop_body_escape_some_stdin env s n rest hn),
            main_loop_cont env (f + 1) _ _ 27 (rest ++ [10]) hs2
              (loop_body_escape_some_stdin env s n (rest ++ [10]) hn)]
          by_cases hle : n ≤ rest.length
          · have hd : (rest ++ [10]).drop n = rest.drop n ++ [10] :=
              List.drop_append_of_le_length hle
            have hu : Inv (with_stdin (rest.drop n) { s with n_ioctl := s.n_ioctl + 1 }) :=
              h.congr rfl rfl rfl rfl rfl
            obtain ⟨z, hz⟩ := ih _ hu (by
              show (rest.drop n).length < f
              rw [List.length_drop]
              omega)
            refine ⟨z, ?_⟩
            rw [hd]
            exact hz
          · have hd1 : rest.drop n = [] := List.drop_eq_nil_of_le (by omega)
            have hd2 : (rest ++ [10]).drop n = [] :=
              List.drop_eq_nil_of_le (by simp; omega)
            refine ⟨[], ?_⟩
            obtain ⟨g, rfl⟩ : ∃ g, f = g + 1 := ⟨f - 1, by omega⟩
            rw [hd1, hd2, main_loop_nil env (g + 1) _ rfl, main_loop_nil env g _ rfl]
            rfl
      · have hb := loop_body_stdin env c (with_stdin rest s) hinv1 h27 (rest ++ [10])
        have hb0 := loop_body_stdin env c (with_stdin rest s) hinv1 h27 rest
        have hpost := loop_body_post env c (with_stdin rest s) hinv1
        cases hr : loop_body env c (with_stdin rest s) with
        | cont u =>
          rw [hr] at hb hb0 hpost
          have hu : u = with_stdin rest u := by
            have h2 : Flow.cont u = Flow.cont (with_stdin rest u) := hr.symm.trans hb0
            exact Flow.cont.inj h2
          have hus : u.stdin = rest := by
            rw [hu]
            rfl
          obtain ⟨z, hz⟩ := ih u hpost.1 (by rw [hus]; exact hlen)
          refine ⟨z, ?_⟩
          rw [main_loop_cont env f s u c rest hs hr,
            main_loop_cont env (f + 1) _ (with_stdin (rest ++ [10]) u) c (rest ++ [10]) hs2 hb,
            ← hz, hus]
        | brk u =>
          rw [hr] at hb
          refine ⟨rest ++ [10], ?_⟩
          rw [main_loop_brk env f s u c rest hs hr,
            main_loop_brk env (f + 1) _ (with_stdin (rest ++ [10]) u) c (rest ++ [10]) hs2 hb]
          rfl
        | exit code u =>
          rw [hr] at hb
          refine ⟨rest ++ [10], ?_⟩
          rw [main_loop_exit env f code s u c rest hs hr,
            main_loop_exit env (f + 1) code _ (with_stdin (rest ++ [10]) u) c (rest ++ [10])
              hs2 hb]
          rfl
        | ub =>
          rw [hr] at hpost
          exact hpost.elim

theorem loop_body_no_exit (env : Env) (hc : ∀ k, env.calloc_ok k = true)
    (hm : ∀ k, env.mlock_ok k = true) (hio : ∀ k, env.fionread k ≠ none) (c : Byte)
    (s : State) (h : Inv s) (code : Nat) (t : State) :
    loop_body env c s ≠ .exit code t := by
  intro hex
  cases hcn : iscntrl c with
  | false =>
    obtain ⟨u, hu, -⟩ := append_branch_ok env c s h hc hm
    rw [loop_body_append env c s hcn, hu] at hex
    cases hex
  | true =>
    by_cases h9 : c = 9
    · subst h9
      rw [loop_body_tab env s h] at hex
      cases hex
    by_cases h27 : c = 27
    · subst h27
      cases hn : env.fionread s.n_ioctl with
      | none => exact hio _ hn
      | some n =>
        rw [loop_body_escape_some env s n hn] at hex
        cases hex
    by_cases h18 : c = 18
    · subst h18
      rw [loop_body_reveal env s h] at hex
      cases hex
    by_cases h127 : c = 127
    · subst h127
      rw [loop_body_backspace env s h] at hex
      cases hex
    by_cases h10 : c = 10
    · subst h10
      rw [loop_body_newline env s] at hex
      cases hex
    rw [loop_body_ignored env c s hcn h9 h10 h18 h27 h127] at hex
    cases hex

/-- When the allocations and the `FIONREAD` probes succeed the read loop ends
normally. -/
theorem main_loop_ok (env : Env) (hc : ∀ k, env.calloc_ok k = true)
    (hm : ∀ k, env.mlock_ok k = true) (hio : ∀ k, env.fionread k ≠ none) (fuel : Nat)
    (s : State) (h : Inv s) (hf : s.stdin.length < fuel) :
    ∃ t, main_loop env fuel s = .ret t ∧ Inv t ∧ Frame s t := by
  induction fuel generalizing s with
  | zero => omega
  | succ f ih =>
    cases hs : s.stdin with
    | nil => exact ⟨s, main_loop_nil env f s hs, h, Frame.refl s⟩
    | cons c rest =>
      have hinv1 : Inv { s with stdin := rest } := h.congr rfl rfl rfl rfl rfl
      have hfr : Frame s { s with stdin := rest } := by simp [Frame, hs]
      have hpost := loop_body_post env c { s with stdin := rest } hinv1
      cases hr : loop_body env c { s with stdin := rest } with
      | cont u =>
        rw [hr] at hpost
        have hlen : u.stdin.length < f := by
          have h1 := hpost.2.2.2.2.2.2.2
          have h2 : ({ s with stdin := rest } : State).stdin.length = rest.length := rfl
          rw [hs] at hf
          simp at hf
          omega
        obtain ⟨t, ht1, ht2, ht3⟩ := ih u hpost.1 hlen
        exact ⟨t, by rw [main_loop_cont env f s u c rest hs hr]; exact ht1, ht2,
          hfr.trans (hpost.2.trans ht3)⟩
      | brk u =>
        rw [hr] at hpost
        exact ⟨u, main_loop_brk env f s u c rest hs hr, hpost.1, hfr.trans hpost.2⟩
      | exit code u => exact absurd hr (loop_body_no_exit env hc hm hio c _ hinv1 code u)
      | ub => rw [hr] at hpost; exact hpost.elim

/-- A run whose start-up calls succeed, whose read loop ends normally in `l`
and whose terminal is restored successfully ends with status 0 and the
contents of `l` written once to standard output. -/
theorem run_commit (env : Env) (tty : Termios) (input : List Byte) (l : State)
    (h1 : env.atexit_ok = true) (h2 : env.prctl_ok = true) (h3 : env.tcgetattr_ok = true)
    (h4 : env.tcsetattr_ok 0 = true) (h5 : env.calloc_ok 0 = true)
    (h6 : env.mlock_ok 0 = true) (h7 : env.tcsetattr_ok 1 = true)
    (hl : main_loop env (input.length + 1) (start_state tty input) = .ret l) :
    ∃ t, run env tty input = .terminated 0 t ∧ t.stdout = [content l] := by
  have hpost := main_loop_post env (input.length + 1) (start_state tty input)
    (start_state_inv tty input) (Nat.lt_succ_self _)
  rw [hl] at hpost
  obtain ⟨hinv, hf1, hf2, hf3, hf4, hf5, hf6, -⟩ := hpost
  have hmain : main env (init tty input) =
      .ret (write_stdout (content l) (clear_term_line l)) := by
    rw [main, main_startup_ok env tty input h1 h2 h3 h4 h5 h6, Ctl.bind_ret]
    show (main_loop env (input.length + 1) (start_state tty input)).bind main_commit = _
    rw [hl, Ctl.bind_ret, main_commit_eq l hinv]
  have hsafe : Safe (write_stdout (content l) (clear_term_line l)) :=
    hinv.safe.carry rfl rfl rfl
  obtain ⟨code, t, ht1, ht2, -, ht4⟩ := exit_post env 0 _ hsafe
  have hh : (write_stdout (content l) (clear_term_line l)).handler = true := hf3
  have hn : (write_stdout (content l) (clear_term_line l)).n_tcsetattr = 1 := hf5
  have hok := (ht4 hh).2.2.2.2.1
  rw [hn] at hok
  have hcode : code = 0 := (hok h7).2
  subst hcode
  refine ⟨t, by rw [run, hmain]; exact ht1, ?_⟩
  rw [ht2]
  show l.stdout ++ [content l] = _
  rw [hf6]
  rfl

theorem countP_continuation (base cs : List Byte)
    (hcs : ∀ c ∈ cs, is_continuation c = true) :
    (base ++ cs).countP (fun b => !is_continuation b) =
      base.countP (fun b => !is_continuation b) := by
  rw [List.countP_append]
  have : cs.countP (fun b => !is_continuation b) = 0 := by
    rw [List.countP_eq_zero]
    intro c hc
    simp [hcs c hc]
  omega

theorem rendered_stars_continuation (base cs : List Byte)
    (hcs : ∀ c ∈ cs, is_continuation c = true) :
    rendered MODE_STARS (base ++ cs) = rendered MODE_STARS base := by
  rw [rendered_stars, rendered_stars, countP_continuation base cs hcs]

/-- Processing `j` backspaces in Masked mode when the last `j` bytes of the
contents are continuation bytes. -/
theorem main_loop_backspaces (env : Env) (tail : List Byte) (j : Nat) (s : State)
    (h : Inv s) (hm : s.current_mode = MODE_STARS) (base cs : List Byte)
    (hcont : content s = base ++ cs) (hj : cs.length = j)
    (hcs : ∀ c ∈ cs, is_continuation c = true)
    (hs : s.stdin = List.replicate j 127 ++ tail) :
    ∃ t, Inv t ∧ (∀ fuel, main_loop env (j + fuel) s = main_loop env fuel t) ∧
      content t = base ∧ t.stdin = tail ∧ t.current_mode = MODE_STARS ∧
      t.stdout = s.stdout ∧
      t.stderr = s.stderr ++ (List.replicate j (rendered MODE_STARS base)).flatten := by
  induction j generalizing s cs with
  | zero =>
    have hnil : cs = [] := List.length_eq_zero.1 hj
    subst hnil
    refine ⟨s, h, fun fuel => by simp, by simpa using hcont, by simpa using hs, hm, rfl, ?_⟩
    simp
  | succ j ih =>
    have hne : cs ≠ [] := by
      intro e
      rw [e] at hj
      cases hj
    obtain ⟨cs1, x, rfl⟩ : ∃ cs1 x, cs = cs1 ++ [x] :=
      ⟨cs.dropLast, cs.getLast hne, (List.dropLast_append_getLast hne).symm⟩
    have hj1 : cs1.length = j := by
      simp at hj
      exact hj
    have hs1 : s.stdin = 127 :: (List.replicate j 127 ++ tail) := by
      rw [hs, List.replicate_succ]
      rfl
    have hinv1 : Inv { s with stdin := List.replicate j 127 ++ tail } :=
      h.congr rfl rfl rfl rfl rfl
    have hlen := content_length s h
    have hidx : s.pwindex - 1 = (base ++ cs1).length := by
      rw [hcont] at hlen
      simp at hlen
      simp
      omega
    have htake : (content s).take (s.pwindex - 1) = base ++ cs1 := by
      rw [hidx, hcont, ← List.append_assoc, List.take_left]
    obtain ⟨u, hstep, hu1, hu2, hu3, hu4, hu5, hu6⟩ :
        ∃ u, loop_body env 127 { s with stdin := List.replicate j 127 ++ tail } = .cont u ∧
          Inv u ∧ u.current_mode = MODE_STARS ∧ content u = base ++ cs1 ∧
          u.stdin = List.replicate j 127 ++ tail ∧ u.stdout = s.stdout ∧
          u.stderr = s.stderr ++ rendered MODE_STARS base := by
      have hb := loop_body_backspace env _ hinv1
      have hp := loop_body_post env 127 _ hinv1
      rw [hb] at hp
      refine ⟨_, hb, hp.1, hm, ?_, rfl, rfl, ?_⟩
      · rw [content_pred]
        exact htake
      · show s.stderr ++ rendered s.current_mode
          ((content { s with stdin := List.replicate j 127 ++ tail }).take (s.pwindex - 1)) = _
        have e : content { s with stdin := List.replicate j 127 ++ tail } = content s :=
          content_congr rfl rfl rfl
        rw [e, htake, hm, rendered_stars_continuation base cs1
          (fun c hc => hcs c (List.mem_append_left _ hc))]
    obtain ⟨t, ht1, ht2, ht3, ht4, ht5, ht6, ht7⟩ :=
      ih u hu1 hu2 cs1 hu3 hj1 (fun c hc => hcs c (List.mem_append_left _ hc)) hu4
    refine ⟨t, ht1, ?_, ht3, ht4, ht5, ht6.trans hu5, ?_⟩
    · intro fuel
      have e : j + 1 + fuel = (j + fuel) + 1 := by omega
      rw [e, main_loop_cont env _ s u 127 _ hs1 hstep]
      exact ht2 fuel
    · rw [ht7, hu6, List.replicate_succ, List.flatten_cons, List.append_assoc]

theorem reachable_iterate (env : Env) (n : Nat) (s t : State) (hs : Reachable env s)
    (h : iterate_loop env n s = some t) : Reachable env t := by
  induction n generalizing s with
  | zero =>
    simp only [iterate_loop, Option.some.injEq] at h
    rw [← h]
    exact hs
  | succ n ih =>
    cases hin : s.stdin with
    | nil => simp [iterate_loop, read1, hin] at h
    | cons c rest =>
      cases hr : loop_body env c { s with stdin := rest } with
      | cont u =>
        have h2 : iterate_loop env n u = some t := by
          simpa [iterate_loop, read1, hin, hr] using h
        exact ih u (Reachable.step s c rest u hs hin hr) h2
      | brk u => simp [iterate_loop, read1, hin, hr] at h
      | exit code u => simp [iterate_loop, read1, hin, hr] at h
      | ub => simp [iterate_loop, read1, hin, hr] at h

set_option maxRecDepth 100000 in
theorem state_euro_reachable : Reachable (env_ok 0) (state_euro [127, 127]) :=
  reachable_iterate (env_ok 0) 4 (start_state tty_cooked [9, 226, 130, 172, 127, 127])
    (state_euro [127, 127])
    (Reachable.start tty_cooked _ _
      (main_startup_ok (env_ok 0) tty_cooked _ rfl rfl rfl rfl rfl rfl))
    (by decide)

/-- C20: in every state of the read loop in Masked mode with index above 0, one
backspace redraws the line with as many asterisks as the contents without
their last byte have non-continuation bytes; that is one fewer than before
when the removed byte's top two bits are not binary 10 and as many as before
when they are.  So when the contents end in a lead byte followed by
continuation bytes, as many backspaces as there are continuation bytes each
redraw the very line a redraw of the starting state shows, and leave the lead
byte as the last byte of the contents, which a commit then writes to standard
output. -/
theorem backspace_bytewise (env : Env) (s : State) (hs : Reachable env s)
    (hm : s.current_mode = MODE_STARS) :
    (0 < s.pwindex →
      ∃ b, (content s)[s.pwindex - 1]? = some b ∧
        loop_body env 127 s =
          .cont { s with
            pwindex := s.pwindex - 1,
            stderr := s.stderr ++
              [[27, 91, 50, 75, 13], [80, 97, 115, 115, 119, 111, 114, 100, 58, 32]] ++
              List.replicate
                (((content s).take (s.pwindex - 1)).countP (fun x => !is_continuation x))
                [42] } ∧
        ((content s).take (s.pwindex - 1)).countP (fun x => !is_continuation x) +
            (if is_continuation b = true then 0 else 1) =
          (content s).countP (fun x => !is_continuation x)) ∧
    (∀ pre lead conts tail, content s = pre ++ lead :: conts →
      is_continuation lead = false → (∀ c ∈ conts, is_continuation c = true) →
      s.stdin = List.replicate conts.length 127 ++ tail →
      ∃ t, (∀ fuel, main_loop env (conts.length + fuel) s = main_loop env fuel t) ∧
        t.stdin = tail ∧ content t = pre ++ [lead] ∧
        t.stderr = s.stderr ++
          (List.replicate conts.length (rendered MODE_STARS (content s))).flatten ∧
        main_commit t = .ret (write_stdout (pre ++ [lead]) (clear_term_line t))) := by
  have hinv := reachable_inv env s hs
  constructor
  · intro h0
    obtain ⟨b, hb1, hb2⟩ :=
      drop_pred_of_length (content s) s.pwindex (content_length s hinv) h0
    have hsplit : content s = (content s).take (s.pwindex - 1) ++ [b] := by
      rw [← hb2, List.take_append_drop]
    refine ⟨b, hb1, ?_, ?_⟩
    · rw [loop_body_backspace env s hinv, hm, rendered_stars, clear_prompt_bytes.1,
        clear_prompt_bytes.2, List.append_assoc]
    · conv_rhs => rw [hsplit]
      rw [List.countP_append]
      cases hc : is_continuation b <;> simp [List.countP_cons, hc]
  · intro pre lead conts tail hcont hlead hconts hin
    have hcont2 : content s = (pre ++ [lead]) ++ conts := by
      rw [hcont]
      simp
    obtain ⟨t, ht1, ht2, ht3, ht4, -, -, ht7⟩ :=
      main_loop_backspaces env tail conts.length s hinv hm (pre ++ [lead]) conts hcont2 rfl
        hconts hin
    refine ⟨t, ht2, ht4, ht3, ?_, ?_⟩
    · rw [ht7, hcont2, rendered_stars_continuation (pre ++ [lead]) conts hconts]
    · rw [main_commit_eq t ht1, ht3]

set_option maxRecDepth 100000 in
theorem backspace_bytewise_witness :
    (∃ b, (content (state_euro [127, 127]))[(state_euro [127, 127]).pwindex - 1]? = some b ∧
      loop_body (env_ok 0) 127 (state_euro [127, 127]) =
        .cont { state_euro [127, 127] with
          pwindex := (state_euro [127, 127]).pwindex - 1,
          stderr := (state_euro [127, 127]).stderr ++
            [[27, 91, 50, 75, 13], [80, 97, 115, 115, 119, 111, 114, 100, 58, 32]] ++
            List.replicate
              (((content (state_euro [127, 127])).take
                ((state_euro [127, 127]).pwindex - 1)).countP (fun x => !is_continuation x))
              [42] } ∧
      ((content (state_euro [127, 127])).take
          ((state_euro [127, 127]).pwindex - 1)).countP (fun x => !is_continuation x) +
          (if is_continuation b = true then 0 else 1) =
        (content (state_euro [127, 127])).countP (fun x => !is_continuation x)) ∧
    (∃ t, (∀ fuel, main_loop (env_ok 0) (2 + fuel) (state_euro [127, 127]) =
        main_loop (env_ok 0) fuel t) ∧
      t.stdin = [] ∧ content t = [226] ∧
      t.stderr = (state_euro [127, 127]).stderr ++
        (List.replicate 2 (rendered MODE_STARS (content (state_euro [127, 127])))).flatten ∧
      main_commit t = .ret (write_stdout [226] (clear_term_line t))) :=
  ⟨(backspace_bytewise (env_ok 0) (state_euro [127, 127]) state_euro_reachable rfl).1
      (by decide),
    (backspace_bytewise (env_ok 0) (state_euro [127, 127]) state_euro_reachable rfl).2
      [] 226 [130, 172] [] (by decide) (by decide) (by decide) (by decide)⟩

theorem content_append_block (s t : State) (h : Inv s) (b : List Byte)
    (h1 : t.pwbuf = s.pwbuf) (h2 : t.heap = s.heap ++ [b]) (h4 : t.pwindex = s.pwindex) :
    content t = content s := by
  obtain ⟨a, blk, hp, hb, -⟩ := h
  have ha : a < s.heap.length := lt_length_of_getElem? hb
  unfold content cur_block
  rw [h1, h2, h4, hp]
  simp only [List.getElem?_append_left ha]

/-- One iteration of the loop on two heaps with the same live data: the
results differ in the heap only, and the new heaps again hold the same live
data. -/
theorem loop_body_shadow (env : Env) (c : Byte) (s : State) (H : List (List Byte))
    (hsh : Shadow s H) :
    ∃ H1, loop_body env c (with_heap H s) = (loop_body env c s).map (with_heap H1) ∧
      (loop_body env c s).Post (fun t => Shadow t H1) (fun t => Shadow t H1)
        (fun _ t => Shadow t H1) := by
  obtain ⟨hlen, hcont, h, hu⟩ := hsh
  have hlen2 : (with_heap H s).heap.length = s.heap.length := hlen
  have hps := loop_body_post env c s h
  have hpu := loop_body_post env c (with_heap H s) hu
  cases hc : iscntrl c with
  | false =>
    rw [loop_body_append env c s hc] at hps ⊢
    rw [loop_body_append env c (with_heap H s) hc] at hpu ⊢
    obtain ⟨a, blk, hpa, hb, -⟩ := id h
    obtain ⟨a2, blk2, hpa2, hb2, -⟩ := id hu
    have haa : a2 = a := by
      have e : (with_heap H s).pwbuf = s.pwbuf := rfl
      rw [e, hpa] at hpa2
      cases hpa2
      rfl
    subst haa
    have hpas := append_branch_post env c s h
    have hpau := append_branch_post env c (with_heap H s) hu
    rcases inv_full_or_room s h with hfull | hlt
    · rcases alloc_ok_or_failed env s with hok | hf
      · have e1 := append_branch_grown_eq env c s h a2 blk hpa hb hfull hok.1 hok.2
        have e2 := append_branch_grown_eq env c (with_heap H s) hu a2 blk2 hpa2 hb2 hfull
          hok.1 hok.2
        rw [hcont, hlen2] at e2
        rw [e1] at hps hpas ⊢
        rw [e2] at hpu hpau ⊢
        refine ⟨H.set a2 (List.replicate s.pwbufsize 0) ++
          [(blk2 ++ List.replicate PWBUF_SIZE 0).set s.pwindex c], by rfl, ?_, ?_,
          hps.1, hpu.1.congr rfl rfl rfl rfl rfl⟩
        · simp [hlen]
        · exact hpau.2.1.trans (by rw [hcont]; exact hpas.2.1.symm)
      · have e1 := append_branch_failed env c s hfull hf
        have e2 := append_branch_failed env c (with_heap H s) hfull hf
        by_cases h1 : env.calloc_ok s.n_calloc = true
        · have h2 : env.calloc_ok (with_heap H s).n_calloc = true := h1
          rw [if_pos h1] at e1
          rw [if_pos h2] at e2
          rw [e1] at hps ⊢
          rw [e2] at hpu ⊢
          refine ⟨H ++ [List.replicate (s.pwbufsize + PWBUF_SIZE) 0], by rfl, ?_, ?_,
            hps.2.1, hpu.2.1.congr rfl rfl rfl rfl rfl⟩
          · simp [hlen, write_stderr]
          · have c1 := content_append_block (with_heap H s)
              (with_heap (H ++ [List.replicate (s.pwbufsize + PWBUF_SIZE) 0])
                (write_stderr (strBytes ("Failed to mlock buffer\n"))
                  { s with
                    heap := s.heap ++ [List.replicate (s.pwbufsize + PWBUF_SIZE) 0],
                    n_calloc := s.n_calloc + 1, n_mlock := s.n_mlock + 1 }))
              hu _ rfl rfl rfl
            have c2 := content_append_block s
              (write_stderr (strBytes ("Failed to mlock buffer\n"))
                { s with
                  heap := s.heap ++ [List.replicate (s.pwbufsize + PWBUF_SIZE) 0],
                  n_calloc := s.n_calloc + 1, n_mlock := s.n_mlock + 1 })
              h _ rfl rfl rfl
            exact c1.trans (hcont.trans c2.symm)
        · have h2 : ¬ env.calloc_ok (with_heap H s).n_calloc = true := h1
          rw [if_neg h1] at e1
          rw [if_neg h2] at e2
          rw [e1] at hps ⊢
          rw [e2] at hpu ⊢
          exact ⟨H, by rfl, hlen, hcont, hps.2.1, hpu.2.1.congr rfl rfl rfl rfl rfl⟩
    · have e1 := append_branch_room_eq env c s h a2 blk hpa hb hlt
      have e2 := append_branch_room_eq env c (with_heap H s) hu a2 blk2 hpa2 hb2 hlt
      rw [hcont] at e2
      rw [e1] at hps hpas ⊢
      rw [e2] at hpu hpau ⊢
      refine ⟨H.set a2 (blk2.set s.pwindex c), by rfl, ?_, ?_, hps.1,
        hpu.1.congr rfl rfl rfl rfl rfl⟩
      · simp [hlen]
      · exact hpau.2.1.trans (by rw [hcont]; exact hpas.2.1.symm)
  | true =>
    by_cases h9 : c = 9
    · subst h9
      have e2 := loop_body_tab env _ hu
      rw [hcont] at e2
      rw [loop_body_tab env s h] at hps ⊢
      rw [e2] at hpu ⊢
      exact ⟨H, by rfl, hlen, hcont, hps.1, hpu.1.congr rfl rfl rfl rfl rfl⟩
    by_cases h27 : c = 27
    · subst h27
      cases hn : env.fionread s.n_ioctl with
      | none =>
        rw [loop_body_escape_none env s hn] at hps ⊢
        rw [loop_body_escape_none env (with_heap H s) hn] at hpu ⊢
        exact ⟨H, by rfl, hlen, hcont, hps.2.1, hpu.2.1.congr rfl rfl rfl rfl rfl⟩
      | some n =>
        rw [loop_body_escape_some env s n hn] at hps ⊢
        rw [loop_body_escape_some env (with_heap H s) n hn] at hpu ⊢
        exact ⟨H, by rfl, hlen, hcont, hps.1, hpu.1.congr rfl rfl rfl rfl rfl⟩
    by_cases h18 : c = 18
    · subst h18
      have e2 := loop_body_reveal env _ hu
      rw [hcont] at e2
      rw [loop_body_reveal env s h] at hps ⊢
      rw [e2] at hpu ⊢
      by_cases h0 : 0 < s.pwindex
      · have h1 : 0 < (with_heap H s).pwindex := h0
        rw [if_pos h0] at hps ⊢
        rw [if_pos h1] at hpu ⊢
        exact ⟨H, by rfl, hlen, hcont, hps.1, hpu.1.congr rfl rfl rfl rfl rfl⟩
      · have h1 : ¬ 0 < (with_heap H s).pwindex := h0
        rw [if_neg h0] at hps ⊢
        rw [if_neg h1] at hpu ⊢
        exact ⟨H, by rfl, hlen, hcont, hps.1, hpu.1.congr rfl rfl rfl rfl rfl⟩
    by_cases h127 : c = 127
    · subst h127
      have e2 := loop_body_backspace env _ hu
      rw [hcont] at e2
      rw [loop_body_backspace env s h] at hps ⊢
      rw [e2] at hpu ⊢
      refine ⟨H, by rfl, hlen, ?_, hps.1, hpu.1.congr rfl rfl rfl rfl rfl⟩
      exact (content_pred (with_heap H s) _).trans
        (by rw [hcont]; exact (content_pred s _).symm)
    by_cases h10 : c = 10
    · subst h10
      rw [loop_body_newline env s] at hps ⊢
      rw [loop_body_newline env (with_heap H s)] at hpu ⊢
      exact ⟨H, by rfl, hlen, hcont, hps.1, hpu.1.congr rfl rfl rfl rfl rfl⟩
    rw [loop_body_ignored env c s hc h9 h10 h18 h27 h127] at hps ⊢
    rw [loop_body_ignored env c (with_heap H s) hc h9 h10 h18 h27 h127] at hpu ⊢
    exact ⟨H, by rfl, hlen, hcont, hps.1, hpu.1.congr rfl rfl rfl rfl rfl⟩

theorem shadow_with_stdin (s : State) (H : List (List Byte)) (x : List Byte)
    (h : Shadow s H) : Shadow (with_stdin x s) H := by
  obtain ⟨h1, h2, h3, h4⟩ := h
  refine ⟨h1, ?_, h3.congr rfl rfl rfl rfl rfl, h4.congr rfl rfl rfl rfl rfl⟩
  have e1 : content (with_heap H (with_stdin x s)) = content (with_heap H s) :=
    content_congr rfl rfl rfl
  have e2 : content (with_stdin x s) = content s := content_congr rfl rfl rfl
  rw [e1, e2, h2]

/-- The read loop on two heaps with the same live data: the results differ in
the heap only, and the final heaps again hold the same live data. -/
theorem main_loop_shadow (env : Env) (fuel : Nat) (s : State) (H : List (List Byte))
    (hsh : Shadow s H) (hf : s.stdin.length < fuel) :
    ∃ H1, main_loop env fuel (with_heap H s) = (main_loop env fuel s).map (with_heap H1) ∧
      (main_loop env fuel s).Post (fun t => Shadow t H1) (fun _ t => Shadow t H1) := by
  induction fuel generalizing s H with
  | zero => omega
  | succ f ih =>
    cases hs : s.stdin with
    | nil =>
      have hs2 : (with_heap H s).stdin = [] := hs
      rw [main_loop_nil env f s hs, main_loop_nil env f (with_heap H s) hs2]
      exact ⟨H, by rfl, hsh⟩
    | cons c rest =>
      have hs2 : (with_heap H s).stdin = c :: rest := hs
      have hsh1 : Shadow (with_stdin rest s) H := shadow_with_stdin s H rest hsh
      have hpost := loop_body_post env c (with_stdin rest s) hsh1.2.2.1
      obtain ⟨H1, e, hp⟩ := loop_body_shadow env c (with_stdin rest s) H hsh1
      have e2 : loop_body env c { with_heap H s with stdin := rest } =
          (loop_body env c (with_stdin rest s)).map (with_heap H1) := e
      cases hr : loop_body env c (with_stdin rest s) with
      | cont t =>
        rw [hr] at e2 hp hpost
        have hlen : t.stdin.length < f := by
          have h1 := hpost.2.2.2.2.2.2.2
          have h2 : (with_stdin rest s).stdin.length = rest.length := rfl
          rw [hs] at hf
          simp at hf
          omega
        obtain ⟨H2, e3, hp3⟩ := ih t H1 hp hlen
        refine ⟨H2, ?_, ?_⟩
        · rw [main_loop_cont env f s t c rest hs hr,
            main_loop_cont env f (with_heap H s) (with_heap H1 t) c rest hs2 e2]
          exact e3
        · rw [main_loop_cont env f s t c rest hs hr]
          exact hp3
      | brk t =>
        rw [hr] at e2 hp
        refine ⟨H1, ?_, ?_⟩
        · rw [main_loop_brk env f s t c rest hs hr,
            main_loop_brk env f (with_heap H s) (with_heap H1 t) c rest hs2 e2]
          rfl
        · rw [main_loop_brk env f s t c rest hs hr]
          exact hp
      | exit code t =>
        rw [hr] at e2 hp
        refine ⟨H1, ?_, ?_⟩
        · rw [main_loop_exit env f code s t c rest hs hr,
            main_loop_exit env f code (with_heap H s) (with_heap H1 t) c rest hs2 e2]
          rfl
        · rw [main_loop_exit env f code s t c rest hs hr]
          exact hp
      | ub => rw [hr] at hpost; exact hpost.elim

theorem main_commit_shadow (t : State) (H : List (List Byte)) (hsh : Shadow t H) :
    main_commit (with_heap H t) = (main_commit t).map (with_heap H) := by
  obtain ⟨-, hcont, h, hu⟩ := hsh
  rw [main_commit_eq t h, main_commit_eq (with_heap H t) hu, hcont]
  rfl

/-- The library function `exit` on a state that `exit_handler` can treat: the
explicit result. -/
theorem exit_eq (env : Env) (code : Nat) (s : State) (h : Safe s) :
    ∃ hp, exit env code s =
      if s.handler = true then
        if env.tcsetattr_ok s.n_tcsetattr = true then
          .terminated code
            { s with
              handler := false, heap := hp, pwbufsize := 0, pwindex := 0,
              restores := s.restores + 1, tty := s.saved_termios,
              n_tcsetattr := s.n_tcsetattr + 1 }
        else
          .terminated EXIT_FAILURE
            (write_stderr (strBytes ("Failed tcsetattr\n"))
              { s with
                handler := false, heap := hp, pwbufsize := 0, pwindex := 0,
                restores := s.restores + 1, n_tcsetattr := s.n_tcsetattr + 1 })
      else .terminated code s := by
  cases hh : s.handler with
  | false => exact ⟨[], by simp [exit, hh]⟩
  | true =>
    have hs : Safe { s with handler := false } := h.carry rfl rfl rfl
    obtain ⟨hp, hbz, -⟩ := explicit_bzero_safe _ hs
    have hbz1 : explicit_bzero s.heap s.pwbuf s.pwbufsize = some hp := hbz
    refine ⟨hp, ?_⟩
    cases hok : env.tcsetattr_ok s.n_tcsetattr with
    | true => simp [exit, hh, exit_handler, hbz1, restore_console, tcsetattr, hok]
    | false => simp [exit, hh, exit_handler, hbz1, restore_console, tcsetattr, hok]

theorem exit_shadow (env : Env) (code : Nat) (s : State) (H : List (List Byte))
    (h : Safe s) (hu : Safe (with_heap H s)) :
    ∃ H1, exit env code (with_heap H s) = (exit env code s).map (with_heap H1) := by
  obtain ⟨hp1, e1⟩ := exit_eq env code s h
  obtain ⟨hp2, e2⟩ := exit_eq env code (with_heap H s) hu
  rw [e1, e2]
  by_cases hh : s.handler = true
  · have hh2 : (with_heap H s).handler = true := hh
    rw [if_pos hh, if_pos hh2]
    by_cases hok : env.tcsetattr_ok s.n_tcsetattr = true
    · have hok2 : env.tcsetattr_ok (with_heap H s).n_tcsetattr = true := hok
      rw [if_pos hok, if_pos hok2]
      exact ⟨hp2, by rfl⟩
    · have hok2 : ¬ env.tcsetattr_ok (with_heap H s).n_tcsetattr = true := hok
      rw [if_neg hok, if_neg hok2]
      exact ⟨hp2, by rfl⟩
  · have hh2 : ¬ (with_heap H s).handler = true := hh
    rw [if_neg hh, if_neg hh2]
    exact ⟨H, by rfl⟩

/-- The rest of a run on two heaps with the same live data: the outcomes differ
in the final heap only. -/
theorem finish_shadow (env : Env) (s : State) (H : List (List Byte)) (hsh : Shadow s H) :
    ∃ H1, finish env (with_heap H s) = (finish env s).map (with_heap H1) := by
  obtain ⟨H1, e, hp⟩ := main_loop_shadow env (s.stdin.length + 1) s H hsh (Nat.lt_succ_self _)
  have e2 : main_loop env ((with_heap H s).stdin.length + 1) (with_heap H s) =
      (main_loop env (s.stdin.length + 1) s).map (with_heap H1) := e
  unfold finish
  rw [e2]
  cases hr : main_loop env (s.stdin.length + 1) s with
  | ret t =>
    rw [hr] at hp
    have hp1 : Shadow t H1 := hp
    have e3 : ((Ctl.ret t).map (with_heap H1)).bind main_commit =
        ((Ctl.ret t).bind main_commit).map (with_heap H1) := main_commit_shadow t H1 hp1
    rw [e3, Ctl.bind_ret, main_commit_eq t hp1.2.2.1]
    have hs1 : Safe (write_stdout (content t) (clear_term_line t)) :=
      hp1.2.2.1.safe.carry rfl rfl rfl
    have hs2 : Safe (with_heap H1 (write_stdout (content t) (clear_term_line t))) :=
      hp1.2.2.2.safe.carry rfl rfl rfl
    exact exit_shadow env 0 _ H1 hs1 hs2
  | exit code t =>
    rw [hr] at hp
    have hp1 : Shadow t H1 := hp
    exact exit_shadow env code t H1 hp1.2.2.1.safe hp1.2.2.2.safe
  | ub => exact ⟨H1, by rfl⟩
  | nofuel => exact ⟨H1, by rfl⟩

theorem finish_total (env : Env) (s : State) (h : Inv s) :
    ∃ code t, finish env s = .terminated code t := by
  have hpost := main_loop_post env (s.stdin.length + 1) s h (Nat.lt_succ_self _)
  unfold finish
  cases hr : main_loop env (s.stdin.length + 1) s with
  | ret t =>
    rw [hr] at hpost
    rw [Ctl.bind_ret, main_commit_eq t hpost.1]
    have hs1 : Safe (write_stdout (content t) (clear_term_line t)) :=
      hpost.1.safe.carry rfl rfl rfl
    obtain ⟨code1, u, e, -⟩ := exit_post env 0 _ hs1
    exact ⟨code1, u, e⟩
  | exit code t =>
    rw [hr] at hpost
    obtain ⟨code1, u, e, -⟩ := exit_post env code t hpost.2.1.safe
    exact ⟨code1, u, e⟩
  | ub => rw [hr] at hpost; exact hpost.elim
  | nofuel => rw [hr] at hpost; exact hpost.elim

/-- A run whose start-up succeeds is `finish` from the state after start-up. -/
theorem run_eq_finish (env : Env) (tty : Termios) (input : List Byte) (s : State)
    (h : main_startup env (init tty input) = .ret s) :
    run env tty input = finish env s := by
  unfold run main finish
  rw [h, Ctl.bind_ret]

/-- Replacing the current block by one of the same length with the same first
`pwindex` bytes gives a heap with the same live data. -/
theorem shadow_set (s : State) (h : Inv s) (a : Nat) (blk blk2 : List Byte)
    (hpa : s.pwbuf = some a) (hb : s.heap[a]? = some blk) (hl : blk2.length = blk.length)
    (ht : blk2.take s.pwindex = blk.take s.pwindex) : Shadow s (s.heap.set a blk2) := by
  have ha : a < s.heap.length := lt_length_of_getElem? hb
  have hget : (s.heap.set a blk2)[a]? = some blk2 := by
    simp [List.getElem?_set, ha]
  refine ⟨List.length_set _ _ _, ?_, h, ?_⟩
  · show ((cur_block (with_heap (s.heap.set a blk2) s)).getD []).take s.pwindex =
      ((cur_block s).getD []).take s.pwindex
    have e1 : cur_block (with_heap (s.heap.set a blk2) s) = some blk2 := by
      simp only [cur_block, with_heap, hpa]
      exact hget
    have e2 : cur_block s = some blk := by
      unfold cur_block
      rw [hpa]
      exact hb
    rw [e1, e2]
    exact ht
  · obtain ⟨a1, blk1, hpa1, hb1, hlen, hidx, hz, hm, hpos, hdvd⟩ := h
    have ea : a1 = a := Option.some.inj (hpa1.symm.trans hpa)
    subst ea
    have eb : blk1 = blk := Option.some.inj (hb1.symm.trans hb)
    subst eb
    refine ⟨a1, blk2, hpa, hget, hl.trans hlen, hidx, ?_, hm, hpos, hdvd⟩
    intro j b hj hjb
    have hjb1 : (s.heap.set a1 blk2)[j]? = some b := hjb
    rw [List.getElem?_set_ne (Ne.symm hj)] at hjb1
    exact hz j b hj hjb1

/-- C17: a byte removed by backspace is never re-exposed. Take a state that
satisfies the buffer invariant and a second state that differs from it only in
the current block, the two blocks having the same length and the same first
`pwindex` bytes (so the states agree on mode, index and live bytes and differ
in bytes at positions from the index on). Then for every following input the
rest of the run ends in both with the same status, the same writes to standard
error and the same writes to standard output; one iteration of the loop on any
byte, the reveal of byte 18 included, gives results that differ in the heap
only; and a redraw writes the same bytes in both. -/
theorem removed_byte_never_exposed (env : Env) (s : State) (h : Inv s) (a : Nat)
    (blk blk2 : List Byte) (hpa : s.pwbuf = some a) (hb : s.heap[a]? = some blk)
    (hl : blk2.length = blk.length)
    (ht : blk2.take s.pwindex = blk.take s.pwindex) :
    (∀ x : List Byte, ∃ code t u,
      finish env (with_stdin x s) = .terminated code t ∧
      finish env (with_stdin x (with_heap (s.heap.set a blk2) s)) = .terminated code u ∧
      u.stderr = t.stderr ∧ u.stdout = t.stdout) ∧
    (∀ c : Byte, ∃ H1,
      loop_body env c (with_heap (s.heap.set a blk2) s) =
        (loop_body env c s).map (with_heap H1)) ∧
    (∃ t u, print_password s = .ret t ∧
      print_password (with_heap (s.heap.set a blk2) s) = .ret u ∧ u.stderr = t.stderr ∧
      t.stderr = s.stderr ++ rendered s.current_mode (blk.take s.pwindex)) := by
  have hsh : Shadow s (s.heap.set a blk2) := shadow_set s h a blk blk2 hpa hb hl ht
  refine ⟨?_, ?_, ?_⟩
  · intro x
    have hshx := shadow_with_stdin s (s.heap.set a blk2) x hsh
    obtain ⟨H1, e⟩ := finish_shadow env (with_stdin x s) (s.heap.set a blk2) hshx
    obtain ⟨code, t, et⟩ := finish_total env (with_stdin x s) hshx.2.2.1
    have e2 : finish env (with_stdin x (with_heap (s.heap.set a blk2) s)) =
        (finish env (with_stdin x s)).map (with_heap H1) := e
    rw [et] at e2
    exact ⟨code, t, with_heap H1 t, et, e2, rfl, rfl⟩
  · intro c
    obtain ⟨H1, e, -⟩ := loop_body_shadow env c s (s.heap.set a blk2) hsh
    exact ⟨H1, e⟩
  · have hc : content s = blk.take s.pwindex := by
      simp only [content, cur_block, hpa, hb, Option.getD_some]
    refine ⟨_, _, print_password_inv s h, print_password_inv _ hsh.2.2.2, ?_, ?_⟩
    · show s.stderr ++ rendered s.current_mode (content (with_heap (s.heap.set a blk2) s)) =
        s.stderr ++ rendered s.current_mode (content s)
      rw [hsh.2.1]
    · show s.stderr ++ rendered s.current_mode (content s) = _
      rw [hc]

set_option maxRecDepth 100000 in
theorem removed_byte_never_exposed_witness :
    Inv (state_a []) ∧
    (([97, 55] ++ List.replicate 254 0 : List Byte).take (state_a []).pwindex =
      ((97 :: List.replicate 255 0 : List Byte)).take (state_a []).pwindex) ∧
    ((∀ x : List Byte, ∃ code t u,
      finish (env_ok 0) (with_stdin x (state_a [])) = .terminated code t ∧
      finish (env_ok 0) (with_stdin x (with_heap
        ((state_a []).heap.set 0 ([97, 55] ++ List.replicate 254 0)) (state_a []))) =
          .terminated code u ∧
      u.stderr = t.stderr ∧ u.stdout = t.stdout) ∧
    (∀ c : Byte, ∃ H1,
      loop_body (env_ok 0) c (with_heap
        ((state_a []).heap.set 0 ([97, 55] ++ List.replicate 254 0)) (state_a [])) =
        (loop_body (env_ok 0) c (state_a [])).map (with_heap H1)) ∧
    (∃ t u, print_password (state_a []) = .ret t ∧
      print_password (with_heap
        ((state_a []).heap.set 0 ([97, 55] ++ List.replicate 254 0)) (state_a [])) = .ret u ∧
      u.stderr = t.stderr ∧
      t.stderr = (state_a []).stderr ++ rendered (state_a []).current_mode
        ((97 :: List.replicate 255 0 : List Byte).take (state_a []).pwindex))) :=
  ⟨reachable_inv (env_ok 0) _ (state_a_reachable []), by rfl,
    removed_byte_never_exposed (env_ok 0) (state_a []) (reachable_inv (env_ok 0) _ (state_a_reachable []))
      0 (97 :: List.replicate 255 0) ([97, 55] ++ List.replicate 254 0) rfl rfl
      (by simp) (by rfl)⟩

theorem set_append_replicate (xs : List Byte) (x : Byte) (k : Nat) :
    (xs ++ List.replicate (k + 1) 0).set xs.length x = xs ++ [x] ++ List.replicate k 0 := by
  induction xs with
  | nil => rfl
  | cons y ys ih =>
    show y :: List.set (ys ++ List.replicate (k + 1) 0) ys.length x =
      y :: (ys ++ [x] ++ List.replicate k 0)
    rw [ih]

theorem state_typed_step (env : Env) (xs : List Byte) (x : Byte) (tail : List Byte)
    (hx : iscntrl x = false) (hlen : xs.length < PWBUF_SIZE)
    (hinv : Inv (state_typed xs (x :: tail))) :
    loop_body env x { state_typed xs (x :: tail) with stdin := tail } =
      .cont (state_typed (xs ++ [x]) tail) := by
  have hinv1 : Inv { state_typed xs (x :: tail) with stdin := tail } :=
    hinv.congr rfl rfl rfl rfl rfl
  have hc : content { state_typed xs (x :: tail) with stdin := tail } = xs := by
    show (xs ++ List.replicate (PWBUF_SIZE - xs.length) 0).take xs.length = xs
    simp
  obtain ⟨k, hk⟩ : ∃ k, PWBUF_SIZE - xs.length = k + 1 := ⟨PWBUF_SIZE - xs.length - 1, by omega⟩
  have hk2 : PWBUF_SIZE - (xs ++ [x]).length = k := by
    rw [List.length_append]
    show PWBUF_SIZE - (xs.length + 1) = k
    omega
  rw [loop_body_append env x _ hx,
    append_branch_room_eq env x _ hinv1 0 (xs ++ List.replicate (PWBUF_SIZE - xs.length) 0)
      rfl (by rfl) hlen, Ctl.andThen_ret, hc]
  have key : ∀ (H H1 : List (List Byte)) (P P1 : Nat) (E E1 : List (List Byte)),
      H = H1 → P = P1 → E = E1 →
      Flow.cont { start_state tty_cooked tail with heap := H, pwindex := P, stderr := E } =
        Flow.cont { start_state tty_cooked tail with heap := H1, pwindex := P1, stderr := E1 } := by
    intro H H1 P P1 E E1 h1 h2 h3
    rw [h1, h2, h3]
  refine key _ _ _ _ _ _ ?_ ?_ ?_
  · show [List.set (xs ++ List.replicate (PWBUF_SIZE - xs.length) 0) xs.length x] =
      [xs ++ [x] ++ List.replicate (PWBUF_SIZE - (xs ++ [x]).length) 0]
    rw [hk, hk2, set_append_replicate]
  · show xs.length + 1 = (xs ++ [x]).length
    rw [List.length_append]
    rfl
  · show rendered MODE_ECHO [] ++ redraws MODE_ECHO [] xs ++ rendered MODE_ECHO (xs ++ [x]) =
      rendered MODE_ECHO [] ++ redraws MODE_ECHO [] (xs ++ [x])
    rw [redraws_snoc, List.nil_append, List.append_assoc]

/-- When start-up succeeds, the state after entering at most `PWBUF_SIZE`
non-control bytes is a state of the read loop. -/
theorem state_typed_reachable (env : Env) (h1 : env.atexit_ok = true)
    (h2 : env.prctl_ok = true) (h3 : env.tcgetattr_ok = true)
    (h4 : env.tcsetattr_ok 0 = true) (h5 : env.calloc_ok 0 = true)
    (h6 : env.mlock_ok 0 = true) (bs : List Byte) (hbs : ∀ b ∈ bs, iscntrl b = false)
    (hlen : bs.length ≤ PWBUF_SIZE) (tail : List Byte) :
    Reachable env (state_typed bs tail) := by
  induction bs using List.reverseRecOn generalizing tail with
  | nil =>
    have e : state_typed [] tail = start_state tty_cooked tail := by
      show ({ start_state tty_cooked tail with
        heap := [[] ++ List.replicate (PWBUF_SIZE - 0) 0], pwindex := 0,
        stderr := rendered MODE_ECHO [] ++ [] } : State) = _
      rw [List.append_nil]
      rfl
    rw [e]
    exact Reachable.start tty_cooked tail _ (main_startup_ok env tty_cooked tail h1 h2 h3 h4 h5 h6)
  | append_singleton xs x ih =>
    have hlen1 : xs.length < PWBUF_SIZE := by
      rw [List.length_append] at hlen
      have : [x].length = 1 := rfl
      omega
    have hr := ih (fun b hb => hbs b (List.mem_append_left _ hb)) (Nat.le_of_lt hlen1)
      (x :: tail)
    exact Reachable.step (state_typed xs (x :: tail)) x tail _ hr rfl
      (state_typed_step env xs x tail (hbs x (by simp)) hlen1 (reachable_inv env _ hr))

theorem main_alloc_ok (env : Env) (tty : Termios) (input : List Byte)
    (h1 : env.atexit_ok = true) (h2 : env.prctl_ok = true) (h3 : env.tcgetattr_ok = true)
    (h4 : env.tcsetattr_ok 0 = true) (h5 : env.calloc_ok 0 = true)
    (h6 : env.mlock_ok 0 = true) :
    main_alloc env (init tty input) = .ret (alloc_state tty input) := by
  simp [main_alloc, main_prelude, setup_console, enter_raw_mode, tcsetattr, h1,
    h2, h3, h4, h5, h6, Ctl.bind, init, allocate_pw_buf, calloc, mlock, alloc_state]

/-- C16: the capacity is `PWBUF_SIZE` when `allocate_pw_buf` returns, and it
does return when the calls of start-up succeed.  In every state of the read
loop an iteration on any byte goes on, leaves the loop or ends in a fatal exit
(it never makes an out-of-bounds access).  An iteration that goes on or leaves
the loop hands back the capacity unchanged, except when the byte is a
non-control byte and the index equals the capacity, in which case the capacity
is larger by exactly `PWBUF_SIZE`; an iteration that ends in a fatal exit
leaves the capacity as it was.  A non-control byte that meets a full buffer
does go on with the capacity larger by exactly `PWBUF_SIZE` and the byte
appended when `calloc` and `mlock` succeed, and ends in a fatal exit with the
capacity unchanged when one of them fails; a non-control byte that finds room
goes on with the capacity unchanged.  In every state of the read loop the
capacity is a positive multiple of `PWBUF_SIZE`. -/
theorem capacity_evolution (env : Env) :
    (∀ tty input s, main_alloc env (init tty input) = .ret s → s.pwbufsize = PWBUF_SIZE) ∧
    (∀ tty input, env.atexit_ok = true → env.prctl_ok = true → env.tcgetattr_ok = true →
      env.tcsetattr_ok 0 = true → env.calloc_ok 0 = true → env.mlock_ok 0 = true →
      ∃ s, main_alloc env (init tty input) = .ret s ∧ s.pwbufsize = PWBUF_SIZE) ∧
    (∀ s, Reachable env s → ∀ c, ∃ t,
      loop_body env c s = .cont t ∨ loop_body env c s = .brk t ∨
        ∃ code, loop_body env c s = .exit code t) ∧
    (∀ s, Reachable env s → ∀ c t,
      loop_body env c s = .cont t ∨ loop_body env c s = .brk t →
      t.pwbufsize =
        if iscntrl c = false ∧ s.pwindex = s.pwbufsize then s.pwbufsize + PWBUF_SIZE
        else s.pwbufsize) ∧
    (∀ s, Reachable env s → ∀ c code t,
      loop_body env c s = .exit code t → t.pwbufsize = s.pwbufsize) ∧
    (∀ s, Reachable env s → ∀ c, iscntrl c = false → s.pwindex = s.pwbufsize →
      env.calloc_ok s.n_calloc = true → env.mlock_ok s.n_mlock = true →
      ∃ t, loop_body env c s = .cont t ∧ t.pwbufsize = s.pwbufsize + PWBUF_SIZE ∧
        t.pwindex = s.pwindex + 1 ∧ content t = content s ++ [c]) ∧
    (∀ s, Reachable env s → ∀ c, iscntrl c = false → s.pwindex = s.pwbufsize →
      env.calloc_ok s.n_calloc = false ∨ env.mlock_ok s.n_mlock = false →
      ∃ t, loop_body env c s = .exit EXIT_FAILURE t ∧ t.pwbufsize = s.pwbufsize) ∧
    (∀ s, Reachable env s → ∀ c, iscntrl c = false → s.pwindex < s.pwbufsize →
      ∃ t, loop_body env c s = .cont t ∧ t.pwbufsize = s.pwbufsize ∧
        t.pwindex = s.pwindex + 1 ∧ content t = content s ++ [c]) ∧
    (∀ s, Reachable env s → 0 < s.pwbufsize ∧ PWBUF_SIZE ∣ s.pwbufsize) := by
  refine ⟨?_, ?_, ?_, ?_, ?_, ?_, ?_, ?_, ?_⟩
  · intro tty input s hs
    have hp := main_alloc_post env tty input
    rw [hs] at hp
    rw [hp.1]
    rfl
  · intro tty input h1 h2 h3 h4 h5 h6
    exact ⟨alloc_state tty input, main_alloc_ok env tty input h1 h2 h3 h4 h5 h6, rfl⟩
  · intro s hs c
    have hp := loop_body_post env c s (reachable_inv env s hs)
    cases hr : loop_body env c s with
    | cont t => exact ⟨t, Or.inl rfl⟩
    | brk t => exact ⟨t, Or.inr (Or.inl rfl)⟩
    | exit code t => exact ⟨t, Or.inr (Or.inr ⟨code, rfl⟩)⟩
    | ub => rw [hr] at hp; exact hp.elim
  · intro s hs c t ht
    have hp := loop_body_capacity env c s (reachable_inv env s hs)
    rcases ht with ht | ht
    · rw [ht] at hp
      exact hp
    · rw [ht] at hp
      have hc : iscntrl c = true := by
        cases hc : iscntrl c with
        | true => rfl
        | false =>
          exfalso
          rw [loop_body_append env c s hc] at ht
          cases hr : append_branch env c s with
          | ret u => rw [hr] at ht; cases ht
          | exit code u => rw [hr] at ht; cases ht
          | ub => rw [hr] at ht; cases ht
          | nofuel => rw [hr] at ht; cases ht
      have hp1 : t.pwbufsize = s.pwbufsize := hp
      rw [hp1]
      simp [hc]
  · intro s hs c code t ht
    have hp := loop_body_capacity env c s (reachable_inv env s hs)
    rw [ht] at hp
    exact hp
  · intro s hs c hc hfull hca hml
    have hinv := reachable_inv env s hs
    obtain ⟨a, blk, hpa, hb, -⟩ := id hinv
    have hpost := append_branch_post env c s hinv
    rw [loop_body_append env c s hc,
      append_branch_grown_eq env c s hinv a blk hpa hb hfull hca hml] at *
    exact ⟨_, by rw [Ctl.andThen_ret], by rfl, by rfl, hpost.2.1⟩
  · intro s hs c hc hfull hf
    rw [loop_body_append env c s hc, append_branch_failed env c s hfull hf]
    by_cases h1 : env.calloc_ok s.n_calloc = true
    · rw [if_pos h1]
      exact ⟨_, by rfl, by rfl⟩
    · rw [if_neg h1]
      exact ⟨_, by rfl, by rfl⟩
  · intro s hs c hc hlt
    have hinv := reachable_inv env s hs
    obtain ⟨a, blk, hpa, hb, -⟩ := id hinv
    have hpost := append_branch_post env c s hinv
    rw [loop_body_append env c s hc,
      append_branch_room_eq env c s hinv a blk hpa hb hlt] at *
    exact ⟨_, by rw [Ctl.andThen_ret], by rfl, by rfl, hpost.2.1⟩
  · intro s hs
    obtain ⟨a, blk, hp, hb, hl, hi, hz, hm, hpos, hdvd⟩ := reachable_inv env s hs
    exact ⟨hpos, hdvd⟩

set_option maxRecDepth 100000 in
theorem capacity_evolution_witness :
    (alloc_state tty_cooked [97]).pwbufsize = PWBUF_SIZE ∧
    (state_a []).pwbufsize =
      (if iscntrl 97 = false ∧
          ({ start_state tty_cooked [97] with stdin := [] } : State).pwindex =
            ({ start_state tty_cooked [97] with stdin := [] } : State).pwbufsize
        then ({ start_state tty_cooked [97] with stdin := [] } : State).pwbufsize + PWBUF_SIZE
        else ({ start_state tty_cooked [97] with stdin := [] } : State).pwbufsize) ∧
    (0 < (state_a []).pwbufsize ∧ PWBUF_SIZE ∣ (state_a []).pwbufsize) ∧
    Reachable (env_ok 0) (state_typed (List.replicate 256 97) []) ∧
    (state_typed (List.replicate 256 97) []).pwindex = 256 ∧
    (state_typed (List.replicate 256 97) []).pwbufsize = 256 ∧
    (∃ t, loop_body (env_ok 0) 97 (state_typed (List.replicate 256 97) []) = .cont t ∧
      t.pwbufsize = 512 ∧ t.pwindex = 257 ∧
      content t = content (state_typed (List.replicate 256 97) []) ++ [97]) :=
  ⟨(capacity_evolution (env_ok 0)).1 tty_cooked [97] _ (by decide),
    (capacity_evolution (env_ok 0)).2.2.2.1 { start_state tty_cooked [97] with stdin := [] }
      (Reachable.read _ 97 [] (Reachable.start tty_cooked [97] _ (by decide)) rfl) 97
      (state_a []) (Or.inl (by decide)),
    (capacity_evolution (env_ok 0)).2.2.2.2.2.2.2.2 (state_a []) (state_a_reachable []),
    state_typed_reachable (env_ok 0) rfl rfl rfl rfl rfl rfl (List.replicate 256 97)
      (fun b hb => by rw [List.eq_of_mem_replicate hb]; decide) (by simp [PWBUF_SIZE]) [],
    by simp [state_typed],
    by rfl,
    (capacity_evolution (env_ok 0)).2.2.2.2.2.1 (state_typed (List.replicate 256 97) [])
      (state_typed_reachable (env_ok 0) rfl rfl rfl rfl rfl rfl (List.replicate 256 97)
        (fun b hb => by rw [List.eq_of_mem_replicate hb]; decide) (by simp [PWBUF_SIZE]) [])
      97 (by decide) (by simp [state_typed, start_state, alloc_state, PWBUF_SIZE])
      rfl rfl⟩

/-- Everything before `allocate_pw_buf` returns neither reads nor changes the
pending input. -/
theorem main_alloc_stdin (env : Env) (tty : Termios) (x y : List Byte) :
    main_alloc env (init tty x) = (main_alloc env (init tty y)).map (with_stdin x) := by
  cases h1 : env.atexit_ok <;> cases h2 : env.prctl_ok <;> cases h3 : env.tcgetattr_ok <;>
    cases h4 : env.tcsetattr_ok 0 <;> cases h5 : env.calloc_ok 0 <;>
    cases h6 : env.mlock_ok 0 <;>
    simp [main_alloc, main_prelude, setup_console, enter_raw_mode, tcsetattr, allocate_pw_buf,
      calloc, mlock, Ctl.bind, init, h1, h2, h3, h4, h5, h6, Ctl.map, with_stdin, write_stderr]

theorem main_startup_stdin (env : Env) (tty : Termios) (x y : List Byte) :
    main_startup env (init tty x) = (main_startup env (init tty y)).map (with_stdin x) := by
  have hp := main_alloc_post env tty y
  have hx := main_alloc_stdin env tty x y
  cases hr : main_alloc env (init tty y) with
  | ret t =>
    rw [hr] at hp
    obtain ⟨-, h1, h2, h3, h4, h5, h6⟩ := hp
    rw [main_startup_ok env tty x h1 h2 h3 h4 h5 h6, main_startup_ok env tty y h1 h2 h3 h4 h5 h6]
    rfl
  | exit code t =>
    rw [hr] at hx
    unfold main_startup
    rw [hx, hr]
    rfl
  | ub => rw [hr] at hp; exact hp.elim
  | nofuel => rw [hr] at hp; exact hp.elim

theorem main_commit_stdin (l : State) (z : List Byte) (h : Inv l) :
    main_commit (with_stdin z l) = (main_commit l).map (with_stdin z) := by
  have hz : Inv (with_stdin z l) := h.congr rfl rfl rfl rfl rfl
  have hc : content (with_stdin z l) = content l := content_congr rfl rfl rfl
  rw [main_commit_eq l h, main_commit_eq (with_stdin z l) hz, hc]
  rfl

theorem exit_stdin (env : Env) (code : Nat) (s : State) (z : List Byte) (h : Safe s) :
    exit env code (with_stdin z s) = (exit env code s).map (with_stdin z) := by
  cases hh : s.handler with
  | false =>
    have hh2 : (with_stdin z s).handler = false := hh
    simp [exit, hh, hh2, Outcome.map]
  | true =>
    have hh2 : (with_stdin z s).handler = true := hh
    have hs : Safe { s with handler := false } := h.carry rfl rfl rfl
    obtain ⟨hp, hbz, -⟩ := explicit_bzero_safe _ hs
    have hbz1 : explicit_bzero s.heap s.pwbuf s.pwbufsize = some hp := hbz
    have hbz2 : explicit_bzero (with_stdin z s).heap (with_stdin z s).pwbuf
        (with_stdin z s).pwbufsize = some hp := hbz
    cases hok : env.tcsetattr_ok s.n_tcsetattr with
    | true =>
      have hok2 : env.tcsetattr_ok (with_stdin z s).n_tcsetattr = true := hok
      simp [exit, hh, hh2, exit_handler, hbz1, hbz2, restore_console, tcsetattr, hok, hok2,
        Outcome.map]
      rfl
    | false =>
      have hok2 : env.tcsetattr_ok (with_stdin z s).n_tcsetattr = false := hok
      simp [exit, hh, hh2, exit_handler, hbz1, hbz2, restore_console, tcsetattr, hok, hok2,
        Outcome.map]
      rfl

/-- The rest of a run with a newline added at the end of the pending input:
the outcome differs in the pending input only. -/
theorem finish_newline_appended (env : Env) (s : State) (h : Inv s) :
    ∃ z, finish env (with_stdin (s.stdin ++ [10]) s) = (finish env s).map (with_stdin z) := by
  obtain ⟨z, e⟩ := main_loop_newline_appended env (s.stdin.length + 1) s h (Nat.lt_succ_self _)
  have hfuel : (with_stdin (s.stdin ++ [10]) s).stdin.length + 1 = s.stdin.length + 1 + 1 := by
    show (s.stdin ++ [10]).length + 1 = _
    rw [List.length_append]
    rfl
  have hpost := main_loop_post env (s.stdin.length + 1) s h (Nat.lt_succ_self _)
  refine ⟨z, ?_⟩
  unfold finish
  rw [hfuel, e]
  cases hr : main_loop env (s.stdin.length + 1) s with
  | ret l =>
    rw [hr] at hpost
    have e3 : ((Ctl.ret l).map (with_stdin z)).bind main_commit =
        ((Ctl.ret l).bind main_commit).map (with_stdin z) := main_commit_stdin l z hpost.1
    rw [e3, Ctl.bind_ret, main_commit_eq l hpost.1]
    exact exit_stdin env 0 _ z (hpost.1.safe.carry rfl rfl rfl)
  | exit code l =>
    rw [hr] at hpost
    exact exit_stdin env code l z hpost.2.1.safe
  | ub => rfl
  | nofuel => rfl

/-- A whole run with a newline added at the end of the input: the outcome
differs in the pending input only. -/
theorem run_newline_appended (env : Env) (tty : Termios) (s : List Byte) :
    ∃ z, run env tty (s ++ [10]) = (run env tty s).map (with_stdin z) := by
  have hp := main_startup_post env tty s
  have hx := main_startup_stdin env tty (s ++ [10]) s
  cases hr : main_startup env (init tty s) with
  | ret t =>
    rw [hr] at hp hx
    obtain ⟨ht, -⟩ := hp
    subst ht
    rw [run_eq_finish env tty s _ hr, run_eq_finish env tty (s ++ [10]) _ hx]
    exact finish_newline_appended env (start_state tty s) (start_state_inv tty s)
  | exit code t =>
    rw [hr] at hp hx
    have e1 : run env tty s = exit env code t := by
      unfold run main
      rw [hr]
      rfl
    have e2 : run env tty (s ++ [10]) = exit env code (with_stdin (s ++ [10]) t) := by
      unfold run main
      rw [hx]
      rfl
    rw [e1, e2]
    exact ⟨s ++ [10], exit_stdin env code t _ hp.2.1⟩
  | ub => rw [hr] at hp; exact hp.elim
  | nofuel => rw [hr] at hp; exact hp.elim

set_option maxRecDepth 100000 in
/-- C12, counterexample: on the input `a` followed by end of input, when only
the restoring `tcsetattr` fails, the run commits `a` to standard output and
ends with the failure status, not with status 0. -/
theorem end_of_input_failing_restore :
    (run env_restore_fails tty_cooked [97]).status = some EXIT_FAILURE ∧
    (run env_restore_fails tty_cooked [97]).final.map (fun t => t.stdout) = some [[97]] := by
  decide

/-- C12, amended: for every input `s` and whatever calls fail, running the
program on `s` followed by end of input and running it on `s` followed by a
newline both terminate, with the same status, the same writes to standard
output and the same writes to standard error.  When start-up succeeds and the
read loop on `s` ends without a fatal exit, standard output receives exactly
one write, the first `pwindex` bytes of the buffer in the state in which the
loop on `s` ends, and the status is 0 when the restoring `tcsetattr` at exit
succeeds and `EXIT_FAILURE` when it fails.  The loop does end without a fatal
exit when the calls of start-up, every allocation and every `FIONREAD` probe
succeed. -/
theorem end_of_input_commits (env : Env) (tty : Termios) (s : List Byte) :
    (∃ code t u, run env tty s = .terminated code t ∧
      run env tty (s ++ [10]) = .terminated code u ∧
      u.stdout = t.stdout ∧ u.stderr = t.stderr ∧
      (∀ s1 l, main_startup env (init tty s) = .ret s1 →
        main_loop env (s.length + 1) s1 = .ret l →
        t.stdout = [content l] ∧
          code = if env.tcsetattr_ok 1 = true then 0 else EXIT_FAILURE)) ∧
    (env.atexit_ok = true → env.prctl_ok = true → env.tcgetattr_ok = true →
      env.tcsetattr_ok 0 = true → (∀ k, env.calloc_ok k = true) →
      (∀ k, env.mlock_ok k = true) → (∀ k, env.fionread k ≠ none) →
      ∃ s1 l, main_startup env (init tty s) = .ret s1 ∧
        main_loop env (s.length + 1) s1 = .ret l) := by
  constructor
  · obtain ⟨z, hz⟩ := run_newline_appended env tty s
    have hpm := main_post env tty s
    have hcommit : ∀ s1 l, main_startup env (init tty s) = .ret s1 →
        main_loop env (s.length + 1) s1 = .ret l →
        main env (init tty s) = .ret (write_stdout (content l) (clear_term_line l)) := by
      intro s1 l hst hl
      have hps := main_startup_post env tty s
      rw [hst] at hps
      obtain ⟨h1, -⟩ := hps
      subst h1
      have hpl := main_loop_post env (s.length + 1) (start_state tty s)
        (start_state_inv tty s) (Nat.lt_succ_self _)
      rw [hl] at hpl
      unfold main
      rw [hst, Ctl.bind_ret]
      show (main_loop env (s.length + 1) (start_state tty s)).bind main_commit = _
      rw [hl, Ctl.bind_ret, main_commit_eq l hpl.1]
    cases hm : main env (init tty s) with
    | ret m =>
      rw [hm] at hpm
      obtain ⟨hinv, -, hhand, -, hn, hstd, -⟩ := hpm
      obtain ⟨code1, t, e, hso, -, hh⟩ := exit_post env 0 m hinv.safe
      have erun : run env tty s = .terminated code1 t := by
        unfold run
        rw [hm]
        exact e
      rw [erun] at hz
      refine ⟨code1, t, with_stdin z t, erun, hz, rfl, rfl, ?_⟩
      intro s1 l hst hl
      have hmain := hcommit s1 l hst hl
      rw [hm] at hmain
      have hmeq : m = write_stdout (content l) (clear_term_line l) := Ctl.ret.inj hmain
      constructor
      · have hc : content m = content l := by
          rw [hmeq]
          exact content_congr rfl rfl rfl
        rw [hso, hstd, hc]
      · obtain ⟨-, -, -, -, hok, hfail⟩ := hh hhand
        rw [hn] at hok hfail
        cases hk : env.tcsetattr_ok 1 with
        | true => exact (hok hk).2
        | false =>
          rw [if_neg (by simp)]
          exact (hfail hk).2
    | exit c m =>
      rw [hm] at hpm
      obtain ⟨code1, t, e, -⟩ := exit_post env c m hpm.2.1
      have erun : run env tty s = .terminated code1 t := by
        unfold run
        rw [hm]
        exact e
      rw [erun] at hz
      refine ⟨code1, t, with_stdin z t, erun, hz, rfl, rfl, ?_⟩
      intro s1 l hst hl
      have hmain := hcommit s1 l hst hl
      rw [hm] at hmain
      cases hmain
    | ub => rw [hm] at hpm; exact hpm.elim
    | nofuel => rw [hm] at hpm; exact hpm.elim
  · intro h1 h2 h3 h4 hc hm hio
    obtain ⟨l, hl, -⟩ := main_loop_ok env hc hm hio (s.length + 1) (start_state tty s)
      (start_state_inv tty s) (Nat.lt_succ_self _)
    exact ⟨start_state tty s, l,
      main_startup_ok env tty s h1 h2 h3 h4 (hc 0) (hm 0), hl⟩

set_option maxRecDepth 100000 in
theorem end_of_input_commits_witness :
    ((∃ code t u, run (env_ok 1) tty_cooked [97, 27, 10, 98] = .terminated code t ∧
      run (env_ok 1) tty_cooked ([97, 27, 10, 98] ++ [10]) = .terminated code u ∧
      u.stdout = t.stdout ∧ u.stderr = t.stderr ∧
      (∀ s1 l, main_startup (env_ok 1) (init tty_cooked [97, 27, 10, 98]) = .ret s1 →
        main_loop (env_ok 1) (([97, 27, 10, 98] : List Byte).length + 1) s1 = .ret l →
        t.stdout = [content l] ∧
          code = if (env_ok 1).tcsetattr_ok 1 = true then 0 else EXIT_FAILURE)) ∧
    ((env_ok 1).atexit_ok = true → (env_ok 1).prctl_ok = true →
      (env_ok 1).tcgetattr_ok = true →
      (env_ok 1).tcsetattr_ok 0 = true → (∀ k, (env_ok 1).calloc_ok k = true) →
      (∀ k, (env_ok 1).mlock_ok k = true) → (∀ k, (env_ok 1).fionread k ≠ none) →
      ∃ s1 l, main_startup (env_ok 1) (init tty_cooked [97, 27, 10, 98]) = .ret s1 ∧
        main_loop (env_ok 1) (([97, 27, 10, 98] : List Byte).length + 1) s1 = .ret l)) ∧
    (run (env_ok 1) tty_cooked [97, 27, 10, 98]).status = some 0 ∧
    (run (env_ok 1) tty_cooked [97, 27, 10, 98]).final.map (fun t => t.stdout) =
      some [[97, 98]] ∧
    (run (env_ok 1) tty_cooked ([97, 27, 10, 98] ++ [10])).status = some 0 ∧
    (run (env_ok 1) tty_cooked ([97, 27, 10, 98] ++ [10])).final.map (fun t => t.stdout) =
      some [[97, 98]] ∧
    (run env_restore_fails tty_cooked ([97] ++ [10])).status = some EXIT_FAILURE ∧
    (run env_restore_fails tty_cooked ([97] ++ [10])).final.map (fun t => t.stdout) =
      some [[97]] :=
  ⟨end_of_input_commits (env_ok 1) tty_cooked [97, 27, 10, 98], by decide, by decide,
    by decide, by decide, by decide, by decide⟩

end Asteriskify
